import Mathlib

/-!
# Flow registry server: rate limiter, publish pipeline and query engine

A shallow embedding of `registry-server/middleware/ratelimit.go`,
`registry-server/middleware/security.go` and
`registry-server/handlers/handlers.go`, with the relational schema of
`registry-server/main.go` and the response types of
`registry-server/models/models.go`, of the reflection API of
`interop/go/flow.go`, and the properties of the design document that are
settled against them.

Conventions of the embedding.

* A `time.Time` is an integer number of nanoseconds on the process clock and a
  `time.Duration` an integer number of nanoseconds; `Time.Sub` saturates at the
  bounds of a 64-bit duration as the Go library does.
* A Go `map[string][]time.Time` is a function from keys to optional slices:
  an absent key is `none`.
* The mutex of the limiter makes every call of the middleware and every pass
  of the cleanup atomic, so each is one function on the limiter state.
-/

namespace Flow

/-! ## `middleware/ratelimit.go` -/

/-- Largest value of a `time.Duration` (`1<<63 - 1` nanoseconds). -/
def maxDuration : Int := 2 ^ 63 - 1

/-- Smallest value of a `time.Duration` (`-1 << 63` nanoseconds). -/
def minDuration : Int := -(2 ^ 63)

/-- The call `t.Sub(u)`: the duration `t - u`, replaced by the largest or the
smallest duration when the difference does not fit in one. -/
def Time.Sub (t u : Int) : Int :=
  if t - u > maxDuration then maxDuration
  else if t - u < minDuration then minDuration
  else t - u

/-- The struct `RateLimiter` without its mutex: the history of every tracked
client, the limit and the window. -/
structure RateLimiter where
  requests : String → Option (List Int)
  limit : Int
  window : Int

/-- The limiter that `NewRateLimiter(limit, window)` returns: an empty map. -/
def NewRateLimiter (limit window : Int) : RateLimiter :=
  { requests := fun _ => none, limit := limit, window := window }

/-- The loop `for _, t := range requests { if now.Sub(t) < rl.window { ... } }`
shared by the middleware and the cleanup: the timestamps still inside the
window, in their order. -/
def RateLimiter.filtered (rl : RateLimiter) (now : Int) (requests : List Int) : List Int :=
  requests.filter (fun t => decide (Time.Sub now t < rl.window))

/-- The assignment `rl.requests[ip] = ts`. -/
def RateLimiter.store (rl : RateLimiter) (ip : String) (ts : List Int) : RateLimiter :=
  { rl with requests := fun k => if k = ip then some ts else rl.requests k }

/-- The conversion `rune(n)` of an `int`: the low 32 bits, read as a signed
32-bit integer. -/
def toRune (n : Int) : Int :=
  let r := n % 2 ^ 32
  if r < 2 ^ 31 then r else r - 2 ^ 32

/-- The conversion `string(rune(n))`: the UTF-8 text of the code point, and of
U+FFFD when the value is not a valid code point. -/
def runeString (n : Int) : String :=
  let r := toRune n
  if 0 ≤ r ∧ Nat.isValidChar r.toNat then
    String.singleton (Char.ofNat r.toNat)
  else
    String.singleton (Char.ofNat 0xFFFD)

/-- What one run of the middleware does to the gin context: whether
`c.Next()` ran, the status and error text of `c.JSON` followed by `c.Abort()`
if any, and the response headers it set, in order. -/
structure Verdict where
  next : Bool
  status : Option Nat
  error : Option String
  headers : List (String × String)
deriving DecidableEq, Repr

/-- The handler returned by `(*RateLimiter).Middleware`, for a request of
client `ip` handled when the clock reads `now`: the limiter afterwards and what
the request received. -/
def RateLimiter.Middleware (rl : RateLimiter) (ip : String) (now : Int) :
    RateLimiter × Verdict :=
  match rl.requests ip with
  | none =>
    (rl.store ip [now], { next := true, status := none, error := none, headers := [] })
  | some requests =>
    let filtered := rl.filtered now requests
    if (filtered.length : Int) ≥ rl.limit then
      (rl, { next := false, status := some 429,
             error := some "Rate limit exceeded. Please try again later.",
             headers := [("X-RateLimit-Limit", runeString rl.limit),
                         ("X-RateLimit-Remaining", "0"),
                         ("Retry-After", "60")] })
    else
      let filtered := filtered ++ [now]
      (rl.store ip filtered,
       { next := true, status := none, error := none,
         headers := [("X-RateLimit-Limit", runeString rl.limit),
                     ("X-RateLimit-Remaining", runeString (rl.limit - filtered.length))] })

/-- One pass of the body of the ticker loop of `(*RateLimiter).cleanup` when
the clock reads `now`. -/
def RateLimiter.cleanup (rl : RateLimiter) (now : Int) : RateLimiter :=
  { rl with requests := fun ip =>
      match rl.requests ip with
      | none => none
      | some times =>
        let filtered := rl.filtered now times
        if filtered.length = 0 then none else some filtered }

/-- The history recorded for a client, empty when the client is not tracked. -/
def RateLimiter.history (rl : RateLimiter) (ip : String) : List Int :=
  (rl.requests ip).getD []

/-- The number of timestamps `t` stored for the client with `now.Sub(t)` less
than the window. -/
def RateLimiter.inWindow (rl : RateLimiter) (ip : String) (now : Int) : Nat :=
  (rl.filtered now (rl.history ip)).length

/-- The request was admitted: the next handler ran. -/
def Verdict.admitted (v : Verdict) : Prop := v.next = true

/-- The request was rejected with HTTP 429 and the chain stopped. -/
def Verdict.rejected (v : Verdict) : Prop := v.next = false ∧ v.status = some 429

instance (v : Verdict) : Decidable v.admitted := by unfold Verdict.admitted; infer_instance
instance (v : Verdict) : Decidable v.rejected := by unfold Verdict.rejected; infer_instance

/-- Successive requests of one client at the given clock readings: the limiter
afterwards and the verdicts in order. -/
def RateLimiter.serve (rl : RateLimiter) (ip : String) : List Int → RateLimiter × List Verdict
  | [] => (rl, [])
  | now :: rest =>
    let r := rl.Middleware ip now
    let rs := RateLimiter.serve r.1 ip rest
    (rs.1, r.2 :: rs.2)

/-! ## `models/models.go` and the schema of `runMigrations` in `main.go`

The metadata store is PostgreSQL reached through `database/sql` and `lib/pq`.
A table is the list of its rows in heap order. Column values are stored as
given: the handlers write Go strings, never NULL. A statement that fails for a
reason outside the request and the store (a lost connection, ...) is a fault
of the environment, listed per handler in a record of faults; what a statement
does to the store, and the refusal of a value that does not fit its column, is
modelled here. -/

/-- A row of table `packages` (`models.Package`). -/
structure Package where
  ID : Nat
  Name : String
  Description : String
  Author : String
  License : String
  Repository : String
  Homepage : String
  CreatedAt : Int
deriving DecidableEq, Repr

/-- A row of table `package_versions` (`models.PackageVersion`). -/
structure PackageVersion where
  ID : Nat
  PackageID : Nat
  Version : String
  DownloadURL : String
  Checksum : String
  PublishedAt : Int
  Downloads : Int
deriving DecidableEq, Repr

/-- A row of table `dependencies` (`models.Dependency`); the handlers never
write `version_constraint`, which stays NULL. -/
structure Dependency where
  ID : Nat
  PackageVersionID : Nat
  DependencyName : String
deriving DecidableEq, Repr

/-- A row of table `package_keywords`. -/
structure PackageKeyword where
  ID : Nat
  PackageID : Nat
  Keyword : String
deriving DecidableEq, Repr

/-- The four metadata tables of the publish-and-distribution core. -/
structure Tables where
  packages : List Package
  package_versions : List PackageVersion
  dependencies : List Dependency
  package_keywords : List PackageKeyword
deriving DecidableEq, Repr

/-- The next value of the sequence behind each `SERIAL` key. A sequence is not
transactional: a value drawn inside a transaction stays drawn when the
transaction rolls back. -/
structure Sequences where
  packages_id : Nat
  package_versions_id : Nat
  dependencies_id : Nat
  package_keywords_id : Nat
deriving DecidableEq, Repr

/-- The metadata store: tables and sequences. -/
structure Database where
  tables : Tables
  seqs : Sequences
deriving DecidableEq, Repr

/-- The store right after `runMigrations` on a fresh database. -/
def Database.empty : Database :=
  { tables := { packages := [], package_versions := [], dependencies := [],
                package_keywords := [] },
    seqs := { packages_id := 1, package_versions_id := 1, dependencies_id := 1,
              package_keywords_id := 1 } }

/-- The artifact store: the files under `cfg.StoragePath`, by path. -/
abbrev Files := String → Option (List UInt8)

/-- The registry: metadata store and artifact store. -/
structure Registry where
  db : Database
  files : Files

/-- The registry of a fresh installation. -/
def Registry.empty : Registry := { db := Database.empty, files := fun _ => none }

/-- The part of `config.Config` the handlers read. -/
structure Config where
  StoragePath : String
  JWTSecret : String
deriving DecidableEq, Repr

/-- The path `filepath.Join(h.cfg.StoragePath, filename)` of an artifact, for a
storage path and a file name that `filepath.Join` has nothing to clean in. -/
def joinPath (dir file : String) : String := dir ++ "/" ++ file

/-- The file name `fmt.Sprintf("%s-%s.tar.gz", name, version)`. -/
def artifactName (name version : String) : String := name ++ "-" ++ version ++ ".tar.gz"

/-- The path of the artifact of a version, as every handler computes it. -/
def Config.artifactPath (cfg : Config) (name version : String) : String :=
  joinPath cfg.StoragePath (artifactName name version)

/-- The assignment of new content to a file. -/
def Files.write (fs : Files) (path : String) (bytes : List UInt8) : Files :=
  fun k => if k = path then some bytes else fs k

/-- The call `os.Remove(path)`, its error ignored. -/
def Files.remove (fs : Files) (path : String) : Files :=
  fun k => if k = path then none else fs k

/-! ### Transactions

In PostgreSQL a statement that fails inside a transaction block puts the
transaction in the failed state: every later statement is refused, and
`lib/pq` answers `Commit` on such a transaction by rolling back and returning
`ErrInFailedTransaction`. -/

/-- A transaction in progress: the store as the transaction sees it and
whether a statement has failed in it. -/
structure Tx where
  db : Database
  failed : Bool
deriving DecidableEq, Repr

/-- The call `h.db.Begin()` on a store. -/
def Tx.begin (db : Database) : Tx := { db := db, failed := false }

/-- One statement in a transaction; `stmt` gives the store and the result of
the statement, or `none` when the store refuses it for the values it carries.
The statement fails when the transaction has already failed, when the
environment makes it fail or when the store refuses it; else it is applied to
the store. -/
def Tx.exec {α : Type} (tx : Tx) (fault : Bool) (stmt : Database → Option (Database × α)) :
    Tx × Option α :=
  if tx.failed || fault then ({ tx with failed := true }, none)
  else
    match stmt tx.db with
    | none => ({ tx with failed := true }, none)
    | some r => ((⟨r.1, false⟩ : Tx), some r.2)

/-- The outcome of `Tx.exec` for a statement that is given by whether it fails
(`refused`) and by what it does to the store when it does not. -/
def Tx.apply {α : Type} (tx : Tx) (refused : Bool) (stmt : Database → Database × α) :
    Tx × Option α :=
  if tx.failed || refused then ({ tx with failed := true }, none)
  else ((⟨(stmt tx.db).1, false⟩ : Tx), some (stmt tx.db).2)

/-- The store after `tx.Rollback()`: the tables as they were when the
transaction began, the sequences as the transaction left them. -/
def Tx.rollback (tx : Tx) (before : Database) : Database :=
  { tables := before.tables, seqs := tx.db.seqs }

/-- The call `tx.Commit()`: the store afterwards and whether it succeeded. A
commit that fails leaves the transaction rolled back. -/
def Tx.commit (tx : Tx) (fault : Bool) (before : Database) : Database × Bool :=
  if tx.failed || fault then (tx.rollback before, false) else (tx.db, true)

/-! ## `handlers/handlers.go`: responses -/

/-- The struct `models.PackageInfo`; `PublishedAt` is the instant whose
RFC 3339 text the response carries. -/
structure PackageInfo where
  Name : String
  Version : String
  Description : String
  Author : String
  License : String
  DownloadURL : String
  Checksum : String
  Dependencies : List String
  Repository : String
  Homepage : String
  Keywords : List String
  PublishedAt : Int
  Downloads : Int
deriving DecidableEq, Repr

/-- The struct `models.SearchResult`; `UpdatedAt` is the instant whose
RFC 3339 text the response carries. -/
structure SearchResult where
  Name : String
  Version : String
  Description : String
  Downloads : Int
  Keywords : List String
  License : String
  UpdatedAt : Int
deriving DecidableEq, Repr

/-- The value a handler passes to `c.JSON`, or the file it serves. -/
inductive Body where
  | error (msg : String)
  | message (msg : String)
  | publish (success : Bool) (message url : String)
  | info (i : PackageInfo)
  | versions (vs : List String)
  | search (results : List SearchResult) (total : Nat)
  | packages (results : List SearchResult)
  | file (bytes : List UInt8)
  | auth (token username email : String)
deriving DecidableEq, Repr

/-- The response of a handler: status, headers set by the handler, body. -/
structure Response where
  status : Nat
  headers : List (String × String)
  body : Body
deriving DecidableEq, Repr

/-- The response `c.JSON(status, gin.H{"error": msg})`. -/
def Response.fail (status : Nat) (msg : String) : Response :=
  { status := status, headers := [], body := Body.error msg }

/-! ## `handlers/handlers.go`: the statements of `PublishPackage`

A column `VARCHAR(n)` of the schema refuses a value of more than `n`
characters: the statement fails. Each statement is given by the row operation
on the store once the values are accepted, and by the statement itself, which
is `none` when a value does not fit its column. A value that is too long only
by trailing spaces, which the engine would cut to the column, counts as too
long here. -/

/-- The row operation of the package upsert, for values that the columns
accept: the store afterwards and the key returned. The key of the proposed
row is drawn from the sequence before the conflict is detected. -/
def upsertPackageAccepted (now : Int)
    (name description author license repository homepage : String)
    (db : Database) : Database × Nat :=
  let seqs := { db.seqs with packages_id := db.seqs.packages_id + 1 }
  match db.tables.packages.find? (fun p => decide (p.Name = name)) with
  | some p =>
    ({ tables := { db.tables with
          packages := db.tables.packages.map (fun q =>
            if q.Name = name then
              { q with Description := description, Author := author, License := license,
                       Repository := repository, Homepage := homepage }
            else q) },
       seqs := seqs }, p.ID)
  | none =>
    ({ tables := { db.tables with
          packages := db.tables.packages ++
            [{ ID := db.seqs.packages_id, Name := name, Description := description,
               Author := author, License := license, Repository := repository,
               Homepage := homepage, CreatedAt := now }] },
       seqs := seqs }, db.seqs.packages_id)

/-- The statement `INSERT INTO packages (...) VALUES (...) ON CONFLICT (name) DO
UPDATE SET description = ..., author = ..., license = ..., repository = ...,
homepage = ... RETURNING id`, run at transaction time `now`. Columns `name`
and `author` are `VARCHAR(255)` and `license` is `VARCHAR(50)`; the others are
`TEXT`. -/
def upsertPackage (now : Int) (name description author license repository homepage : String)
    (db : Database) : Option (Database × Nat) :=
  if name.length > 255 ∨ author.length > 255 ∨ license.length > 50 then Option.none
  else some (upsertPackageAccepted now name description author license repository homepage db)

/-- The query `SELECT version FROM package_versions WHERE package_id = $1 AND
version = $2` read with `QueryRow`: the first row, if any. -/
def selectVersion (packageID : Nat) (version : String) (db : Database) :
    Database × Option String :=
  (db, (db.tables.package_versions.find?
    (fun v => decide (v.PackageID = packageID ∧ v.Version = version))).map (fun v => v.Version))

/-- The row operation of the version insert, for values that the columns
accept: `published_at` defaults to `NOW()`, the transaction time, and
`downloads` to 0. -/
def insertVersionAccepted (now : Int) (packageID : Nat)
    (version downloadURL checksum : String) (db : Database) : Database × Nat :=
  ({ tables := { db.tables with
        package_versions := db.tables.package_versions ++
          [{ ID := db.seqs.package_versions_id, PackageID := packageID, Version := version,
             DownloadURL := downloadURL, Checksum := checksum, PublishedAt := now,
             Downloads := 0 }] },
     seqs := { db.seqs with package_versions_id := db.seqs.package_versions_id + 1 } },
   db.seqs.package_versions_id)

/-- The statement `INSERT INTO package_versions (package_id, version,
download_url, checksum) VALUES (...) RETURNING id`. Column `version` is
`VARCHAR(50)` and `checksum` is `VARCHAR(64)`; `download_url` is `TEXT`. -/
def insertVersion (now : Int) (packageID : Nat) (version downloadURL checksum : String)
    (db : Database) : Option (Database × Nat) :=
  if version.length > 50 ∨ checksum.length > 64 then Option.none
  else some (insertVersionAccepted now packageID version downloadURL checksum db)

/-- The row operation of the dependency insert, for a name that the column
accepts. -/
def insertDependencyAccepted (versionID : Nat) (dep : String) (db : Database) :
    Database × Unit :=
  ({ tables := { db.tables with
        dependencies := db.tables.dependencies ++
          [{ ID := db.seqs.dependencies_id, PackageVersionID := versionID,
             DependencyName := dep }] },
     seqs := { db.seqs with dependencies_id := db.seqs.dependencies_id + 1 } }, ())

/-- The statement `INSERT INTO dependencies (package_version_id,
dependency_name) VALUES ($1, $2)`. Column `dependency_name` is
`VARCHAR(255)`. -/
def insertDependency (versionID : Nat) (dep : String) (db : Database) :
    Option (Database × Unit) :=
  if dep.length > 255 then Option.none
  else some (insertDependencyAccepted versionID dep db)

/-- The row operation of the keyword insert, for a keyword that the column
accepts; the conflict of `ON CONFLICT DO NOTHING` is on
`UNIQUE(package_id, keyword)`. -/
def insertKeywordAccepted (packageID : Nat) (keyword : String) (db : Database) :
    Database × Unit :=
  let seqs := { db.seqs with package_keywords_id := db.seqs.package_keywords_id + 1 }
  if db.tables.package_keywords.any
      (fun k => decide (k.PackageID = packageID ∧ k.Keyword = keyword)) then
    ({ db with seqs := seqs }, ())
  else
    ({ tables := { db.tables with
          package_keywords := db.tables.package_keywords ++
            [{ ID := db.seqs.package_keywords_id, PackageID := packageID,
               Keyword := keyword }] },
       seqs := seqs }, ())

/-- The statement `INSERT INTO package_keywords (package_id, keyword) VALUES
($1, $2) ON CONFLICT DO NOTHING`. Column `keyword` is `VARCHAR(100)`. -/
def insertKeyword (packageID : Nat) (keyword : String) (db : Database) :
    Option (Database × Unit) :=
  if keyword.length > 100 then Option.none
  else some (insertKeywordAccepted packageID keyword db)

/-! ## `handlers/handlers.go`: `PublishPackage` -/

/-- The part `package` of the multipart form: absent (`FormFile` returns an
error), present but failing while it is read into the hasher, or present with
its bytes. -/
inductive Upload where
  | missing
  | unreadable
  | file (bytes : List UInt8)
deriving DecidableEq, Repr

/-- The fields of the multipart form that `PublishPackage` reads. -/
structure PublishForm where
  name : String
  version : String
  description : String
  author : String
  license : String
  repository : String
  homepage : String
  checksum : String
  dependencies : List String
  keywords : List String
  package : Upload
deriving DecidableEq, Repr

/-- The store operations of one publish request that the environment makes
fail, whatever values they carry: `os.Create`, the copy into the created file
(with the number of bytes written before the failure), `Begin`, the upsert,
the existence query (an error other than no rows), the version insert, the
dependency and keyword inserts by index in their slice, and `Commit`. -/
structure PublishFaults where
  create : Bool
  copy : Option Nat
  begin : Bool
  upsert : Bool
  check : Bool
  insertVersion : Bool
  dependency : Nat → Bool
  keyword : Nat → Bool
  commit : Bool

/-- No store operation fails. -/
def PublishFaults.none : PublishFaults :=
  { create := false, copy := Option.none, begin := false, upsert := false, check := false,
    insertVersion := false, dependency := fun _ => false, keyword := fun _ => false,
    commit := false }

/-- The loop `for _, dep := range dependencies` from index `i` on: the
transaction afterwards and whether every insert succeeded; at the first insert
that fails the handler returns. -/
def insertDependencies (fault : Nat → Bool) (versionID : Nat) :
    Nat → List String → Tx → Tx × Bool
  | _, [], tx => (tx, true)
  | i, dep :: rest, tx =>
    if dep ≠ "" then
      match (tx.exec (fault i) (insertDependency versionID dep)) with
      | (tx1, Option.none) => (tx1, false)
      | (tx1, some _) => insertDependencies fault versionID (i + 1) rest tx1
    else insertDependencies fault versionID (i + 1) rest tx

/-- The loop `for _, keyword := range keywords` from index `i` on: an insert
that fails is skipped with `continue`. -/
def insertKeywords (fault : Nat → Bool) (packageID : Nat) : Nat → List String → Tx → Tx
  | _, [], tx => tx
  | i, keyword :: rest, tx =>
    if keyword ≠ "" then
      insertKeywords fault packageID (i + 1) rest
        (tx.exec (fault i) (insertKeyword packageID keyword)).1
    else insertKeywords fault packageID (i + 1) rest tx

/-- The URL `fmt.Sprintf("https://registry.flowc.dev/api/v1/packages/%s/%s/download",
name, version)`. -/
def downloadURL (name version : String) : String :=
  "https://registry.flowc.dev/api/v1/packages/" ++ name ++ "/" ++ version ++ "/download"

/-- The success response of `PublishPackage`. -/
def publishOK (username name : String) : Response :=
  { status := 200, headers := [],
    body := Body.publish true ("Package published successfully by " ++ username)
      ("https://registry.flowc.dev/packages/" ++ name) }

/-- The metadata transaction of `PublishPackage` (from `h.db.Begin()` to the
end of the handler, the deferred `tx.Rollback()` included) on the metadata
store: the store afterwards and the response. -/
def publishTx (f : PublishFaults) (now : Int) (username : String) (r : PublishForm)
    (db : Database) : Database × Response :=
  if f.begin then (db, Response.fail 500 "Database error")
  else
    match (Tx.begin db).exec f.upsert
        (upsertPackage now r.name r.description r.author r.license r.repository r.homepage) with
    | (tx1, Option.none) => (tx1.rollback db, Response.fail 500 "Failed to create package")
    | (tx1, some packageID) =>
      match tx1.exec f.check (fun db => some (selectVersion packageID r.version db)) with
      | (tx2, some (some _)) => (tx2.rollback db, Response.fail 409 "Version already exists")
      | (tx2, _) =>
        match tx2.exec f.insertVersion
            (insertVersion now packageID r.version (downloadURL r.name r.version) r.checksum) with
        | (tx3, Option.none) => (tx3.rollback db, Response.fail 500 "Failed to create version")
        | (tx3, some versionID) =>
          match insertDependencies f.dependency versionID 0 r.dependencies tx3 with
          | (tx4, false) => (tx4.rollback db, Response.fail 500 "Failed to add dependencies")
          | (tx4, true) =>
            match (insertKeywords f.keyword packageID 0 r.keywords tx4).commit f.commit db with
            | (db1, false) => (db1, Response.fail 500 "Failed to commit transaction")
            | (db1, true) => (db1, publishOK username r.name)

/-- The handler `(*Handler).PublishPackage`, for the user name that the auth
middleware left in the context and the multipart form of the request (`none`
when `ParseMultipartForm` fails), with `sha256hex` the lowercase hexadecimal
SHA-256 digest (`fmt.Sprintf("%x", hasher.Sum(nil))`): the registry afterwards
and the response. -/
def PublishPackage (sha256hex : List UInt8 → String) (cfg : Config) (f : PublishFaults)
    (now : Int) (username : String) (form : Option PublishForm) (s : Registry) :
    Registry × Response :=
  match form with
  | Option.none => (s, Response.fail 400 "Failed to parse form")
  | some r =>
    if r.name = "" ∨ r.version = "" ∨ r.author = "" ∨ r.checksum = "" then
      (s, Response.fail 400 "Missing required fields")
    else
      match r.package with
      | Upload.missing => (s, Response.fail 400 "Package file required")
      | Upload.unreadable => (s, Response.fail 500 "Failed to read file")
      | Upload.file bytes =>
        if sha256hex bytes ≠ r.checksum then (s, Response.fail 400 "Checksum mismatch")
        else if f.create then (s, Response.fail 500 "Failed to save file")
        else
          match f.copy with
          | some n =>
            ({ s with files := s.files.write (cfg.artifactPath r.name r.version)
                                 (bytes.take n) },
             Response.fail 500 "Failed to save file")
          | Option.none =>
            ({ db := (publishTx f now username r s.db).1,
               files := s.files.write (cfg.artifactPath r.name r.version) bytes },
             (publishTx f now username r s.db).2)

/-! ## `handlers/handlers.go`: `GetPackageInfo`, `ListVersions`, `DownloadPackage`,
`DeletePackage` -/

/-- The clause `ORDER BY published_at DESC` on version rows. SQL leaves the
order of rows of equal key open; here they keep their heap order. -/
def orderByPublishedAtDesc (vs : List PackageVersion) : List PackageVersion :=
  vs.insertionSort (fun a b => a.PublishedAt ≥ b.PublishedAt)

instance : IsTotal PackageVersion (fun a b => a.PublishedAt ≥ b.PublishedAt) :=
  ⟨fun a b => le_total b.PublishedAt a.PublishedAt⟩

instance : IsTrans PackageVersion (fun a b => a.PublishedAt ≥ b.PublishedAt) :=
  ⟨fun _ _ _ hab hbc => le_trans hbc hab⟩

/-- The query `SELECT ... FROM packages WHERE name = $1` read with `QueryRow`. -/
def Tables.packageByName (t : Tables) (name : String) : Option Package :=
  t.packages.find? (fun p => decide (p.Name = name))

/-- The rows `SELECT ... FROM package_versions WHERE package_id = $1 ORDER BY
published_at DESC`. -/
def Tables.versionsOf (t : Tables) (packageID : Nat) : List PackageVersion :=
  orderByPublishedAtDesc (t.package_versions.filter (fun v => decide (v.PackageID = packageID)))

/-- The rows `SELECT dependency_name FROM dependencies WHERE
package_version_id = $1`. -/
def Tables.dependenciesOf (t : Tables) (versionID : Nat) : List String :=
  (t.dependencies.filter (fun d => decide (d.PackageVersionID = versionID))).map
    (fun d => d.DependencyName)

/-- The rows `SELECT keyword FROM package_keywords WHERE package_id = $1`. -/
def Tables.keywordsOf (t : Tables) (packageID : Nat) : List String :=
  (t.package_keywords.filter (fun k => decide (k.PackageID = packageID))).map
    (fun k => k.Keyword)

/-- The queries of `GetPackageInfo` that the environment makes fail. -/
structure InfoFaults where
  package : Bool
  version : Bool
  dependencies : Bool
  keywords : Bool
deriving DecidableEq, Repr

/-- No query fails. -/
def InfoFaults.none : InfoFaults :=
  { package := false, version := false, dependencies := false, keywords := false }

/-- The handler `(*Handler).GetPackageInfo` for route parameter `name`. -/
def GetPackageInfo (f : InfoFaults) (name : String) (s : Registry) : Response :=
  if f.package then Response.fail 500 "Database error"
  else
    match s.db.tables.packageByName name with
    | Option.none => Response.fail 404 ("Package \'" ++ name ++ "\' not found")
    | some pkg =>
      if f.version then Response.fail 500 "No versions found"
      else
        match (s.db.tables.versionsOf pkg.ID).head? with
        | Option.none => Response.fail 500 "No versions found"
        | some version =>
          if f.dependencies then Response.fail 500 "Database error"
          else if f.keywords then Response.fail 500 "Database error"
          else
            { status := 200, headers := [],
              body := Body.info
                { Name := pkg.Name, Version := version.Version,
                  Description := pkg.Description, Author := pkg.Author,
                  License := pkg.License, DownloadURL := version.DownloadURL,
                  Checksum := version.Checksum,
                  Dependencies := s.db.tables.dependenciesOf version.ID,
                  Repository := pkg.Repository, Homepage := pkg.Homepage,
                  Keywords := s.db.tables.keywordsOf pkg.ID,
                  PublishedAt := version.PublishedAt, Downloads := version.Downloads } }

/-- The queries of `ListVersions` that the environment makes fail. -/
structure VersionsFaults where
  package : Bool
  versions : Bool
deriving DecidableEq, Repr

/-- No query fails. -/
def VersionsFaults.none : VersionsFaults := { package := false, versions := false }

/-- The handler `(*Handler).ListVersions` for route parameter `name`. -/
def ListVersions (f : VersionsFaults) (name : String) (s : Registry) : Response :=
  if f.package then Response.fail 500 "Database error"
  else
    match s.db.tables.packageByName name with
    | Option.none => Response.fail 404 ("Package \'" ++ name ++ "\' not found")
    | some pkg =>
      if f.versions then Response.fail 500 "Database error"
      else
        { status := 200, headers := [],
          body := Body.versions ((s.db.tables.versionsOf pkg.ID).map (fun v => v.Version)) }

/-- The query `SELECT ... FROM package_versions pv JOIN packages p ON
pv.package_id = p.id WHERE p.name = $1 AND pv.version = $2` read with
`QueryRow`: the first version row that joins a package of that name. -/
def Tables.versionByName (t : Tables) (name version : String) : Option PackageVersion :=
  t.package_versions.find? (fun pv =>
    decide (pv.Version = version) &&
      t.packages.any (fun p => decide (pv.PackageID = p.ID ∧ p.Name = name)))

/-- Largest value of an SQL `INTEGER`, the type of column `downloads`. -/
def maxInteger : Int := 2147483647

/-- The statement `UPDATE package_versions SET downloads = downloads + 1 WHERE
id = $1`: `none` when the store refuses it because a sum leaves the range of
`INTEGER`. -/
def incrementDownloads (versionID : Nat) (db : Database) : Option Database :=
  if db.tables.package_versions.any
      (fun v => decide (v.ID = versionID ∧ v.Downloads + 1 > maxInteger)) then Option.none
  else
    some { db with tables := { db.tables with
      package_versions := db.tables.package_versions.map (fun v =>
        if v.ID = versionID then { v with Downloads := v.Downloads + 1 } else v) } }

/-- The store operations of `DownloadPackage` that the environment makes fail;
the handler ignores the outcome of the update. -/
structure DownloadFaults where
  query : Bool
  update : Bool
deriving DecidableEq, Repr

/-- No store operation fails. -/
def DownloadFaults.none : DownloadFaults := { query := false, update := false }

/-- The handler `(*Handler).DownloadPackage` for route parameters `name` and
`version`: the registry afterwards and the response; `c.File` answers with the
bytes of the file. -/
def DownloadPackage (cfg : Config) (f : DownloadFaults) (name version : String)
    (s : Registry) : Registry × Response :=
  if f.query then (s, Response.fail 500 "Database error")
  else
    match s.db.tables.versionByName name version with
    | Option.none => (s, Response.fail 404 "Package version not found")
    | some pv =>
      let db := if f.update then s.db else (incrementDownloads pv.ID s.db).getD s.db
      match s.files (cfg.artifactPath name version) with
      | Option.none => ({ s with db := db }, Response.fail 404 "Package file not found")
      | some bytes =>
        ({ s with db := db },
         { status := 200,
           headers := [("Content-Type", "application/gzip"), ("X-Checksum", pv.Checksum),
                       ("Content-Disposition",
                         "attachment; filename=" ++ artifactName name version)],
           body := Body.file bytes })

/-- The statement `DELETE FROM package_versions WHERE id = $1`, with the
`ON DELETE CASCADE` of `dependencies.package_version_id`. -/
def deleteVersion (versionID : Nat) (db : Database) : Database :=
  { db with tables := { db.tables with
      package_versions := db.tables.package_versions.filter (fun v => decide (v.ID ≠ versionID)),
      dependencies := db.tables.dependencies.filter
        (fun d => decide (d.PackageVersionID ≠ versionID)) } }

/-- The store operations of `DeletePackage` that the environment makes fail. -/
structure DeleteFaults where
  query : Bool
  exec : Bool
deriving DecidableEq, Repr

/-- No store operation fails. -/
def DeleteFaults.none : DeleteFaults := { query := false, exec := false }

/-- The handler `(*Handler).DeletePackage` for route parameters `name` and
`version`: the registry afterwards and the response. -/
def DeletePackage (cfg : Config) (f : DeleteFaults) (name version : String)
    (s : Registry) : Registry × Response :=
  if f.query then (s, Response.fail 500 "Database error")
  else
    match s.db.tables.versionByName name version with
    | Option.none => (s, Response.fail 404 "Package version not found")
    | some pv =>
      if f.exec then (s, Response.fail 500 "Failed to delete package")
      else
        ({ db := deleteVersion pv.ID s.db,
           files := s.files.remove (cfg.artifactPath name version) },
         { status := 200, headers := [], body := Body.message "Package deleted successfully" })

/-! ## `handlers/handlers.go`: `SearchPackages`, `GetAllPackages`, `getKeywords` -/

/-- The columns `p.name, pv.version, p.description, pv.downloads,
pv.published_at, p.license` that the listing queries select. -/
structure ListingRow where
  Name : String
  Version : String
  Description : String
  Downloads : Int
  PublishedAt : Int
  License : String
deriving DecidableEq, Repr

/-- The selected columns of a joined package row and version row. -/
def ListingRow.of (p : Package) (pv : PackageVersion) : ListingRow :=
  { Name := p.Name, Version := pv.Version, Description := p.Description,
    Downloads := pv.Downloads, PublishedAt := pv.PublishedAt, License := p.License }

/-- The subquery `SELECT MAX(id) FROM package_versions GROUP BY package_id`:
one value per package id that occurs in the table. -/
def Tables.maxVersionIDs (t : Tables) : List Nat :=
  (t.package_versions.map (fun v => v.PackageID)).dedup.filterMap (fun pid =>
    ((t.package_versions.filter (fun v => decide (v.PackageID = pid))).map
      (fun v => v.ID)).max?)

/-- The rows of `packages p JOIN package_versions pv ON p.id = pv.package_id
WHERE pv.id IN (SELECT MAX(id) FROM package_versions GROUP BY package_id)`. -/
def Tables.latestJoin (t : Tables) : List (Package × PackageVersion) :=
  t.packages.flatMap (fun p =>
    (t.package_versions.filter
      (fun pv => decide (p.ID = pv.PackageID) && decide (pv.ID ∈ t.maxVersionIDs))).map
      (fun pv => (p, pv)))

/-- The clause `ORDER BY pv.downloads DESC`; rows of equal key keep their
order. -/
def orderByDownloadsDesc (rows : List ListingRow) : List ListingRow :=
  rows.insertionSort (fun a b => a.Downloads ≥ b.Downloads)

/-- The rows of the query of `getKeywords`: `SELECT pk.keyword FROM
package_keywords pk JOIN packages p ON pk.package_id = p.id WHERE p.name = $1`. -/
def Tables.keywordsByName (t : Tables) (packageName : String) : List String :=
  t.package_keywords.flatMap (fun pk =>
    (t.packages.filter (fun p => decide (pk.PackageID = p.ID ∧ p.Name = packageName))).map
      (fun _ => pk.Keyword))

/-- The helper `(*Handler).getKeywords`; its callers drop the error, and the
keywords are then nil. -/
def getKeywords (fault : Bool) (packageName : String) (s : Registry) : List String :=
  if fault then [] else s.db.tables.keywordsByName packageName

/-- The struct `models.SearchResult` built from a scanned row. -/
def SearchResult.of (fault : Bool) (s : Registry) (row : ListingRow) : SearchResult :=
  { Name := row.Name, Version := row.Version, Description := row.Description,
    Downloads := row.Downloads, Keywords := getKeywords fault row.Name s,
    License := row.License, UpdatedAt := row.PublishedAt }

/-- The queries of a listing handler that the environment makes fail: the
listing query, and the keyword query of a package by its name. -/
structure ListingFaults where
  query : Bool
  keywords : String → Bool

/-- No query fails. -/
def ListingFaults.none : ListingFaults := { query := false, keywords := fun _ => false }

/-- The handler `(*Handler).GetAllPackages`. -/
def GetAllPackages (f : ListingFaults) (s : Registry) : Response :=
  if f.query then Response.fail 500 "Database error"
  else
    { status := 200, headers := [],
      body := Body.packages
        ((orderByDownloadsDesc
          (s.db.tables.latestJoin.map (fun r => ListingRow.of r.1 r.2))).map
          (fun row => SearchResult.of (f.keywords row.Name) s row)) }

/-- The SQL predicate `s LIKE pattern` with the default escape character: `%`
stands for any run of characters, `_` for any one character, and a backslash
makes the character after it stand for itself. A pattern that ends in a lone
backslash matches nothing. -/
def likeMatch : List Char → List Char → Bool
  | [], s => s.isEmpty
  | '%' :: p, s => s.tails.any (fun t => likeMatch p t)
  | '_' :: p, s =>
    match s with
    | [] => false
    | _ :: t => likeMatch p t
  | ['\\'], _ => false
  | '\\' :: c :: p, s =>
    match s with
    | [] => false
    | d :: t => d == c && likeMatch p t
  | c :: p, s =>
    match s with
    | [] => false
    | d :: t => d == c && likeMatch p t

/-- The characters of `strings.ToLower(s)` and of SQL `LOWER(s)`, for the
letters of ASCII; other characters are left as they are. -/
def lower (s : String) : List Char := s.data.map Char.toLower

/-- The argument `"%" + strings.ToLower(query) + "%"` of the search query. -/
def searchPattern (query : String) : List Char := ['%'] ++ lower query ++ ['%']

/-- The rows of `package_keywords pk` that the `LEFT JOIN ... ON p.id =
pk.package_id` pairs with a package: its keywords, or one NULL when it has
none. -/
def Tables.keywordJoin (t : Tables) (p : Package) : List (Option String) :=
  match t.package_keywords.filter (fun k => decide (p.ID = k.PackageID)) with
  | [] => [Option.none]
  | ks => ks.map (fun k => some k.Keyword)

/-- The condition `LOWER(p.name) LIKE $1 OR LOWER(p.description) LIKE $1 OR
LOWER(pk.keyword) LIKE $1`; a NULL keyword matches nothing. -/
def searchCondition (pattern : List Char) (p : Package) (keyword : Option String) : Bool :=
  likeMatch pattern (lower p.Name) || likeMatch pattern (lower p.Description) ||
    (match keyword with
     | Option.none => false
     | some k => likeMatch pattern (lower k))

/-- The rows of the search query before `ORDER BY` and `LIMIT`: `SELECT
DISTINCT` of the listing columns over the joins, filtered by the condition. -/
def Tables.searchRows (t : Tables) (pattern : List Char) : List ListingRow :=
  (t.latestJoin.flatMap (fun r =>
    ((t.keywordJoin r.1).filter (fun k => searchCondition pattern r.1 k)).map
      (fun _ => ListingRow.of r.1 r.2))).dedup

/-- The value of `strconv.Atoi(s)`, its error dropped: 0 when `s` is not an
optional sign followed by decimal digits, the nearest 64-bit integer when the
number is out of range. -/
def atoi (s : String) : Int :=
  let digits : List Char := match s.data with
    | '-' :: r => r
    | '+' :: r => r
    | cs => cs
  if digits = [] ∨ ¬ (digits.all Char.isDigit = true) then 0
  else
    let n : Int := (digits.foldl (fun a c => 10 * a + (c.toNat - 48)) 0 : Nat)
    let v : Int := if s.data.head? = some '-' then -n else n
    if v > 2 ^ 63 - 1 then 2 ^ 63 - 1 else if v < -(2 ^ 63) then -(2 ^ 63) else v

/-- The limit that `SearchPackages` uses for query parameter `limit` (`none`
when the parameter is absent, and `c.DefaultQuery` supplies `"10"`). -/
def searchLimit (limit : Option String) : Int :=
  let n := atoi (limit.getD "10")
  if n ≤ 0 ∨ n > 100 then 10 else n

/-- The handler `(*Handler).SearchPackages` for query parameters `q` (empty
when absent) and `limit`. -/
def SearchPackages (f : ListingFaults) (query : String) (limit : Option String)
    (s : Registry) : Response :=
  if f.query then Response.fail 500 "Database error"
  else
    let rows :=
      if query = "" then
        (orderByDownloadsDesc (s.db.tables.latestJoin.map (fun r => ListingRow.of r.1 r.2))).take
          (searchLimit limit).toNat
      else
        (orderByDownloadsDesc (s.db.tables.searchRows (searchPattern query))).take
          (searchLimit limit).toNat
    { status := 200, headers := [],
      body := Body.search (rows.map (fun row => SearchResult.of (f.keywords row.Name) s row))
        (rows.length) }

/-! ## Vocabulary of the properties -/

/-- The metadata state contains a version row for `(name, version)`: a row of
`package_versions` with that version that belongs to a package of that name. -/
def Tables.hasVersion (t : Tables) (name version : String) : Prop :=
  ∃ p ∈ t.packages, p.Name = name ∧
    ∃ v ∈ t.package_versions, v.PackageID = p.ID ∧ v.Version = version

/-- The constraint `UNIQUE` on `packages.name`. -/
def Tables.uniqueNames (t : Tables) : Prop :=
  t.packages.Pairwise (fun a b => a.Name ≠ b.Name)

/-- The required fields of a publish form are present. -/
def PublishForm.complete (r : PublishForm) : Prop :=
  r.name ≠ "" ∧ r.version ≠ "" ∧ r.author ≠ "" ∧ r.checksum ≠ ""

instance (r : PublishForm) : Decidable r.complete := by
  unfold PublishForm.complete; infer_instance

/-- Every value of a publish form fits the column that stores it: `name` and
`author` and every dependency name `VARCHAR(255)`, `license` and `version`
`VARCHAR(50)`, `checksum` `VARCHAR(64)` and every keyword `VARCHAR(100)`. -/
def PublishForm.fits (r : PublishForm) : Prop :=
  r.name.length ≤ 255 ∧ r.author.length ≤ 255 ∧ r.license.length ≤ 50 ∧
    r.version.length ≤ 50 ∧ r.checksum.length ≤ 64 ∧
    (∀ d ∈ r.dependencies, d.length ≤ 255) ∧ (∀ k ∈ r.keywords, k.length ≤ 100)

instance (r : PublishForm) : Decidable r.fits := by
  unfold PublishForm.fits; infer_instance

/-- A stand-in for the digest function on which the handlers can be run: one
letter per byte. -/
def letterDigest (bytes : List UInt8) : String :=
  String.mk (bytes.map (fun b => Char.ofNat (97 + b.toNat % 26)))

/-- A configuration on which the handlers can be run. -/
def demoConfig : Config := { StoragePath := "storage", JWTSecret := "secret" }

/-- A publish form for package `alpha`, version 1.0.0, with the given artifact
and checksum. -/
def alphaForm (bytes : List UInt8) (checksum : String) : PublishForm :=
  { name := "alpha", version := "1.0.0", description := "first", author := "ann",
    license := "MIT", repository := "", homepage := "", checksum := checksum,
    dependencies := ["beta", ""], keywords := ["demo"], package := Upload.file bytes }

/-- The registry after `alpha` 1.0.0 was published at time 100 with artifact
`[1, 2]` on a fresh installation. -/
def alphaRegistry : Registry :=
  { db :=
      { tables :=
          { packages := [{ ID := 1, Name := "alpha", Description := "first", Author := "ann",
                           License := "MIT", Repository := "", Homepage := "",
                           CreatedAt := 100 }],
            package_versions := [{ ID := 1, PackageID := 1, Version := "1.0.0",
                                   DownloadURL := downloadURL "alpha" "1.0.0",
                                   Checksum := "bc", PublishedAt := 100, Downloads := 0 }],
            dependencies := [{ ID := 1, PackageVersionID := 1, DependencyName := "beta" }],
            package_keywords := [{ ID := 1, PackageID := 1, Keyword := "demo" }] },
        seqs := { packages_id := 2, package_versions_id := 2, dependencies_id := 2,
                  package_keywords_id := 2 } },
    files := fun k => if k = "storage/alpha-1.0.0.tar.gz" then some [1, 2] else Option.none }

/-- A license of 51 characters, one more than column `license VARCHAR(50)` of
table `packages` holds. -/
def overlongLicense : String := String.mk (List.replicate 51 'x')

/-- A version of 60 characters, more than column `version VARCHAR(50)` of
table `package_versions` holds. -/
def overlongVersion : String := String.mk (List.replicate 60 '1')

/-- A statement of the metadata transaction of a publish request is made to
fail: the package upsert, the version insert, the insert of one of the
non-empty dependencies or the insert of one of the non-empty keywords. -/
def PublishFaults.hitsTransaction (f : PublishFaults) (r : PublishForm) : Prop :=
  f.upsert = true ∨ f.insertVersion = true ∨
    (∃ i dep, r.dependencies[i]? = some dep ∧ dep ≠ "" ∧ f.dependency i = true) ∨
    (∃ j kw, r.keywords[j]? = some kw ∧ kw ≠ "" ∧ f.keyword j = true)

/-- The referential constraints of the schema and the discipline of its
sequences: a version row references a package row, a dependency row references
a version row, and the keys of the package and version rows were drawn from
their sequences, so they are below the next values. -/
structure Database.WF (db : Database) : Prop where
  versionsRef : ∀ v ∈ db.tables.package_versions, ∃ p ∈ db.tables.packages, p.ID = v.PackageID
  dependenciesRef : ∀ d ∈ db.tables.dependencies,
    ∃ v ∈ db.tables.package_versions, v.ID = d.PackageVersionID
  packagesSeq : ∀ p ∈ db.tables.packages, p.ID < db.seqs.packages_id
  versionsSeq : ∀ v ∈ db.tables.package_versions, v.ID < db.seqs.package_versions_id

/-- The store after the dependency inserts of a publish when none fails. -/
def addDependencies (versionID : Nat) : List String → Database → Database
  | [], db => db
  | dep :: rest, db =>
    if dep ≠ "" then addDependencies versionID rest (insertDependencyAccepted versionID dep db).1
    else addDependencies versionID rest db

/-- The store after the keyword inserts of a publish when none fails. -/
def addKeywords (packageID : Nat) : List String → Database → Database
  | [], db => db
  | keyword :: rest, db =>
    if keyword ≠ "" then addKeywords packageID rest (insertKeywordAccepted packageID keyword db).1
    else addKeywords packageID rest db

/-- The store that a publish commits when no store operation fails and the
version is new. -/
def publishedDatabase (now : Int) (r : PublishForm) (db : Database) : Database :=
  let up := upsertPackageAccepted now r.name r.description r.author r.license r.repository
    r.homepage db
  let ins := insertVersionAccepted now up.2 r.version (downloadURL r.name r.version) r.checksum up.1
  addKeywords up.2 r.keywords (addDependencies ins.2 r.dependencies ins.1)

/-- A registry in which version 2.0.0 of `http` has the greater key and
version 1.0.0 the later `published_at`, as after a publish of 1.0.0 through
the API at time 1000 followed by a run of `scripts/seed.go`, which inserts
2.0.0 with a `published_at` seven days before its own clock reading. -/
def seededRegistry : Registry :=
  { db :=
      { tables :=
          { packages := [{ ID := 1, Name := "http", Description := "HTTP client library",
                           Author := "Flow Team", License := "MIT", Repository := "",
                           Homepage := "", CreatedAt := 1000 }],
            package_versions :=
              [{ ID := 1, PackageID := 1, Version := "1.0.0",
                 DownloadURL := downloadURL "http" "1.0.0", Checksum := "bc",
                 PublishedAt := 1000, Downloads := 3 },
               { ID := 2, PackageID := 1, Version := "2.0.0",
                 DownloadURL := "https://registry.flowc.dev/packages/http/2.0.0/download",
                 Checksum := "a7c3", PublishedAt := 400, Downloads := 15420 }],
            dependencies := [],
            package_keywords := [{ ID := 1, PackageID := 1, Keyword := "client" }] },
        seqs := { packages_id := 3, package_versions_id := 3, dependencies_id := 1,
                  package_keywords_id := 2 } },
    files := fun _ => Option.none }

/-- The characters `q` occur in `s` as a contiguous run. -/
def isSubstring (q s : List Char) : Bool := s.tails.any (fun t => q.isPrefixOf t)

/-- The text `field` contains `q` as a substring under case-insensitive
comparison. -/
def containsFold (q field : String) : Bool := isSubstring (lower q) (lower field)

/-- What a transaction that began on store `before` keeps true of the store it
works on: the referential constraints, the uniqueness of package names, and
sequences that have not gone back. -/
structure TxInv (before db : Database) : Prop where
  wf : db.WF
  names : db.tables.uniqueNames
  packagesSeq : before.seqs.packages_id ≤ db.seqs.packages_id
  versionsSeq : before.seqs.package_versions_id ≤ db.seqs.package_versions_id

/-- The registry states that publish, download and delete requests lead to
from the fresh installation, whatever store operations fail on the way. -/
inductive Reachable (sha256hex : List UInt8 → String) (cfg : Config) : Registry → Prop where
  | empty : Reachable sha256hex cfg Registry.empty
  | publish (f : PublishFaults) (now : Int) (username : String) (form : Option PublishForm)
      {s : Registry} : Reachable sha256hex cfg s →
      Reachable sha256hex cfg (PublishPackage sha256hex cfg f now username form s).1
  | download (f : DownloadFaults) (name version : String) {s : Registry} :
      Reachable sha256hex cfg s →
      Reachable sha256hex cfg (DownloadPackage cfg f name version s).1
  | delete (f : DeleteFaults) (name version : String) {s : Registry} :
      Reachable sha256hex cfg s →
      Reachable sha256hex cfg (DeletePackage cfg f name version s).1

/-- The constraint `PRIMARY KEY` on `package_versions.id`. -/
def Tables.uniqueVersionIDs (t : Tables) : Prop :=
  t.package_versions.Pairwise (fun a b => a.ID ≠ b.ID)

/-- The number that a run of decimal digits denotes. -/
def decimalValue (digits : List Char) : Nat :=
  digits.foldl (fun a c => 10 * a + (c.toNat - 48)) 0

/-- The integer that a text denotes when it is an optional sign followed by at
least one decimal digit, and `none` for any other text. -/
def numeralValue (s : String) : Option Int :=
  match s.data with
  | '-' :: ds => if ds ≠ [] ∧ ds.all Char.isDigit = true then some (-(decimalValue ds : Int)) else none
  | '+' :: ds => if ds ≠ [] ∧ ds.all Char.isDigit = true then some (decimalValue ds : Int) else none
  | ds => if ds ≠ [] ∧ ds.all Char.isDigit = true then some (decimalValue ds : Int) else none

/-- The effective limit as the design states it: the supplied parameter when
it denotes an integer from 1 to 100, and 10 in every other case. -/
def effectiveLimit (limit : Option String) : Int :=
  match limit with
  | none => 10
  | some s =>
    match numeralValue s with
    | some n => if 1 ≤ n ∧ n ≤ 100 then n else 10
    | none => 10

/-- The rows that the query of `SearchPackages` selects, in the order of its
`ORDER BY pv.downloads DESC`, before its clause `LIMIT` cuts them: the listing
join for the empty query, the rows that match the pattern otherwise. -/
def Tables.orderedRows (t : Tables) (query : String) : List ListingRow :=
  if query = "" then orderByDownloadsDesc (t.latestJoin.map (fun r => ListingRow.of r.1 r.2))
  else orderByDownloadsDesc (t.searchRows (searchPattern query))

/-- The package has at least one version row. -/
def Tables.hasVersions (t : Tables) (p : Package) : Bool :=
  t.package_versions.any (fun v => decide (v.PackageID = p.ID))

/-- A registry with three packages: `alpha` with one version of 5 downloads,
`beta` with one version of 7 downloads, and `gamma` whose only version was
deleted. -/
def trioRegistry : Registry :=
  { db :=
      { tables :=
          { packages :=
              [{ ID := 1, Name := "alpha", Description := "first", Author := "ann",
                 License := "MIT", Repository := "", Homepage := "", CreatedAt := 100 },
               { ID := 2, Name := "beta", Description := "second", Author := "ann",
                 License := "MIT", Repository := "", Homepage := "", CreatedAt := 200 },
               { ID := 3, Name := "gamma", Description := "third", Author := "ann",
                 License := "MIT", Repository := "", Homepage := "", CreatedAt := 300 }],
            package_versions :=
              [{ ID := 1, PackageID := 1, Version := "1.0.0",
                 DownloadURL := downloadURL "alpha" "1.0.0", Checksum := "bc",
                 PublishedAt := 100, Downloads := 5 },
               { ID := 2, PackageID := 2, Version := "0.1.0",
                 DownloadURL := downloadURL "beta" "0.1.0", Checksum := "d",
                 PublishedAt := 200, Downloads := 7 }],
            dependencies := [],
            package_keywords := [] },
        seqs := { packages_id := 4, package_versions_id := 4, dependencies_id := 1,
                  package_keywords_id := 1 } },
    files := fun _ => Option.none }

instance : IsTotal ListingRow (fun a b => a.Downloads ≥ b.Downloads) :=
  ⟨fun a b => le_total b.Downloads a.Downloads⟩

instance : IsTrans ListingRow (fun a b => a.Downloads ≥ b.Downloads) :=
  ⟨fun _ _ _ hab hbc => le_trans hbc hab⟩

/-- The constraint `UNIQUE(package_id, version)` on `package_versions`. -/
def Tables.uniqueVersions (t : Tables) : Prop :=
  t.package_versions.Pairwise (fun a b => a.PackageID ≠ b.PackageID ∨ a.Version ≠ b.Version)

/-- The registry after `n` successive `DownloadPackage(name, version)` requests
during which no store operation fails. -/
def downloadTimes (cfg : Config) (name version : String) : Nat → Registry → Registry
  | 0, s => s
  | n + 1, s =>
    downloadTimes cfg name version n
      (DownloadPackage cfg DownloadFaults.none name version s).1

/-- The version rows with the counter of the rows of key `versionID` raised by
`n`. -/
def bumpDownloads (versionID : Nat) (n : Int) (vs : List PackageVersion) : List PackageVersion :=
  vs.map (fun w => if w.ID = versionID then { w with Downloads := w.Downloads + n } else w)

/-- The registry that holds `alpha` 1.0.0 with a download counter at the
greatest value of an SQL `INTEGER`. -/
def saturatedRegistry : Registry :=
  { db :=
      { tables :=
          { packages := [{ ID := 1, Name := "alpha", Description := "first", Author := "ann",
                           License := "MIT", Repository := "", Homepage := "",
                           CreatedAt := 100 }],
            package_versions := [{ ID := 1, PackageID := 1, Version := "1.0.0",
                                   DownloadURL := downloadURL "alpha" "1.0.0",
                                   Checksum := "bc", PublishedAt := 100,
                                   Downloads := 2147483647 }],
            dependencies := [],
            package_keywords := [] },
        seqs := { packages_id := 2, package_versions_id := 2, dependencies_id := 1,
                  package_keywords_id := 1 } },
    files := fun k => if k = "storage/alpha-1.0.0.tar.gz" then some [1, 2] else Option.none }

/-- A publish form with only the required fields. -/
def plainForm (name version : String) (bytes : List UInt8) (checksum : String) : PublishForm :=
  { name := name, version := version, description := "", author := "ann", license := "",
    repository := "", homepage := "", checksum := checksum, dependencies := [],
    keywords := [], package := Upload.file bytes }

/-- The registry after version `c` of package `a-b` was published with artifact
`[1]` at time 100 and version `b-c` of package `a` with artifact `[2]` at time
200: the two artifacts have the same file name, `a-b-c.tar.gz`. -/
def collidingRegistry : Registry :=
  { db :=
      { tables :=
          { packages :=
              [{ ID := 1, Name := "a-b", Description := "", Author := "ann", License := "",
                 Repository := "", Homepage := "", CreatedAt := 100 },
               { ID := 2, Name := "a", Description := "", Author := "ann", License := "",
                 Repository := "", Homepage := "", CreatedAt := 200 }],
            package_versions :=
              [{ ID := 1, PackageID := 1, Version := "c",
                 DownloadURL := downloadURL "a-b" "c", Checksum := "b",
                 PublishedAt := 100, Downloads := 0 },
               { ID := 2, PackageID := 2, Version := "b-c",
                 DownloadURL := downloadURL "a" "b-c", Checksum := "c",
                 PublishedAt := 200, Downloads := 0 }],
            dependencies := [],
            package_keywords := [] },
        seqs := { packages_id := 3, package_versions_id := 3, dependencies_id := 1,
                  package_keywords_id := 1 } },
    files := fun k => if k = "storage/a-b-c.tar.gz" then some [2] else Option.none }

/-! ## `handlers/handlers.go`: `Register`, `Login`, `generateJWT`

Table `users` is read and written by these handlers only, so it is kept in a
state of its own. Its `CHECK` constraints and the length bound of column
`email` decide the outcome of `Register` and are modelled; the columns that
the handlers never write keep their defaults and are left out. A clock reading
here is a number of nanoseconds since the Unix epoch. -/

/-- A row of table `users` (`models.User`). -/
structure User where
  ID : Nat
  Username : String
  Email : String
  PasswordHash : String
  APIToken : String
  CreatedAt : Int
deriving DecidableEq, Repr

/-- Table `users` and the next value of the sequence behind its key. -/
structure Accounts where
  users : List User
  users_id : Nat
deriving DecidableEq, Repr

/-- Table `users` right after `runMigrations` on a fresh database. -/
def Accounts.empty : Accounts := { users := [], users_id := 1 }

/-- The struct `models.RegisterRequest`. -/
structure RegisterRequest where
  Username : String
  Email : String
  Password : String
deriving DecidableEq, Repr

/-- The struct `models.LoginRequest`. -/
structure LoginRequest where
  Email : String
  Password : String
deriving DecidableEq, Repr

/-- The outcome of `c.ShouldBindJSON(&req)`: the text of the error, or the
request, which then has passed request binding. -/
inductive Bound (α : Type) where
  | failed (err : String)
  | ok (req : α)
deriving DecidableEq, Repr

/-- The claims `jwt.MapClaims` that `generateJWT` builds: the keys `username`,
`email` and `exp`. -/
structure Claims where
  username : String
  email : String
  exp : Int
deriving DecidableEq, Repr

/-- The value `t.Unix()` of a clock reading: whole seconds since the epoch. -/
def Time.Unix (t : Int) : Int := t / 1000000000

/-- The duration `time.Hour * 24 * 30` in nanoseconds. -/
def thirtyDays : Int := 3600000000000 * 24 * 30

/-- The helper `(*Handler).generateJWT` called when the clock reads `now`, its
error apart: `signHS256 key claims` is the compact serialization
`jwt.NewWithClaims(jwt.SigningMethodHS256, claims).SignedString(key)`. -/
def generateJWT (signHS256 : String → Claims → String) (cfg : Config) (now : Int)
    (username email : String) : String :=
  signHS256 cfg.JWTSecret
    { username := username, email := email, exp := Time.Unix (now + thirtyDays) }

/-- The character class `[a-zA-Z0-9_-]` of constraint `username_format`. -/
def usernameChar (c : Char) : Bool :=
  c.isAlphanum || c == '_' || c == '-'

/-- The constraints `username_format` (`username ~ '^[a-zA-Z0-9_-]+$'`) and
`username_length` (between 3 and 50 characters) of table `users`. -/
def usernameChecks (username : String) : Bool :=
  decide (username.data ≠ []) && username.data.all usernameChar &&
    decide (3 ≤ username.length) && decide (username.length ≤ 50)

/-- The text of the error that `lib/pq` returns for a violated `UNIQUE`
constraint. -/
def uniqueViolation (constraint : String) : String :=
  "pq: duplicate key value violates unique constraint \"" ++ constraint ++ "\""

/-- The text of the error that `lib/pq` returns for a violated `CHECK`
constraint of table `users`. -/
def checkViolation (constraint : String) : String :=
  "pq: new row for relation \"users\" violates check constraint \"" ++ constraint ++ "\""

/-- The statement `INSERT INTO users (username, email, password_hash,
api_token) VALUES (...) RETURNING id` at store time `dbNow`: the table
afterwards and the new key, or the text of the error. The value for
`email VARCHAR(255)` is coerced first, then the `CHECK` constraints are
evaluated, then the unique indexes; the key is drawn from the sequence before
that. -/
def insertUser (dbNow : Int) (username email passwordHash apiToken : String) (a : Accounts) :
    Accounts × Except String Nat :=
  if email.length > 255 ∨ username.length > 255 then
    (a, Except.error "pq: value too long for type character varying(255)")
  else if ¬ (decide (username.data ≠ []) && username.data.all usernameChar) = true then
    ({ a with users_id := a.users_id + 1 }, Except.error (checkViolation "username_format"))
  else if ¬ (decide (3 ≤ username.length) && decide (username.length ≤ 50)) = true then
    ({ a with users_id := a.users_id + 1 }, Except.error (checkViolation "username_length"))
  else if a.users.any (fun u => decide (u.Username = username)) then
    ({ a with users_id := a.users_id + 1 }, Except.error (uniqueViolation "users_username_key"))
  else if a.users.any (fun u => decide (u.Email = email)) then
    ({ a with users_id := a.users_id + 1 }, Except.error (uniqueViolation "users_email_key"))
  else if a.users.any (fun u => decide (u.APIToken = apiToken)) then
    ({ a with users_id := a.users_id + 1 }, Except.error (uniqueViolation "users_api_token_key"))
  else
    ({ users := a.users ++
         [{ ID := a.users_id, Username := username, Email := email,
            PasswordHash := passwordHash, APIToken := apiToken, CreatedAt := dbNow }],
       users_id := a.users_id + 1 }, Except.ok a.users_id)

/-- The operations of `Register` that the environment makes fail:
`bcrypt.GenerateFromPassword`, the insert (with the text of its error) and the
signing of the token. -/
structure RegisterFaults where
  hash : Bool
  insert : Option String
  sign : Bool
deriving DecidableEq, Repr

/-- No operation fails. -/
def RegisterFaults.none : RegisterFaults :=
  { hash := false, insert := Option.none, sign := false }

/-- The response of `Register` to an error of the insert: the test
`strings.Contains(err.Error(), "duplicate")`. -/
def registerInsertError (err : String) : Response :=
  if isSubstring "duplicate".data err.data then
    Response.fail 409 "Username or email already exists"
  else Response.fail 500 "Failed to create user"

/-- The handler `(*Handler).Register`: `bcryptHash salt password` is the hash
that `bcrypt.GenerateFromPassword` returns when it draws `salt`, `apiToken`
the text of `uuid.New()`, `dbNow` the clock of the store and `now` the clock
of the process when the token is generated. The table afterwards and the
response. -/
def Register (bcryptHash : String → String → String) (signHS256 : String → Claims → String)
    (cfg : Config) (f : RegisterFaults) (dbNow now : Int) (salt apiToken : String)
    (body : Bound RegisterRequest) (a : Accounts) : Accounts × Response :=
  match body with
  | Bound.failed err => (a, Response.fail 400 err)
  | Bound.ok req =>
    if f.hash then (a, Response.fail 500 "Failed to hash password")
    else
      match f.insert with
      | some err => (a, registerInsertError err)
      | Option.none =>
        match insertUser dbNow req.Username req.Email (bcryptHash salt req.Password)
            apiToken a with
        | (a1, Except.error err) => (a1, registerInsertError err)
        | (a1, Except.ok _) =>
          if f.sign then (a1, Response.fail 500 "Failed to generate token")
          else
            (a1, { status := 201, headers := [],
                   body := Body.auth (generateJWT signHS256 cfg now req.Username req.Email)
                     req.Username req.Email })

/-- The operations of `Login` that the environment makes fail: the user query
and the signing of the token. -/
structure LoginFaults where
  query : Bool
  sign : Bool
deriving DecidableEq, Repr

/-- No operation fails. -/
def LoginFaults.none : LoginFaults := { query := false, sign := false }

/-- The handler `(*Handler).Login`: `bcryptMatches hash password` says that
`bcrypt.CompareHashAndPassword(hash, password)` returns no error, and `now` is
the clock of the process when the token is generated. -/
def Login (bcryptMatches : String → String → Bool) (signHS256 : String → Claims → String)
    (cfg : Config) (f : LoginFaults) (now : Int) (body : Bound LoginRequest)
    (a : Accounts) : Response :=
  match body with
  | Bound.failed err => Response.fail 400 err
  | Bound.ok req =>
    if f.query then Response.fail 500 "Database error"
    else
      match a.users.find? (fun u => decide (u.Email = req.Email)) with
      | Option.none => Response.fail 401 "Invalid credentials"
      | some user =>
        if ¬ bcryptMatches user.PasswordHash req.Password = true then
          Response.fail 401 "Invalid credentials"
        else if f.sign then Response.fail 500 "Failed to generate token"
        else
          { status := 200, headers := [],
            body := Body.auth (generateJWT signHS256 cfg now user.Username user.Email)
              user.Username user.Email }

/-- The constraint `UNIQUE` on `users.email`. -/
def Accounts.uniqueEmails (a : Accounts) : Prop :=
  a.users.Pairwise (fun x y => x.Email ≠ y.Email)

/-- A stand-in for `bcrypt.GenerateFromPassword` on which the handlers can be
run: the salt followed by the password's characters moved one letter on. -/
def demoHash (salt password : String) : String :=
  salt ++ String.mk (password.data.map (fun c => Char.ofNat (c.toNat + 1)))

/-- The stand-in for `bcrypt.CompareHashAndPassword` that goes with
`demoHash`: some salt of four characters gives the hash. -/
def demoMatches (hash password : String) : Bool :=
  decide (hash = demoHash (String.mk (hash.data.take 4)) password)

/-- A stand-in for the HS256 serialization on which the handlers can be run:
key, names and expiry side by side. -/
def demoSign (key : String) (c : Claims) : String :=
  key ++ "." ++ c.username ++ "." ++ c.email ++ "." ++ toString c.exp.toNat

/-- A registration of `alice`. -/
def aliceRequest : RegisterRequest :=
  { Username := "alice", Email := "alice@example.com", Password := "wonderland" }

/-- Table `users` after the registration of `alice` at store time 7 with salt
`salt` and API token `token-1`. -/
def aliceAccounts : Accounts :=
  { users := [{ ID := 1, Username := "alice", Email := "alice@example.com",
                PasswordHash := demoHash "salt" "wonderland", APIToken := "token-1",
                CreatedAt := 7 }],
    users_id := 2 }

/-- Some user of the table has the username or the email. -/
def Accounts.taken (a : Accounts) (username email : String) : Prop :=
  ∃ u ∈ a.users, u.Username = username ∨ u.Email = email

/-- The value of response header `name` in what a request received, if the
middleware set that header. -/
def Verdict.header (v : Verdict) (name : String) : Option String :=
  (v.headers.find? (fun h => decide (h.1 = name))).map (fun h => h.2)

/-! ## `models/models.go`: the JSON form of `PackageInfo` -/

/-- The JSON values that the members of a `PackageInfo` object take; `time t`
is the string with the RFC 3339 text of instant `t`. -/
inductive JSON where
  | str (s : String)
  | num (n : Int)
  | strs (xs : List String)
  | time (t : Int)
deriving DecidableEq, Repr

/-- The object that `encoding/json` writes for a `models.PackageInfo` value, as
the list of its members in order: one member per field under the name of its
`json` tag, except that `Downloads`, tagged `json:"downloads,omitempty"`, is
left out when it is 0. -/
def PackageInfo.marshal (i : PackageInfo) : List (String × JSON) :=
  [("name", JSON.str i.Name), ("version", JSON.str i.Version),
   ("description", JSON.str i.Description), ("author", JSON.str i.Author),
   ("license", JSON.str i.License), ("download_url", JSON.str i.DownloadURL),
   ("checksum", JSON.str i.Checksum), ("dependencies", JSON.strs i.Dependencies),
   ("repository", JSON.str i.Repository), ("homepage", JSON.str i.Homepage),
   ("keywords", JSON.strs i.Keywords), ("published_at", JSON.time i.PublishedAt)] ++
  (if i.Downloads = 0 then [] else [("downloads", JSON.num i.Downloads)])

/-- The members of the serialized package-info object of a response, when the
handler passed a `models.PackageInfo` to `c.JSON`. -/
def Response.infoObject (r : Response) : Option (List (String × JSON)) :=
  match r.body with
  | Body.info i => some i.marshal
  | _ => none

/-- What happens at the limiter: a request of a client handled by the
middleware, or a pass of the cleanup, each at its clock reading. -/
inductive Event where
  | request (ip : String) (now : Int)
  | cleanup (now : Int)
deriving DecidableEq, Repr

/-- The clock reading of an event. -/
def Event.time : Event → Int
  | Event.request _ now => now
  | Event.cleanup now => now

/-- The timestamps of the requests of client `ip` that the middleware admits
while the limiter goes through the events in order. -/
def RateLimiter.admittedTimes (rl : RateLimiter) (ip : String) : List Event → List Int
  | [] => []
  | Event.request client now :: rest =>
    if client = ip ∧ (rl.Middleware client now).2.next = true then
      now :: RateLimiter.admittedTimes (rl.Middleware client now).1 ip rest
    else RateLimiter.admittedTimes (rl.Middleware client now).1 ip rest
  | Event.cleanup now :: rest => RateLimiter.admittedTimes (rl.cleanup now) ip rest

/-- The number of the timestamps `ts` in the half-open interval
`[s, s + window)`. -/
def countIn (s window : Int) (ts : List Int) : Nat :=
  (ts.filter (fun t => decide (s ≤ t ∧ t < s + window))).length

/-- What the limiter keeps true of the requests `admitted` of one client up to
clock reading `c`: they are the recorded history of the client together with
timestamps that left the window, and no interval of the length of the window
holds more of them than the limit. -/
structure WindowInv (limit window : Int) (rl : RateLimiter) (ip : String) (c : Int)
    (admitted : List Int) : Prop where
  limit_eq : rl.limit = limit
  window_eq : rl.window = window
  limit_pos : 1 ≤ limit
  window_pos : 0 < window
  split : ∃ expired : List Int, admitted.Perm (expired ++ rl.history ip) ∧
    ∀ t ∈ expired, window ≤ c - t
  bound : ∀ s : Int, (countIn s window admitted : Int) ≤ limit

/-! ## `middleware/security.go`

The regular expressions are matched on whole strings: in Go's syntax `^` and
`$` stand for the beginning and the end of the text, and `\d` for an ASCII
digit. -/

/-- The character class `[a-z0-9_-]` of `packageNameRegex`. -/
def packageNameChar (c : Char) : Bool :=
  c.isLower || c.isDigit || c == '_' || c == '-'

/-- The call `packageNameRegex.MatchString`, for `^[a-z0-9_-]+$`. -/
def matchPackageName (cs : List Char) : Bool :=
  !cs.isEmpty && cs.all packageNameChar

/-- The function `ValidatePackageName`; `len(name)` counts bytes. -/
def ValidatePackageName (name : String) : Bool :=
  if name.utf8ByteSize < 2 ∨ name.utf8ByteSize > 100 then false
  else matchPackageName name.data

/-- The character class `[a-z0-9.-]` of `versionRegex`. -/
def prereleaseChar (c : Char) : Bool :=
  c.isLower || c.isDigit || c == '.' || c == '-'

/-- The piece `\d+` of `versionRegex` at the head of a text: what follows the
digits, or `none` when the text does not begin with a digit. In `versionRegex`
each `\d+` is followed by a character that is not a digit or by the end, so
the digits it matches are all the digits at that place. -/
def digitRun (cs : List Char) : Option (List Char) :=
  if (cs.takeWhile Char.isDigit).isEmpty then none else some (cs.dropWhile Char.isDigit)

/-- The call `versionRegex.MatchString`, for
`^\d+\.\d+\.\d+(-[a-z0-9.-]+)?$`. -/
def matchVersion (cs : List Char) : Bool :=
  match digitRun cs with
  | some ('.' :: r1) =>
    match digitRun r1 with
    | some ('.' :: r2) =>
      match digitRun r2 with
      | some [] => true
      | some ('-' :: r3) => !r3.isEmpty && r3.all prereleaseChar
      | _ => false
    | _ => false
  | _ => false

/-- The function `ValidateVersion`; `len(version)` counts bytes. -/
def ValidateVersion (version : String) : Bool :=
  if version.utf8ByteSize > 50 then false else matchVersion version.data

/-- The white space of `unicode.IsSpace` among the ASCII characters: space,
tab, line feed, vertical tab, form feed and carriage return. -/
def asciiSpace (c : Char) : Bool :=
  c == ' ' || (decide (9 ≤ c.toNat) && decide (c.toNat ≤ 13))

/-- The call `strings.TrimSpace` on ASCII text. -/
def trimSpace (cs : List Char) : List Char :=
  ((cs.dropWhile asciiSpace).reverse.dropWhile asciiSpace).reverse

/-- The call `strings.ReplaceAll(s, old, "")` for a non-empty `old`: the text
is read from the left, every occurrence of `old` found is left out and the
reading goes on behind it; `skip` counts the characters of an occurrence that
are still to be left out. -/
def removeAll (old : List Char) : Nat → List Char → List Char
  | _, [] => []
  | skip + 1, _ :: cs => removeAll old skip cs
  | 0, c :: cs =>
    if old.isPrefixOf (c :: cs) then removeAll old (old.length - 1) cs
    else c :: removeAll old 0 cs

/-- The slice `dangerous` of `SanitizeString`. -/
def dangerous : List String :=
  ["<script", "</script", "javascript:", "onerror=", "onload="]

/-- The function `SanitizeString` on ASCII text, where a byte is a character
and `strings.ToLower` changes the letters `A` to `Z` only: `none` stands for a
text with other characters, which the embedding does not cover, and for a
negative `maxLength`, with which the slice expression `s[:maxLength]`
panics. -/
def SanitizeString (s : String) (maxLength : Int) : Option String :=
  if s.data.all (fun c => decide (c.toNat < 128)) = true ∧ 0 ≤ maxLength then
    let trimmed := trimSpace s.data
    let cut := if (trimmed.length : Int) > maxLength then trimmed.take maxLength.toNat
               else trimmed
    some (String.mk (dangerous.foldl (fun t d => removeAll d.data 0 (t.map Char.toLower)) cut))
  else none

/-! ## `interop/go/flow.go`: the reflection API

The functions of the C library behind the `C.` calls are not code of the Go
binding: a module is given by what those calls return for it. -/

/-- The struct `ParameterInfo`; its field `Type` is `Type_` here. -/
structure ParameterInfo where
  Name : String
  Type_ : String
deriving DecidableEq, Repr

/-- The struct `FunctionInfo`. -/
structure FunctionInfo where
  Name : String
  ReturnType : String
  Parameters : List ParameterInfo
deriving DecidableEq, Repr

/-- A `*Module` as the reflection API sees it: whether `m.handle` is set, the
result of `flow_reflect_function_count`, the names that
`flow_reflect_list_functions` hands out (their number is its result, so a
result that is not positive is the empty list), and what
`flow_reflect_get_function_info` returns for a name, `none` being the nil
pointer. -/
structure Module where
  loaded : Bool
  functionCount : Int
  listed : List String
  getInfo : String → Option FunctionInfo

/-- The method `(*Module).ListFunctions`. -/
def Module.ListFunctions (m : Module) : Except String (List String) :=
  if m.loaded = false then Except.error "module is not loaded"
  else if m.functionCount = 0 then Except.ok []
  else if m.listed.length ≤ 0 then Except.ok []
  else Except.ok m.listed

/-- The method `(*Module).GetFunctionInfo`. -/
def Module.GetFunctionInfo (m : Module) (functionName : String) :
    Except String FunctionInfo :=
  if m.loaded = false then Except.error "module is not loaded"
  else
    match m.getInfo functionName with
    | none => Except.error ("function \'" ++ functionName ++ "\' not found in module")
    | some info => Except.ok info

/-- The body of the loop of `(*Module).Inspect` for one function name: the
builder afterwards. -/
def Module.inspectStep (m : Module) (builder funcName : String) : String :=
  match m.GetFunctionInfo funcName with
  | Except.error err => builder ++ ("  " ++ funcName ++ " (error getting info: " ++ err ++ ")\n")
  | Except.ok info =>
    builder ++ ("  " ++ info.Name ++ "(" ++
      ", ".intercalate (info.Parameters.map (fun p => p.Name ++ ": " ++ p.Type_)) ++
      ") -> " ++ info.ReturnType ++ "\n")

/-- The method `(*Module).Inspect`. -/
def Module.Inspect (m : Module) : Except String String :=
  match m.ListFunctions with
  | Except.error err => Except.error err
  | Except.ok functions =>
    if functions.length = 0 then Except.ok "Module contains no functions"
    else
      Except.ok (functions.foldl m.inspectStep
        ("Module contains " ++ toString functions.length ++ " function(s):\n\n"))

/-- The parameters of a function rendered as `pname: ptype` and joined by
`, `. -/
def renderParameters (ps : List ParameterInfo) : String :=
  ", ".intercalate (ps.map (fun p => p.Name ++ ": " ++ p.Type_))

/-- The line of a function as the inspection shows it, without its line
break: two spaces, the name, the parameters in parentheses, ` -> ` and the
return type when the info is available, and the name with the error in
parentheses when it is not. -/
def Module.entry (m : Module) (funcName : String) : String :=
  match m.getInfo funcName with
  | some info => "  " ++ info.Name ++ "(" ++ renderParameters info.Parameters ++ ") -> " ++
      info.ReturnType
  | none => "  " ++ funcName ++ " (error getting info: function \'" ++ funcName ++
      "\' not found in module)"

/-- A module with the two functions of the inspection test. -/
def demoModule : Module :=
  { loaded := true, functionCount := 2, listed := ["add", "greet"],
    getInfo := fun n =>
      if n = "add" then
        some { Name := "add", ReturnType := "int",
               Parameters := [{ Name := "a", Type_ := "int" }, { Name := "b", Type_ := "int" }] }
      else if n = "greet" then
        some { Name := "greet", ReturnType := "string",
               Parameters := [{ Name := "name", Type_ := "string" }] }
      else none }

/-! ## Theorems: rate limiter -/

theorem Time.Sub_lt_of_lt {t u w : Int} (hw : minDuration < w) (h : t - u < w) :
    Time.Sub t u < w := by
  unfold Time.Sub
  split_ifs with h1 h2
  · unfold maxDuration at *; omega
  · exact hw
  · exact h

theorem Time.Sub_ge_of_ge {t u w : Int} (hw : w ≤ maxDuration)
    (h : w ≤ t - u) : w ≤ Time.Sub t u := by
  unfold Time.Sub
  split_ifs with h1 h2
  · exact hw
  · omega
  · exact h

/-- For a window that a `time.Duration` can hold, other than the smallest
duration, `now.Sub(t) < window` says that the difference of the instants is
less than the window. -/
theorem Time.Sub_lt_iff {t u w : Int} (hmin : minDuration < w) (hmax : w ≤ maxDuration) :
    Time.Sub t u < w ↔ t - u < w := by
  constructor
  · intro h
    unfold Time.Sub at h
    split_ifs at h with h1 h2
    · omega
    · omega
    · exact h
  · exact Time.Sub_lt_of_lt hmin

theorem RateLimiter.inWindow_of_none {rl : RateLimiter} {ip : String} (now : Int)
    (h : rl.requests ip = none) : rl.inWindow ip now = 0 := by
  simp [RateLimiter.inWindow, RateLimiter.history, RateLimiter.filtered, h]

theorem RateLimiter.inWindow_of_some {rl : RateLimiter} {ip : String} (now : Int)
    {ts : List Int} (h : rl.requests ip = some ts) :
    rl.inWindow ip now = (rl.filtered now ts).length := by
  simp [RateLimiter.inWindow, RateLimiter.history, h]

theorem RateLimiter.Middleware_of_none {rl : RateLimiter} {ip : String} (now : Int)
    (h : rl.requests ip = none) :
    rl.Middleware ip now =
      (rl.store ip [now], { next := true, status := none, error := none, headers := [] }) := by
  simp [RateLimiter.Middleware, h]

theorem RateLimiter.Middleware_of_full {rl : RateLimiter} {ip : String} (now : Int)
    {ts : List Int} (h : rl.requests ip = some ts)
    (hfull : ((rl.filtered now ts).length : Int) ≥ rl.limit) :
    rl.Middleware ip now =
      (rl, { next := false, status := some 429,
             error := some "Rate limit exceeded. Please try again later.",
             headers := [("X-RateLimit-Limit", runeString rl.limit),
                         ("X-RateLimit-Remaining", "0"),
                         ("Retry-After", "60")] }) := by
  simp only [RateLimiter.Middleware, h]
  rw [if_pos hfull]

theorem RateLimiter.Middleware_of_room {rl : RateLimiter} {ip : String} (now : Int)
    {ts : List Int} (h : rl.requests ip = some ts)
    (hroom : ¬ ((rl.filtered now ts).length : Int) ≥ rl.limit) :
    rl.Middleware ip now =
      (rl.store ip (rl.filtered now ts ++ [now]),
       { next := true, status := none, error := none,
         headers := [("X-RateLimit-Limit", runeString rl.limit),
                     ("X-RateLimit-Remaining",
                       runeString (rl.limit - (rl.filtered now ts ++ [now]).length))] }) := by
  simp only [RateLimiter.Middleware, h]
  rw [if_neg hroom]

/-- C1, as stated, fails: with limit 0 a client that has no entry in the map
is admitted although the number of its in-window timestamps, 0, is not less
than the limit. -/
theorem middleware_admits_iff_counterexample :
    ((NewRateLimiter 0 60000000000).Middleware "10.0.0.1" 0).2.admitted ∧
      ¬ (((NewRateLimiter 0 60000000000).inWindow "10.0.0.1" 0 : Int)
          < (NewRateLimiter 0 60000000000).limit) := by
  constructor
  · simp [RateLimiter.Middleware, NewRateLimiter, Verdict.admitted]
  · simp [RateLimiter.inWindow, RateLimiter.history, RateLimiter.filtered, NewRateLimiter]

/-- C1 (amended): for every limiter (any integer limit, any window), every
state of the map, every client and every time: a client with no entry in the
map is admitted whatever the limit; when the limit is at least 1, or the client
has an entry, the request is admitted if and only if the number of the client's
stored timestamps `t` with `now.Sub(t) < window` is strictly less than the
limit; and a request that is not admitted is rejected with HTTP 429. -/
theorem middleware_admits_iff (rl : RateLimiter) (ip : String) (now : Int) :
    (rl.requests ip = none → (rl.Middleware ip now).2.admitted) ∧
    (1 ≤ rl.limit ∨ rl.requests ip ≠ none →
      ((rl.Middleware ip now).2.admitted ↔ (rl.inWindow ip now : Int) < rl.limit)) ∧
    (¬ (rl.Middleware ip now).2.admitted → (rl.Middleware ip now).2.rejected) := by
  cases hreq : rl.requests ip with
  | none =>
    have hc := RateLimiter.inWindow_of_none now hreq
    have hv := RateLimiter.Middleware_of_none now hreq
    have ha : (rl.Middleware ip now).2.admitted := by
      rw [hv]
      rfl
    refine ⟨fun _ => ha, fun h => ⟨fun _ => ?_, fun _ => ha⟩, fun hn => absurd ha hn⟩
    have hl : 1 ≤ rl.limit := by
      rcases h with h | h
      · exact h
      · exact absurd rfl h
    rw [hc]
    push_cast
    omega
  | some ts =>
    have hc := RateLimiter.inWindow_of_some now hreq
    by_cases hlim : ((rl.filtered now ts).length : Int) ≥ rl.limit
    · have hv := RateLimiter.Middleware_of_full now hreq hlim
      have hna : ¬ (rl.Middleware ip now).2.admitted := by
        rw [hv]
        simp [Verdict.admitted]
      have hr : (rl.Middleware ip now).2.rejected := by
        rw [hv]
        exact ⟨rfl, rfl⟩
      refine ⟨fun hcon => by simp at hcon, fun _ => ⟨fun ha => absurd ha hna, fun hlt => ?_⟩,
        fun _ => hr⟩
      rw [hc] at hlt
      omega
    · have hv := RateLimiter.Middleware_of_room now hreq hlim
      have ha : (rl.Middleware ip now).2.admitted := by
        rw [hv]
        rfl
      refine ⟨fun _ => ha, fun _ => ⟨fun _ => ?_, fun _ => ha⟩, fun hn => absurd ha hn⟩
      rw [hc]
      omega

/-- The amended C1 at two limiters: a client without an entry in the map of a
limiter of limit 0 is admitted; at a limiter of limit 1 that holds one
timestamp of the client, still inside the window, the request is admitted if
and only if the count is below the limit, here it is not, and the request is
rejected with HTTP 429. -/
theorem middleware_admits_iff_witness :
    ((NewRateLimiter 0 60).requests "10.0.0.9" = none ∧
      ((NewRateLimiter 0 60).Middleware "10.0.0.9" 7).2.admitted) ∧
    ((1 ≤ ((NewRateLimiter 1 60).store "10.0.0.1" [5]).limit ∨
        ((NewRateLimiter 1 60).store "10.0.0.1" [5]).requests "10.0.0.1" ≠ none) ∧
      ((((NewRateLimiter 1 60).store "10.0.0.1" [5]).Middleware "10.0.0.1" 7).2.admitted ↔
        ((((NewRateLimiter 1 60).store "10.0.0.1" [5]).inWindow "10.0.0.1" 7 : Nat) : Int)
          < ((NewRateLimiter 1 60).store "10.0.0.1" [5]).limit)) ∧
    (¬ (((NewRateLimiter 1 60).store "10.0.0.1" [5]).Middleware "10.0.0.1" 7).2.admitted ∧
      (((NewRateLimiter 1 60).store "10.0.0.1" [5]).Middleware "10.0.0.1" 7).2.rejected) :=
  have hno : ¬ (((NewRateLimiter 1 60).store "10.0.0.1" [5]).Middleware "10.0.0.1" 7).2.admitted := by
    simp [RateLimiter.Middleware, RateLimiter.store, NewRateLimiter, Verdict.admitted,
      RateLimiter.filtered, Time.Sub, maxDuration, minDuration]
  ⟨⟨rfl, (middleware_admits_iff (NewRateLimiter 0 60) "10.0.0.9" 7).1 rfl⟩,
   ⟨Or.inl (by simp [RateLimiter.store, NewRateLimiter]),
    (middleware_admits_iff ((NewRateLimiter 1 60).store "10.0.0.1" [5]) "10.0.0.1" 7).2.1
      (Or.inl (by simp [RateLimiter.store, NewRateLimiter]))⟩,
   ⟨hno,
    (middleware_admits_iff ((NewRateLimiter 1 60).store "10.0.0.1" [5]) "10.0.0.1" 7).2.2 hno⟩⟩

@[simp] theorem RateLimiter.store_requests_self (rl : RateLimiter) (ip : String)
    (ts : List Int) : (rl.store ip ts).requests ip = some ts := by
  simp [RateLimiter.store]

@[simp] theorem RateLimiter.store_limit (rl : RateLimiter) (ip : String) (ts : List Int) :
    (rl.store ip ts).limit = rl.limit := rfl

@[simp] theorem RateLimiter.store_window (rl : RateLimiter) (ip : String) (ts : List Int) :
    (rl.store ip ts).window = rl.window := rfl

theorem RateLimiter.filtered_eq_self {rl : RateLimiter} {now : Int} {hist : List Int}
    (h : ∀ t ∈ hist, Time.Sub now t < rl.window) : rl.filtered now hist = hist := by
  unfold RateLimiter.filtered
  rw [List.filter_eq_self]
  intro t ht
  exact decide_eq_true (h t ht)

/-- While the history of a client and the coming requests together number at
most the limit, and all of them lie less than a window after an instant `t0`
that none of them precedes, every request is admitted and appended to the
history. -/
theorem RateLimiter.serve_all_admitted (ip : String) (t0 : Int) (ts : List Int) :
    ∀ (rl : RateLimiter) (hist : List Int), rl.requests ip = some hist →
      minDuration < rl.window →
      ((hist.length + ts.length : Nat) : Int) ≤ rl.limit →
      (∀ t ∈ hist, t0 ≤ t) →
      (∀ t ∈ ts, t0 ≤ t ∧ t - t0 < rl.window) →
      (rl.serve ip ts).1.requests ip = some (hist ++ ts) ∧
      (rl.serve ip ts).1.limit = rl.limit ∧
      (rl.serve ip ts).1.window = rl.window ∧
      (rl.serve ip ts).2.length = ts.length ∧
      ∀ v ∈ (rl.serve ip ts).2, v.admitted := by
  induction ts with
  | nil =>
    intro rl hist hreq _ _ _ _
    simp [RateLimiter.serve, hreq]
  | cons now rest ih =>
    intro rl hist hreq hw hlen hhist hts
    have hnow := hts now (List.mem_cons_self _ _)
    have hkeep : rl.filtered now hist = hist := by
      apply RateLimiter.filtered_eq_self
      intro t ht
      apply Time.Sub_lt_of_lt hw
      have := hhist t ht
      omega
    have hroom : ¬ ((rl.filtered now hist).length : Int) ≥ rl.limit := by
      rw [hkeep]
      simp only [List.length_cons] at hlen
      push_cast at hlen
      omega
    have hstep := RateLimiter.Middleware_of_room now hreq hroom
    rw [hkeep] at hstep
    have hrec := ih (rl.store ip (hist ++ [now])) (hist ++ [now])
      (RateLimiter.store_requests_self _ _ _) hw
      (by
        simp only [List.length_cons, List.length_append, List.length_singleton,
          List.length_nil, RateLimiter.store_limit] at hlen ⊢
        push_cast at hlen ⊢
        omega)
      (by
        intro t ht
        rcases List.mem_append.mp ht with h | h
        · exact hhist t h
        · rw [List.mem_singleton] at h
          rw [h]
          exact hnow.1)
      (fun t ht => hts t (List.mem_cons_of_mem _ ht))
    simp only [RateLimiter.serve, hstep]
    simp only [RateLimiter.store_limit, RateLimiter.store_window, List.append_assoc,
      List.singleton_append] at hrec
    refine ⟨hrec.1, hrec.2.1, hrec.2.2.1, ?_, ?_⟩
    · simp [hrec.2.2.2.1]
    · intro v hv
      rcases List.mem_cons.mp hv with h | h
      · rw [h]
        rfl
      · exact hrec.2.2.2.2 v h

/-- C2: from a limiter with limit at least 1 and a positive window that holds
no history for a client, `limit` successive requests of the client at
non-decreasing times, all less than a window after the first, are all
admitted; a further request less than a window after the first is rejected
with HTTP 429; and a request at least a window after the first is admitted
again. The limit is the number of the first requests, `t0 :: ts`, so it is at
least 1; the window is a `time.Duration`, so it is at most `maxDuration`. -/
theorem serve_limit_reject_then_admit (rl : RateLimiter) (ip : String)
    (t0 : Int) (ts : List Int) (t1 t2 : Int)
    (hw : 0 < rl.window) (hwmax : rl.window ≤ maxDuration)
    (hnone : rl.requests ip = none)
    (hlen : (((t0 :: ts).length : Nat) : Int) = rl.limit)
    (hmono : (t0 :: ts).Sorted (· ≤ ·))
    (hin : ∀ t ∈ t0 :: ts, t - t0 < rl.window)
    (ht1 : t1 - t0 < rl.window)
    (ht2 : rl.window ≤ t2 - t0) :
    (∀ v ∈ (rl.serve ip (t0 :: ts)).2, v.admitted) ∧
    (((rl.serve ip (t0 :: ts)).2.length : Nat) : Int) = rl.limit ∧
    ((rl.serve ip (t0 :: ts)).1.Middleware ip t1).2.rejected ∧
    (((rl.serve ip (t0 :: ts)).1.Middleware ip t1).1.Middleware ip t2).2.admitted := by
  have hmin : minDuration < rl.window := by
    unfold minDuration
    omega
  have hge : ∀ t ∈ ts, t0 ≤ t := fun t ht => List.rel_of_sorted_cons hmono t ht
  have hfirst := RateLimiter.Middleware_of_none t0 hnone
  have hrun := RateLimiter.serve_all_admitted ip t0 ts (rl.store ip [t0]) [t0]
    (RateLimiter.store_requests_self _ _ _) hmin
    (by
      simp only [List.length_cons, List.length_nil, RateLimiter.store_limit] at hlen ⊢
      push_cast at hlen ⊢
      omega)
    (by
      intro t ht
      rw [List.mem_singleton] at ht
      omega)
    (fun t ht => ⟨hge t ht, hin t (List.mem_cons_of_mem _ ht)⟩)
  simp only [RateLimiter.store_limit, RateLimiter.store_window, List.singleton_append] at hrun
  obtain ⟨hreq, hlim, hwin, hcount, hall⟩ := hrun
  have hserve : rl.serve ip (t0 :: ts) =
      ((RateLimiter.serve (rl.store ip [t0]) ip ts).1,
        ({ next := true, status := none, error := none, headers := [] } : Verdict) ::
          (RateLimiter.serve (rl.store ip [t0]) ip ts).2) := by
    simp only [RateLimiter.serve, hfirst]
  rw [hserve]
  simp only
  have hkeep1 : (RateLimiter.serve (rl.store ip [t0]) ip ts).1.filtered t1 (t0 :: ts)
      = t0 :: ts := by
    apply RateLimiter.filtered_eq_self
    intro t ht
    rw [hwin]
    apply Time.Sub_lt_of_lt hmin
    have : t0 ≤ t := by
      rcases List.mem_cons.mp ht with h | h
      · omega
      · exact hge t h
    omega
  have hfull : (((RateLimiter.serve (rl.store ip [t0]) ip ts).1.filtered t1 (t0 :: ts)).length
      : Int) ≥ (RateLimiter.serve (rl.store ip [t0]) ip ts).1.limit := by
    rw [hkeep1, hlim]
    omega
  have hrej := RateLimiter.Middleware_of_full t1 hreq hfull
  have hdrop : ¬ ((((RateLimiter.serve (rl.store ip [t0]) ip ts).1.filtered t2 (t0 :: ts)).length
      : Int) ≥ (RateLimiter.serve (rl.store ip [t0]) ip ts).1.limit) := by
    have hout : ¬ Time.Sub t2 t0 < (RateLimiter.serve (rl.store ip [t0]) ip ts).1.window := by
      rw [hwin]
      have := Time.Sub_ge_of_ge hwmax ht2
      omega
    have hle : ((RateLimiter.serve (rl.store ip [t0]) ip ts).1.filtered t2 (t0 :: ts)).length
        ≤ ts.length := by
      unfold RateLimiter.filtered
      rw [List.filter_cons_of_neg (by simpa using hout)]
      exact List.length_filter_le _ _
    rw [hlim]
    simp only [List.length_cons] at hlen
    push_cast at hlen
    omega
  refine ⟨?_, ?_, ?_, ?_⟩
  · intro v hv
    rcases List.mem_cons.mp hv with h | h
    · rw [h]
      rfl
    · exact hall v h
  · simp only [List.length_cons, hcount]
    exact hlen
  · rw [hrej]
    exact ⟨rfl, rfl⟩
  · rw [hrej]
    simp only
    rw [RateLimiter.Middleware_of_room t2 hreq hdrop]
    rfl

/-- C3: a request that the middleware rejects leaves the limiter, and so the
map from clients to timestamps, exactly as it was. -/
theorem middleware_rejected_unchanged (rl : RateLimiter) (ip : String) (now : Int)
    (h : (rl.Middleware ip now).2.rejected) :
    (rl.Middleware ip now).1 = rl ∧ (rl.Middleware ip now).1.requests = rl.requests := by
  cases hreq : rl.requests ip with
  | none =>
    rw [RateLimiter.Middleware_of_none now hreq] at h
    simp [Verdict.rejected] at h
  | some ts =>
    by_cases hlim : ((rl.filtered now ts).length : Int) ≥ rl.limit
    · rw [RateLimiter.Middleware_of_full now hreq hlim]
      exact ⟨rfl, rfl⟩
    · rw [RateLimiter.Middleware_of_room now hreq hlim] at h
      simp [Verdict.rejected] at h

/-- C2 at the limiter of the design document scaled to seconds: limit 5 and
window 60, requests at 0, 10, 20, 30 and 40, a sixth at 59 and a seventh at
60. -/
theorem serve_limit_reject_then_admit_witness :
    (∀ v ∈ ((NewRateLimiter 5 60).serve "10.0.0.1" [0, 10, 20, 30, 40]).2, v.admitted) ∧
    ((((NewRateLimiter 5 60).serve "10.0.0.1" [0, 10, 20, 30, 40]).2.length : Nat) : Int)
      = (NewRateLimiter 5 60).limit ∧
    (((NewRateLimiter 5 60).serve "10.0.0.1" [0, 10, 20, 30, 40]).1.Middleware
      "10.0.0.1" 59).2.rejected ∧
    ((((NewRateLimiter 5 60).serve "10.0.0.1" [0, 10, 20, 30, 40]).1.Middleware
      "10.0.0.1" 59).1.Middleware "10.0.0.1" 60).2.admitted :=
  serve_limit_reject_then_admit (NewRateLimiter 5 60) "10.0.0.1" 0 [10, 20, 30, 40] 59 60
    (by decide) (by decide) rfl rfl (by decide) (by decide) (by decide) (by decide)

/-- C3 at a limiter of limit 1 whose client already has one timestamp in the
window: the second request is rejected and nothing is recorded. -/
theorem middleware_rejected_unchanged_witness :
    (((NewRateLimiter 1 60).store "10.0.0.1" [5]).Middleware "10.0.0.1" 7).1
        = (NewRateLimiter 1 60).store "10.0.0.1" [5] ∧
    (((NewRateLimiter 1 60).store "10.0.0.1" [5]).Middleware "10.0.0.1" 7).1.requests
        = ((NewRateLimiter 1 60).store "10.0.0.1" [5]).requests :=
  middleware_rejected_unchanged ((NewRateLimiter 1 60).store "10.0.0.1" [5]) "10.0.0.1" 7
    (by
      simp [RateLimiter.Middleware, RateLimiter.store, NewRateLimiter, RateLimiter.filtered,
        Time.Sub, maxDuration, minDuration, Verdict.rejected])

/-! ## Theorems: publish pipeline -/

theorem Tx.rollback_tables (tx : Tx) (db : Database) : (tx.rollback db).tables = db.tables := rfl

theorem Tx.apply_ok {α : Type} (db : Database) (stmt : Database → Database × α) :
    (⟨db, false⟩ : Tx).apply false stmt = ((⟨(stmt db).1, false⟩ : Tx), some (stmt db).2) := by
  simp [Tx.apply]

theorem Tx.apply_fault {α : Type} (tx : Tx) (stmt : Database → Database × α) :
    tx.apply true stmt = ({ tx with failed := true }, Option.none) := by
  simp [Tx.apply]

theorem Tx.apply_failed {α : Type} (db : Database) (fault : Bool)
    (stmt : Database → Database × α) :
    (⟨db, true⟩ : Tx).apply fault stmt = ((⟨db, true⟩ : Tx), Option.none) := by
  simp [Tx.apply]

/-- A statement that is refused when `c` holds and otherwise does `g` runs in a
transaction as `g` does under the flag "fault or `c`". -/
theorem Tx.exec_of_guard {α : Type} (tx : Tx) (fault : Bool) (c : Prop) [Decidable c]
    (g : Database → Database × α) :
    tx.exec fault (fun db => if c then Option.none else some (g db))
      = tx.apply (fault || decide c) g := by
  unfold Tx.exec Tx.apply
  by_cases hc : c
  · simp [hc]
  · simp [hc]

theorem Tx.exec_upsertPackage (tx : Tx) (fault : Bool) (now : Int) (n d a l rp h : String) :
    tx.exec fault (upsertPackage now n d a l rp h)
      = tx.apply (fault || decide (n.length > 255 ∨ a.length > 255 ∨ l.length > 50))
          (upsertPackageAccepted now n d a l rp h) :=
  Tx.exec_of_guard tx fault _ _

theorem Tx.exec_insertVersion (tx : Tx) (fault : Bool) (now : Int) (pid : Nat)
    (v u c : String) :
    tx.exec fault (insertVersion now pid v u c)
      = tx.apply (fault || decide (v.length > 50 ∨ c.length > 64))
          (insertVersionAccepted now pid v u c) :=
  Tx.exec_of_guard tx fault _ _

theorem Tx.exec_insertDependency (tx : Tx) (fault : Bool) (vid : Nat) (dep : String) :
    tx.exec fault (insertDependency vid dep)
      = tx.apply (fault || decide (dep.length > 255)) (insertDependencyAccepted vid dep) :=
  Tx.exec_of_guard tx fault _ _

theorem Tx.exec_insertKeyword (tx : Tx) (fault : Bool) (pid : Nat) (k : String) :
    tx.exec fault (insertKeyword pid k)
      = tx.apply (fault || decide (k.length > 100)) (insertKeywordAccepted pid k) :=
  Tx.exec_of_guard tx fault _ _

theorem Tx.exec_selectVersion (tx : Tx) (fault : Bool) (pid : Nat) (v : String) :
    tx.exec fault (fun db => some (selectVersion pid v db))
      = tx.apply fault (selectVersion pid v) := by
  unfold Tx.exec Tx.apply
  rfl

theorem upsertPackage_versions (now : Int) (n d a l rp h : String) (db : Database) :
    (upsertPackageAccepted now n d a l rp h db).1.tables.package_versions
      = db.tables.package_versions := by
  unfold upsertPackageAccepted
  split <;> rfl

theorem upsertPackage_id_of_find (now : Int) (n d a l rp h : String) (db : Database)
    {p : Package} (hp : db.tables.packages.find? (fun p => decide (p.Name = n)) = some p) :
    (upsertPackageAccepted now n d a l rp h db).2 = p.ID := by
  unfold upsertPackageAccepted
  rw [hp]

theorem Tables.find_of_hasVersion {t : Tables} {name version : String}
    (hu : t.uniqueNames) (h : t.hasVersion name version) :
    ∃ p, t.packages.find? (fun p => decide (p.Name = name)) = some p ∧
      ∃ v ∈ t.package_versions, v.PackageID = p.ID ∧ v.Version = version := by
  obtain ⟨p, hp, hname, v, hv, hid, hver⟩ := h
  cases hf : t.packages.find? (fun p => decide (p.Name = name)) with
  | none =>
    rw [List.find?_eq_none] at hf
    have := hf p hp
    simp [hname] at this
  | some q =>
    have hq := List.mem_of_find?_eq_some hf
    have hqn : q.Name = name := by simpa using List.find?_some hf
    have hpq : p = q := by
      by_contra hne
      have hsym : Symmetric (fun a b : Package => a.Name ≠ b.Name) := fun a b hab => Ne.symm hab
      exact (List.Pairwise.forall hsym hu hp hq hne) (hname.trans hqn.symm)
    refine ⟨q, rfl, v, hv, ?_, hver⟩
    rw [← hpq]
    exact hid

theorem selectVersion_of_mem {db : Database} {pid : Nat} {version : String}
    (h : ∃ v ∈ db.tables.package_versions, v.PackageID = pid ∧ v.Version = version) :
    ∃ x, (selectVersion pid version db).2 = some x := by
  obtain ⟨v, hv, hid, hver⟩ := h
  unfold selectVersion
  cases hf : db.tables.package_versions.find?
      (fun v => decide (v.PackageID = pid ∧ v.Version = version)) with
  | none =>
    rw [List.find?_eq_none] at hf
    have := hf v hv
    simp [hid, hver] at this
  | some w => exact ⟨w.Version, rfl⟩

theorem Tx.commit_false {tx : Tx} {fault : Bool} {before db1 : Database}
    (h : tx.commit fault before = (db1, false)) : db1.tables = before.tables := by
  unfold Tx.commit at h
  split_ifs at h with hc
  · cases h
    rfl
  · cases h

theorem Tx.commit_true {tx : Tx} {fault : Bool} {before db1 : Database}
    (h : tx.commit fault before = (db1, true)) :
    db1 = tx.db ∧ tx.failed = false ∧ fault = false := by
  unfold Tx.commit at h
  split_ifs at h with hc
  · cases h
  · cases h
    simp only [Bool.or_eq_true, not_or, Bool.not_eq_true] at hc
    exact ⟨rfl, hc.1, hc.2⟩

theorem publishTx_tables_or_ok (f : PublishFaults) (now : Int) (username : String)
    (r : PublishForm) (db : Database) :
    (publishTx f now username r db).2 = publishOK username r.name ∨
    ((publishTx f now username r db).2.status ≠ 200 ∧
     (publishTx f now username r db).1.tables = db.tables) := by
  unfold publishTx
  split_ifs with hb
  · right; exact ⟨by simp [Response.fail], rfl⟩
  · split
    · right; exact ⟨by simp [Response.fail], rfl⟩
    · split
      · right; exact ⟨by simp [Response.fail], rfl⟩
      · split
        · right; exact ⟨by simp [Response.fail], rfl⟩
        · split
          · right; exact ⟨by simp [Response.fail], rfl⟩
          · split
            · rename_i hc
              right; exact ⟨by simp [Response.fail], Tx.commit_false hc⟩
            · left; rfl

theorem publishTx_of_hasVersion (f : PublishFaults) (now : Int) (username : String)
    (r : PublishForm) (db : Database)
    (hu : db.tables.uniqueNames) (hex : db.tables.hasVersion r.name r.version) :
    (publishTx f now username r db).2.status ≠ 200 ∧
    (r.name.length ≤ 255 → r.author.length ≤ 255 → r.license.length ≤ 50 →
      (publishTx PublishFaults.none now username r db).2
        = Response.fail 409 "Version already exists") := by
  obtain ⟨p, hfind, hrow⟩ := Tables.find_of_hasVersion hu hex
  have hid := upsertPackage_id_of_find now r.name r.description r.author r.license
    r.repository r.homepage db hfind
  have hsel : ∃ x, (selectVersion
      (upsertPackageAccepted now r.name r.description r.author r.license r.repository
        r.homepage db).2
      r.version
      (upsertPackageAccepted now r.name r.description r.author r.license r.repository
        r.homepage db).1).2
      = some x := by
    apply selectVersion_of_mem
    rw [upsertPackage_versions, hid]
    exact hrow
  obtain ⟨x, hx⟩ := hsel
  constructor
  · unfold publishTx
    simp only [Tx.exec_upsertPackage, Tx.exec_selectVersion, Tx.exec_insertVersion]
    cases hb : f.begin
    · cases hups : (f.upsert ||
          decide (r.name.length > 255 ∨ r.author.length > 255 ∨ r.license.length > 50))
      · cases hchk : f.check
        · simp [Tx.begin, Tx.apply_ok, hx, Response.fail]
        · simp [Tx.begin, Tx.apply_ok, Tx.apply_fault, Tx.apply_failed, Response.fail]
      · simp [Tx.begin, Tx.apply_fault, Response.fail]
    · simp [Response.fail]
  · intro h1 h2 h3
    have hfit : decide (r.name.length > 255 ∨ r.author.length > 255 ∨ r.license.length > 50)
        = false := by
      simp only [decide_eq_false_iff_not]
      omega
    unfold publishTx
    simp only [Tx.exec_upsertPackage, Tx.exec_selectVersion, Tx.exec_insertVersion, hfit]
    simp [PublishFaults.none, Tx.begin, Tx.apply_ok, hx]

theorem PublishPackage_of_verified (sha256hex : List UInt8 → String) (cfg : Config)
    (f : PublishFaults) (now : Int) (username : String) (r : PublishForm) (s : Registry)
    (bytes : List UInt8) (hc : r.complete) (hup : r.package = Upload.file bytes)
    (hsum : sha256hex bytes = r.checksum) :
    PublishPackage sha256hex cfg f now username (some r) s =
      if f.create then (s, Response.fail 500 "Failed to save file")
      else
        match f.copy with
        | some n =>
          ({ s with files := s.files.write (cfg.artifactPath r.name r.version)
                               (bytes.take n) },
           Response.fail 500 "Failed to save file")
        | Option.none =>
          ({ db := (publishTx f now username r s.db).1,
             files := s.files.write (cfg.artifactPath r.name r.version) bytes },
           (publishTx f now username r s.db).2) := by
  obtain ⟨h1, h2, h3, h4⟩ := hc
  unfold PublishPackage
  simp only
  rw [if_neg (by simp [h1, h2, h3, h4]), hup]
  simp only
  rw [if_neg (by simp [hsum])]

theorem Tx.apply_some_inv {α : Type} {tx tx1 : Tx} {fault : Bool}
    {stmt : Database → Database × α} {a : α} (h : tx.apply fault stmt = (tx1, some a)) :
    tx.failed = false ∧ fault = false ∧ tx1 = ⟨(stmt tx.db).1, false⟩ ∧ a = (stmt tx.db).2 := by
  unfold Tx.apply at h
  split_ifs at h with hc
  · cases h
  · simp only [Bool.or_eq_true, not_or, Bool.not_eq_true] at hc
    cases h
    exact ⟨hc.1, hc.2, rfl, rfl⟩

theorem Tx.apply_fst_failed_false {α : Type} {tx : Tx} {fault : Bool}
    {stmt : Database → Database × α} (h : (tx.apply fault stmt).1.failed = false) :
    tx.failed = false ∧ fault = false := by
  unfold Tx.apply at h
  split_ifs at h with hc
  simpa using hc

theorem insertDependencies_true (fault : Nat → Bool) (versionID : Nat) (deps : List String) :
    ∀ (start : Nat) (tx tx1 : Tx),
      insertDependencies fault versionID start deps tx = (tx1, true) →
      ∀ i dep, deps[i]? = some dep → dep ≠ "" → fault (start + i) = false := by
  induction deps with
  | nil =>
    intro start tx tx1 _ i dep hi
    simp at hi
  | cons d rest ih =>
    intro start tx tx1 h i dep hi hne
    unfold insertDependencies at h
    simp only [Tx.exec_insertDependency] at h
    by_cases hd : d ≠ ""
    · rw [if_pos hd] at h
      split at h
      · cases h
      · rename_i tx2 u hex
        cases i with
        | zero =>
          have := (Tx.apply_some_inv hex).2.1
          simp only [Bool.or_eq_false_iff] at this
          exact this.1
        | succ k =>
          have := ih (start + 1) tx2 tx1 h k dep (by simpa using hi) hne
          rw [show start + (k + 1) = start + 1 + k by omega]
          exact this
    · rw [if_neg hd] at h
      cases i with
      | zero =>
        simp only [List.getElem?_cons_zero, Option.some.injEq] at hi
        rw [hi] at hd
        exact absurd hne hd
      | succ k =>
        have := ih (start + 1) tx tx1 h k dep (by simpa using hi) hne
        rw [show start + (k + 1) = start + 1 + k by omega]
        exact this

theorem insertDependencies_failed (fault : Nat → Bool) (versionID : Nat) (deps : List String) :
    ∀ (start : Nat) (tx tx1 : Tx),
      insertDependencies fault versionID start deps tx = (tx1, true) →
      tx.failed = false → tx1.failed = false := by
  induction deps with
  | nil =>
    intro start tx tx1 h hf
    simp only [insertDependencies] at h
    cases h
    exact hf
  | cons d rest ih =>
    intro start tx tx1 h hf
    unfold insertDependencies at h
    simp only [Tx.exec_insertDependency] at h
    by_cases hd : d ≠ ""
    · rw [if_pos hd] at h
      split at h
      · cases h
      · rename_i tx2 u hex
        have h3 := (Tx.apply_some_inv hex).2.2.1
        exact ih (start + 1) tx2 tx1 h (by rw [h3])
    · rw [if_neg hd] at h
      exact ih (start + 1) tx tx1 h hf

theorem insertKeywords_failed_false (fault : Nat → Bool) (packageID : Nat)
    (kws : List String) :
    ∀ (start : Nat) (tx : Tx),
      (insertKeywords fault packageID start kws tx).failed = false →
      tx.failed = false ∧ ∀ j kw, kws[j]? = some kw → kw ≠ "" → fault (start + j) = false := by
  induction kws with
  | nil =>
    intro start tx h
    simp only [insertKeywords] at h
    refine ⟨h, ?_⟩
    intro j kw hj
    simp at hj
  | cons k rest ih =>
    intro start tx h
    unfold insertKeywords at h
    simp only [Tx.exec_insertKeyword] at h
    by_cases hk : k ≠ ""
    · rw [if_pos hk] at h
      have hrec := ih (start + 1) _ h
      have hex := Tx.apply_fst_failed_false hrec.1
      refine ⟨hex.1, ?_⟩
      intro j kw hj hne
      cases j with
      | zero =>
        have := hex.2
        simp only [Bool.or_eq_false_iff] at this
        exact this.1
      | succ m =>
        have := hrec.2 m kw (by simpa using hj) hne
        rw [show start + (m + 1) = start + 1 + m by omega]
        exact this
    · rw [if_neg hk] at h
      have hrec := ih (start + 1) _ h
      refine ⟨hrec.1, ?_⟩
      intro j kw hj hne
      cases j with
      | zero =>
        simp only [List.getElem?_cons_zero, Option.some.injEq] at hj
        rw [hj] at hk
        exact absurd hne hk
      | succ m =>
        have := hrec.2 m kw (by simpa using hj) hne
        rw [show start + (m + 1) = start + 1 + m by omega]
        exact this

theorem publishTx_ok_inv (f : PublishFaults) (now : Int) (username : String)
    (r : PublishForm) (db : Database)
    (h : (publishTx f now username r db).2.status = 200) :
    f.begin = false ∧ f.upsert = false ∧ f.insertVersion = false ∧
    (∀ i dep, r.dependencies[i]? = some dep → dep ≠ "" → f.dependency i = false) ∧
    (∀ j kw, r.keywords[j]? = some kw → kw ≠ "" → f.keyword j = false) ∧
    f.commit = false := by
  unfold publishTx at h
  simp only [Tx.exec_upsertPackage, Tx.exec_selectVersion, Tx.exec_insertVersion] at h
  split_ifs at h with hb
  · simp [Response.fail] at h
  · split at h
    · simp [Response.fail] at h
    · rename_i tx1 packageID h1
      split at h
      · simp [Response.fail] at h
      · split at h
        · simp [Response.fail] at h
        · rename_i tx3 versionID h3
          split at h
          · simp [Response.fail] at h
          · rename_i tx4 h4
            split at h
            · simp [Response.fail] at h
            · rename_i db1 h5
              have hc := Tx.commit_true h5
              have hk := insertKeywords_failed_false f.keyword packageID r.keywords 0 tx4 hc.2.1
              have hd := insertDependencies_true f.dependency versionID r.dependencies 0 tx3 tx4 h4
              have hu1 := (Tx.apply_some_inv h1).2.1
              have hu3 := (Tx.apply_some_inv h3).2.1
              simp only [Bool.or_eq_false_iff] at hu1 hu3
              refine ⟨by simpa using hb, hu1.1, hu3.1, ?_, ?_, hc.2.2⟩
              · intro i dep hi hne
                simpa using hd i dep hi hne
              · intro j kw hj hne
                simpa using hk.2 j kw hj hne

theorem insertDependencies_none (versionID : Nat) (deps : List String)
    (hfit : ∀ d ∈ deps, d.length ≤ 255) :
    ∀ (start : Nat) (db : Database),
      insertDependencies (fun _ => false) versionID start deps ⟨db, false⟩
        = ((⟨addDependencies versionID deps db, false⟩ : Tx), true) := by
  induction deps with
  | nil => intro start db; rfl
  | cons d rest ih =>
    intro start db
    have hrest := ih (fun x hx => hfit x (List.mem_cons_of_mem _ hx))
    have hd255 : decide (d.length > 255) = false := by
      have := hfit d (List.mem_cons_self _ _)
      simp only [decide_eq_false_iff_not]
      omega
    unfold insertDependencies addDependencies
    simp only [Tx.exec_insertDependency, hd255, Bool.or_false]
    by_cases hd : d ≠ ""
    · rw [if_pos hd, if_pos hd, Tx.apply_ok]
      exact hrest (start + 1) _
    · rw [if_neg hd, if_neg hd]
      exact hrest (start + 1) _

theorem insertKeywords_none (packageID : Nat) (kws : List String)
    (hfit : ∀ k ∈ kws, k.length ≤ 100) :
    ∀ (start : Nat) (db : Database),
      insertKeywords (fun _ => false) packageID start kws ⟨db, false⟩
        = (⟨addKeywords packageID kws db, false⟩ : Tx) := by
  induction kws with
  | nil => intro start db; rfl
  | cons k rest ih =>
    intro start db
    have hrest := ih (fun x hx => hfit x (List.mem_cons_of_mem _ hx))
    have hk100 : decide (k.length > 100) = false := by
      have := hfit k (List.mem_cons_self _ _)
      simp only [decide_eq_false_iff_not]
      omega
    unfold insertKeywords addKeywords
    simp only [Tx.exec_insertKeyword, hk100, Bool.or_false]
    by_cases hk : k ≠ ""
    · rw [if_pos hk, if_pos hk, Tx.apply_ok]
      exact hrest (start + 1) _
    · rw [if_neg hk, if_neg hk]
      exact hrest (start + 1) _

theorem addDependencies_tables (versionID : Nat) (deps : List String) :
    ∀ db : Database,
      (addDependencies versionID deps db).tables.packages = db.tables.packages ∧
      (addDependencies versionID deps db).tables.package_versions
        = db.tables.package_versions ∧
      (addDependencies versionID deps db).tables.package_keywords
        = db.tables.package_keywords ∧
      (addDependencies versionID deps db).tables.dependenciesOf versionID
        = db.tables.dependenciesOf versionID ++ deps.filter (fun d => decide (d ≠ "")) := by
  induction deps with
  | nil => intro db; simp [addDependencies]
  | cons d rest ih =>
    intro db
    unfold addDependencies
    by_cases hd : d ≠ ""
    · rw [if_pos hd]
      obtain ⟨h1, h2, h3, h4⟩ := ih (insertDependencyAccepted versionID d db).1
      refine ⟨h1, h2, h3, ?_⟩
      rw [h4]
      simp [Tables.dependenciesOf, insertDependencyAccepted, hd]
    · rw [if_neg hd]
      obtain ⟨h1, h2, h3, h4⟩ := ih db
      refine ⟨h1, h2, h3, ?_⟩
      rw [h4]
      simp [hd]

theorem insertKeyword_tables (packageID : Nat) (k : String) (db : Database) :
    (insertKeywordAccepted packageID k db).1.tables.packages = db.tables.packages ∧
    (insertKeywordAccepted packageID k db).1.tables.package_versions = db.tables.package_versions ∧
    (insertKeywordAccepted packageID k db).1.tables.dependencies = db.tables.dependencies := by
  unfold insertKeywordAccepted
  split_ifs <;> exact ⟨rfl, rfl, rfl⟩

theorem addKeywords_tables (packageID : Nat) (kws : List String) :
    ∀ db : Database,
      (addKeywords packageID kws db).tables.packages = db.tables.packages ∧
      (addKeywords packageID kws db).tables.package_versions = db.tables.package_versions ∧
      (addKeywords packageID kws db).tables.dependencies = db.tables.dependencies := by
  induction kws with
  | nil => intro db; exact ⟨rfl, rfl, rfl⟩
  | cons k rest ih =>
    intro db
    unfold addKeywords
    by_cases hk : k ≠ ""
    · rw [if_pos hk]
      obtain ⟨h1, h2, h3⟩ := ih (insertKeywordAccepted packageID k db).1
      obtain ⟨g1, g2, g3⟩ := insertKeyword_tables packageID k db
      exact ⟨h1.trans g1, h2.trans g2, h3.trans g3⟩
    · rw [if_neg hk]
      exact ih db

/-- The key that the upsert returns is the key of a package row of that name,
or the next value of the sequence when no row has the name. -/
theorem upsertPackage_id_cases (now : Int) (n d a l rp h : String) (db : Database) :
    (∃ p ∈ db.tables.packages, p.Name = n ∧ (upsertPackageAccepted now n d a l rp h db).2 = p.ID) ∨
    ((∀ p ∈ db.tables.packages, p.Name ≠ n) ∧
      (upsertPackageAccepted now n d a l rp h db).2 = db.seqs.packages_id) := by
  cases hf : db.tables.packages.find? (fun p => decide (p.Name = n)) with
  | none =>
    right
    constructor
    · intro p hp
      rw [List.find?_eq_none] at hf
      simpa using hf p hp
    · unfold upsertPackageAccepted
      rw [hf]
  | some p =>
    left
    refine ⟨p, List.mem_of_find?_eq_some hf, by simpa using List.find?_some hf, ?_⟩
    exact upsertPackage_id_of_find now n d a l rp h db hf

/-- Every package row after the upsert has the key and name of a row that was
there before, or is the new row. -/
theorem upsertPackage_mem (now : Int) (n d a l rp h : String) (db : Database)
    {q : Package} (hq : q ∈ (upsertPackageAccepted now n d a l rp h db).1.tables.packages) :
    (∃ p ∈ db.tables.packages, p.ID = q.ID ∧ p.Name = q.Name) ∨
    ((∀ p ∈ db.tables.packages, p.Name ≠ n) ∧ q.ID = db.seqs.packages_id ∧ q.Name = n) := by
  unfold upsertPackageAccepted at hq
  cases hf : db.tables.packages.find? (fun p => decide (p.Name = n)) with
  | none =>
    rw [hf] at hq
    simp only [List.mem_append, List.mem_singleton] at hq
    rcases hq with hq | hq
    · left
      exact ⟨q, hq, rfl, rfl⟩
    · right
      refine ⟨?_, by rw [hq], by rw [hq]⟩
      intro p hp
      rw [List.find?_eq_none] at hf
      simpa using hf p hp
  | some p0 =>
    rw [hf] at hq
    simp only [List.mem_map] at hq
    obtain ⟨p, hp, hpq⟩ := hq
    left
    refine ⟨p, hp, ?_⟩
    by_cases hn : p.Name = n
    · rw [if_pos hn] at hpq
      rw [← hpq]
      exact ⟨rfl, rfl⟩
    · rw [if_neg hn] at hpq
      rw [← hpq]
      exact ⟨rfl, rfl⟩

/-- After the upsert the package query by name finds a row, and its key is the
key that the upsert returned. -/
theorem upsertPackage_packageByName (now : Int) (n d a l rp h : String) (db : Database) :
    ∃ pkg, (upsertPackageAccepted now n d a l rp h db).1.tables.packageByName n = some pkg ∧
      pkg.ID = (upsertPackageAccepted now n d a l rp h db).2 := by
  unfold Tables.packageByName upsertPackageAccepted
  cases hf : db.tables.packages.find? (fun p => decide (p.Name = n)) with
  | none =>
    simp only
    rw [List.find?_append, hf]
    simp
  | some p0 =>
    simp only
    have hn : p0.Name = n := by simpa using List.find?_some hf
    refine ⟨{ p0 with Description := d, Author := a, License := l, Repository := rp,
                      Homepage := h }, ?_, rfl⟩
    rw [List.find?_map]
    have hcomp : ((fun p : Package => decide (p.Name = n)) ∘ fun q : Package =>
        if q.Name = n then
          { q with Description := d, Author := a, License := l, Repository := rp, Homepage := h }
        else q) = fun p : Package => decide (p.Name = n) := by
      funext q
      simp only [Function.comp]
      by_cases hq : q.Name = n
      · simp [hq]
      · simp [hq]
    rw [hcomp, hf]
    simp [hn]

theorem selectVersion_fst (packageID : Nat) (version : String) (db : Database) :
    (selectVersion packageID version db).1 = db := rfl

theorem selectVersion_none_of_new {db : Database} (hwf : db.WF) (now : Int)
    (r : PublishForm) (hnew : ¬ db.tables.hasVersion r.name r.version) :
    (selectVersion
      (upsertPackageAccepted now r.name r.description r.author r.license r.repository r.homepage db).2
      r.version
      (upsertPackageAccepted now r.name r.description r.author r.license r.repository r.homepage db).1).2
      = Option.none := by
  unfold selectVersion
  simp only [Option.map_eq_none']
  rw [List.find?_eq_none]
  intro v hv
  rw [upsertPackage_versions] at hv
  simp only [decide_eq_true_eq, not_and]
  intro hid hver
  rcases upsertPackage_id_cases now r.name r.description r.author r.license r.repository
    r.homepage db with ⟨p, hp, hname, hpid⟩ | ⟨_, hpid⟩
  · exact hnew ⟨p, hp, hname, v, hv, by rw [hid, hpid], hver⟩
  · obtain ⟨p, hp, hpv⟩ := hwf.versionsRef v hv
    have := hwf.packagesSeq p hp
    omega

theorem publishTx_of_new {db : Database} (hwf : db.WF) (now : Int) (username : String)
    (r : PublishForm) (hfit : r.fits) (hnew : ¬ db.tables.hasVersion r.name r.version) :
    publishTx PublishFaults.none now username r db
      = (publishedDatabase now r db, publishOK username r.name) := by
  have hsel := selectVersion_none_of_new hwf now r hnew
  obtain ⟨h1, h2, h3, h4, h5, h6, h7⟩ := hfit
  have hup : decide (r.name.length > 255 ∨ r.author.length > 255 ∨ r.license.length > 50)
      = false := by
    simp only [decide_eq_false_iff_not]
    omega
  have hins : decide (r.version.length > 50 ∨ r.checksum.length > 64) = false := by
    simp only [decide_eq_false_iff_not]
    omega
  unfold publishTx publishedDatabase
  simp only [Tx.exec_upsertPackage, Tx.exec_selectVersion, Tx.exec_insertVersion, hup, hins,
    PublishFaults.none, Bool.false_eq_true, if_false, Tx.begin, Tx.apply_ok, hsel,
    insertDependencies_none _ _ h6, insertKeywords_none _ _ h7, Tx.commit, Bool.or_false,
    selectVersion_fst]

theorem upsertPackage_seq_versions (now : Int) (n d a l rp h : String) (db : Database) :
    (upsertPackageAccepted now n d a l rp h db).1.seqs.package_versions_id
      = db.seqs.package_versions_id := by
  unfold upsertPackageAccepted
  split <;> rfl

theorem upsertPackage_dependencies (now : Int) (n d a l rp h : String) (db : Database) :
    (upsertPackageAccepted now n d a l rp h db).1.tables.dependencies = db.tables.dependencies := by
  unfold upsertPackageAccepted
  split <;> rfl

/-- The version row that a publish inserts. -/
theorem publishedDatabase_versions (now : Int) (r : PublishForm) (db : Database) :
    (publishedDatabase now r db).tables.package_versions =
      db.tables.package_versions ++
        [{ ID := db.seqs.package_versions_id,
           PackageID := (upsertPackageAccepted now r.name r.description r.author r.license
             r.repository r.homepage db).2,
           Version := r.version, DownloadURL := downloadURL r.name r.version,
           Checksum := r.checksum, PublishedAt := now, Downloads := 0 }] := by
  unfold publishedDatabase
  simp only
  rw [(addKeywords_tables _ _ _).2.1, (addDependencies_tables _ _ _).2.1]
  simp only [insertVersionAccepted, upsertPackage_versions, upsertPackage_seq_versions]

theorem publishedDatabase_packages (now : Int) (r : PublishForm) (db : Database) :
    (publishedDatabase now r db).tables.packages =
      (upsertPackageAccepted now r.name r.description r.author r.license r.repository
        r.homepage db).1.tables.packages := by
  unfold publishedDatabase
  simp only
  rw [(addKeywords_tables _ _ _).1, (addDependencies_tables _ _ _).1]
  rfl

theorem publishedDatabase_dependenciesOf {db : Database} (hwf : db.WF) (now : Int)
    (r : PublishForm) :
    (publishedDatabase now r db).tables.dependenciesOf db.seqs.package_versions_id =
      r.dependencies.filter (fun d => decide (d ≠ "")) := by
  have hold : db.tables.dependenciesOf db.seqs.package_versions_id = [] := by
    unfold Tables.dependenciesOf
    rw [List.map_eq_nil_iff, List.filter_eq_nil_iff]
    intro d hd
    obtain ⟨v, hv, hvd⟩ := hwf.dependenciesRef d hd
    have := hwf.versionsSeq v hv
    simp only [decide_eq_true_eq]
    omega
  have hid : (insertVersionAccepted now (upsertPackageAccepted now r.name r.description r.author r.license
      r.repository r.homepage db).2 r.version (downloadURL r.name r.version) r.checksum
      (upsertPackageAccepted now r.name r.description r.author r.license r.repository
        r.homepage db).1).2 = db.seqs.package_versions_id := by
    simp only [insertVersionAccepted, upsertPackage_seq_versions]
  unfold publishedDatabase
  simp only
  rw [hid]
  have h4 := (addDependencies_tables db.seqs.package_versions_id r.dependencies
    (insertVersionAccepted now (upsertPackageAccepted now r.name r.description r.author r.license
      r.repository r.homepage db).2 r.version (downloadURL r.name r.version) r.checksum
      (upsertPackageAccepted now r.name r.description r.author r.license r.repository
        r.homepage db).1).1).2.2.2
  unfold Tables.dependenciesOf at h4 hold ⊢
  rw [(addKeywords_tables _ _ _).2.2, h4]
  simp only [insertVersionAccepted, upsertPackage_dependencies, hold, List.nil_append]

/-- The first row in descending order of `published_at` is the row that is
strictly newer than every other. -/
theorem head_orderByPublishedAtDesc {l : List PackageVersion} {x : PackageVersion}
    (hx : x ∈ l) (hmax : ∀ y ∈ l, y ≠ x → y.PublishedAt < x.PublishedAt) :
    (orderByPublishedAtDesc l).head? = some x := by
  unfold orderByPublishedAtDesc
  have hs := List.sorted_insertionSort (fun a b : PackageVersion => a.PublishedAt ≥ b.PublishedAt) l
  have hmem : ∀ y, y ∈ l.insertionSort (fun a b => a.PublishedAt ≥ b.PublishedAt) ↔ y ∈ l :=
    fun y => List.mem_insertionSort _
  cases hl : l.insertionSort (fun a b => a.PublishedAt ≥ b.PublishedAt) with
  | nil =>
    have := (hmem x).mpr hx
    rw [hl] at this
    cases this
  | cons h t =>
    rw [hl] at hs
    simp only [List.head?_cons, Option.some.injEq]
    by_contra hne
    have hhl : h ∈ l := (hmem h).mp (by rw [hl]; exact List.mem_cons_self _ _)
    have hlt := hmax h hhl hne
    have hxs : x ∈ h :: t := by rw [← hl]; exact (hmem x).mpr hx
    rcases List.mem_cons.mp hxs with heq | hxt
    · exact hne heq.symm
    · have := List.rel_of_sorted_cons hs x hxt
      simp only [ge_iff_le] at this
      omega

theorem List.find?_eq_some_of_unique {α : Type} {p : α → Bool} {l : List α} {x : α}
    (hx : x ∈ l) (hp : p x = true) (hu : ∀ y ∈ l, p y = true → y = x) :
    l.find? p = some x := by
  cases hf : l.find? p with
  | none =>
    rw [List.find?_eq_none] at hf
    exact absurd hp (hf x hx)
  | some y =>
    rw [hu y (List.mem_of_find?_eq_some hf) (List.find?_some hf)]

theorem TxInv.refl {db : Database} (hwf : db.WF) (hu : db.tables.uniqueNames) :
    TxInv db db := ⟨hwf, hu, le_refl _, le_refl _⟩

theorem TxInv.rollback {before : Database} {tx : Tx} (hwf : before.WF)
    (hu : before.tables.uniqueNames) (h : TxInv before tx.db) :
    (tx.rollback before).WF ∧ (tx.rollback before).tables.uniqueNames := by
  refine ⟨⟨hwf.versionsRef, hwf.dependenciesRef, ?_, ?_⟩, hu⟩
  · intro p hp
    have := hwf.packagesSeq p hp
    have := h.packagesSeq
    simp only [Tx.rollback]
    omega
  · intro v hv
    have := hwf.versionsSeq v hv
    have := h.versionsSeq
    simp only [Tx.rollback]
    omega

theorem upsertPackage_inv {before db : Database} (now : Int) (n d a l rp h : String)
    (hi : TxInv before db) : TxInv before (upsertPackageAccepted now n d a l rp h db).1 := by
  obtain ⟨⟨h1, h2, h3, h4⟩, hu, h5, h6⟩ := hi
  unfold upsertPackageAccepted
  cases hf : db.tables.packages.find? (fun p => decide (p.Name = n)) with
  | some p0 =>
    simp only
    refine ⟨⟨?_, h2, ?_, h4⟩, ?_, by simp only; omega, h6⟩
    · intro v hv
      obtain ⟨p, hp, hpv⟩ := h1 v hv
      simp only [List.mem_map]
      by_cases hn : p.Name = n
      · exact ⟨_, ⟨p, hp, if_pos hn⟩, hpv⟩
      · exact ⟨_, ⟨p, hp, if_neg hn⟩, hpv⟩
    · intro q hq
      simp only [List.mem_map] at hq
      obtain ⟨p, hp, hpq⟩ := hq
      have := h3 p hp
      have hid : q.ID = p.ID := by
        rw [← hpq]
        split_ifs <;> rfl
      simp only
      omega
    · unfold Tables.uniqueNames at hu ⊢
      simp only
      rw [List.pairwise_map]
      refine hu.imp ?_
      intro x y hxy
      have hx : (if x.Name = n then
          { x with Description := d, Author := a, License := l, Repository := rp, Homepage := h }
          else x).Name = x.Name := by split_ifs <;> rfl
      have hy : (if y.Name = n then
          { y with Description := d, Author := a, License := l, Repository := rp, Homepage := h }
          else y).Name = y.Name := by split_ifs <;> rfl
      rw [hx, hy]
      exact hxy
  | none =>
    simp only
    rw [List.find?_eq_none] at hf
    refine ⟨⟨?_, h2, ?_, h4⟩, ?_, by simp only; omega, h6⟩
    · intro v hv
      obtain ⟨p, hp, hpv⟩ := h1 v hv
      exact ⟨p, List.mem_append_left _ hp, hpv⟩
    · intro q hq
      simp only [List.mem_append, List.mem_singleton] at hq
      rcases hq with hq | hq
      · have := h3 q hq
        simp only
        omega
      · rw [hq]
        simp only
        omega
    · unfold Tables.uniqueNames at hu ⊢
      simp only
      rw [List.pairwise_append]
      refine ⟨hu, List.pairwise_singleton _ _, ?_⟩
      intro x hx y hy
      rw [List.mem_singleton] at hy
      rw [hy]
      simpa using hf x hx

theorem insertVersion_inv {before db : Database} (now : Int) (pid : Nat) (v u c : String)
    (hi : TxInv before db) (hpid : ∃ p ∈ db.tables.packages, p.ID = pid) :
    TxInv before (insertVersionAccepted now pid v u c db).1 := by
  obtain ⟨⟨h1, h2, h3, h4⟩, hu, h5, h6⟩ := hi
  unfold insertVersionAccepted
  refine ⟨⟨?_, ?_, h3, ?_⟩, hu, h5, by simp only; omega⟩
  · intro w hw
    simp only [List.mem_append, List.mem_singleton] at hw
    rcases hw with hw | hw
    · exact h1 w hw
    · rw [hw]
      exact hpid
  · intro d hd
    obtain ⟨w, hw, hwd⟩ := h2 d hd
    exact ⟨w, List.mem_append_left _ hw, hwd⟩
  · intro w hw
    simp only [List.mem_append, List.mem_singleton] at hw
    rcases hw with hw | hw
    · have := h4 w hw
      simp only
      omega
    · rw [hw]
      simp only
      omega

theorem insertDependency_inv {before db : Database} (vid : Nat) (dep : String)
    (hi : TxInv before db) (hvid : ∃ v ∈ db.tables.package_versions, v.ID = vid) :
    TxInv before (insertDependencyAccepted vid dep db).1 := by
  obtain ⟨⟨h1, h2, h3, h4⟩, hu, h5, h6⟩ := hi
  unfold insertDependencyAccepted
  refine ⟨⟨h1, ?_, h3, h4⟩, hu, h5, h6⟩
  intro d hd
  simp only [List.mem_append, List.mem_singleton] at hd
  rcases hd with hd | hd
  · exact h2 d hd
  · rw [hd]
    exact hvid

theorem insertKeyword_inv {before db : Database} (pid : Nat) (k : String)
    (hi : TxInv before db) : TxInv before (insertKeywordAccepted pid k db).1 := by
  obtain ⟨⟨h1, h2, h3, h4⟩, hu, h5, h6⟩ := hi
  unfold insertKeywordAccepted
  split_ifs
  · exact ⟨⟨h1, h2, h3, h4⟩, hu, h5, h6⟩
  · exact ⟨⟨h1, h2, h3, h4⟩, hu, h5, h6⟩


theorem Tx.apply_inv {α : Type} {P : Database → Prop} {tx : Tx} (fault : Bool)
    (stmt : Database → Database × α) (hP : P tx.db) (hstep : P (stmt tx.db).1) :
    P (tx.apply fault stmt).1.db := by
  unfold Tx.apply
  split_ifs
  · exact hP
  · exact hstep

theorem Tx.apply_selectVersion_db (tx : Tx) (fault : Bool) (pid : Nat) (version : String) :
    (tx.apply fault (selectVersion pid version)).1.db = tx.db := by
  unfold Tx.apply
  split_ifs <;> rfl

theorem insertDependency_versions (vid : Nat) (dep : String) (db : Database) :
    (insertDependencyAccepted vid dep db).1.tables.package_versions = db.tables.package_versions := rfl

theorem insertDependencies_inv {before : Database} (fault : Nat → Bool) (vid : Nat)
    (deps : List String) :
    ∀ (start : Nat) (tx : Tx), TxInv before tx.db →
      (∃ v ∈ tx.db.tables.package_versions, v.ID = vid) →
      TxInv before (insertDependencies fault vid start deps tx).1.db := by
  induction deps with
  | nil =>
    intro start tx hi _
    exact hi
  | cons d rest ih =>
    intro start tx hi hv
    unfold insertDependencies
    simp only [Tx.exec_insertDependency]
    by_cases hd : d ≠ ""
    · rw [if_pos hd]
      have hstep : TxInv before (tx.apply (fault start || decide (d.length > 255)) (insertDependencyAccepted vid d)).1.db :=
        Tx.apply_inv _ _ hi (insertDependency_inv vid d hi hv)
      have hvs : ∃ v ∈ (tx.apply (fault start || decide (d.length > 255)) (insertDependencyAccepted vid d)).1.db.tables.package_versions,
          v.ID = vid := by
        have hstmt : ∃ v ∈ (insertDependencyAccepted vid d tx.db).1.tables.package_versions,
            v.ID = vid := by
          rw [insertDependency_versions]
          exact hv
        exact @Tx.apply_inv Unit (fun db => ∃ v ∈ db.tables.package_versions, v.ID = vid) tx
          (fault start || decide (d.length > 255)) (insertDependencyAccepted vid d) hv hstmt
      split
      · rename_i tx1 heq
        have : tx1 = (tx.apply (fault start || decide (d.length > 255)) (insertDependencyAccepted vid d)).1 := by rw [heq]
        rw [this]
        exact hstep
      · rename_i tx1 u heq
        have : tx1 = (tx.apply (fault start || decide (d.length > 255)) (insertDependencyAccepted vid d)).1 := by rw [heq]
        rw [this]
        exact ih (start + 1) _ hstep hvs
    · rw [if_neg hd]
      exact ih (start + 1) tx hi hv

theorem insertKeywords_inv {before : Database} (fault : Nat → Bool) (pid : Nat)
    (kws : List String) :
    ∀ (start : Nat) (tx : Tx), TxInv before tx.db →
      TxInv before (insertKeywords fault pid start kws tx).db := by
  induction kws with
  | nil =>
    intro start tx hi
    exact hi
  | cons k rest ih =>
    intro start tx hi
    unfold insertKeywords
    simp only [Tx.exec_insertKeyword]
    by_cases hk : k ≠ ""
    · rw [if_pos hk]
      exact ih (start + 1) _ (Tx.apply_inv _ _ hi (insertKeyword_inv pid k hi))
    · rw [if_neg hk]
      exact ih (start + 1) tx hi

theorem Tx.commit_inv {before : Database} {tx : Tx} (fault : Bool) (hwf : before.WF)
    (hu : before.tables.uniqueNames) (hi : TxInv before tx.db) :
    (tx.commit fault before).1.WF ∧ (tx.commit fault before).1.tables.uniqueNames := by
  unfold Tx.commit
  split_ifs
  · exact TxInv.rollback hwf hu hi
  · exact ⟨hi.wf, hi.names⟩

/-- The metadata transaction of a publish keeps the referential constraints and
the uniqueness of package names, whatever fails. -/
theorem publishTx_inv (f : PublishFaults) (now : Int) (username : String) (r : PublishForm)
    {db : Database} (hwf : db.WF) (hu : db.tables.uniqueNames) :
    (publishTx f now username r db).1.WF ∧
    (publishTx f now username r db).1.tables.uniqueNames := by
  have h0 : TxInv db (Tx.begin db).db := TxInv.refl hwf hu
  have hup : TxInv db ((Tx.begin db).apply (f.upsert ||
      decide (r.name.length > 255 ∨ r.author.length > 255 ∨ r.license.length > 50))
      (upsertPackageAccepted now r.name r.description r.author r.license r.repository
        r.homepage)).1.db :=
    Tx.apply_inv _ _ h0 (upsertPackage_inv now _ _ _ _ _ _ h0)
  unfold publishTx
  simp only [Tx.exec_upsertPackage, Tx.exec_selectVersion, Tx.exec_insertVersion]
  split_ifs with hb
  · exact ⟨hwf, hu⟩
  · split
    · rename_i tx1 h1
      have e1 : tx1 = ((Tx.begin db).apply (f.upsert ||
      decide (r.name.length > 255 ∨ r.author.length > 255 ∨ r.license.length > 50)) (upsertPackageAccepted now r.name r.description
        r.author r.license r.repository r.homepage)).1 := by rw [h1]
      rw [e1]
      exact TxInv.rollback hwf hu hup
    · rename_i tx1 packageID h1
      have e1 : tx1 = ((Tx.begin db).apply (f.upsert ||
      decide (r.name.length > 255 ∨ r.author.length > 255 ∨ r.license.length > 50)) (upsertPackageAccepted now r.name r.description
        r.author r.license r.repository r.homepage)).1 := by rw [h1]
      have hi1 : TxInv db tx1.db := by rw [e1]; exact hup
      have hs1 := Tx.apply_some_inv h1
      have hpid : ∃ p ∈ tx1.db.tables.packages, p.ID = packageID := by
        obtain ⟨pkg, hpkg, hid⟩ := upsertPackage_packageByName now r.name r.description
          r.author r.license r.repository r.homepage db
        rw [hs1.2.2.1, hs1.2.2.2]
        exact ⟨pkg, List.mem_of_find?_eq_some hpkg, hid⟩
      have hchk : ∀ tx2 res, tx1.apply f.check (selectVersion packageID r.version) = (tx2, res) →
          tx2.db = tx1.db := by
        intro tx2 res h2
        have : tx2 = (tx1.apply f.check (selectVersion packageID r.version)).1 := by rw [h2]
        rw [this]
        exact Tx.apply_selectVersion_db _ _ _ _
      split
      · rename_i tx2 x h2
        have hi2 : TxInv db tx2.db := by rw [hchk _ _ h2]; exact hi1
        exact TxInv.rollback hwf hu hi2
      · rename_i tx2 res hnot h2
        have e2 := hchk _ _ h2
        have hi3 : TxInv db (tx2.apply (f.insertVersion ||
            decide (r.version.length > 50 ∨ r.checksum.length > 64)) (insertVersionAccepted now packageID r.version
            (downloadURL r.name r.version) r.checksum)).1.db := by
          apply Tx.apply_inv
          · rw [e2]; exact hi1
          · apply insertVersion_inv
            · rw [e2]; exact hi1
            · rw [e2]; exact hpid
        split
        · rename_i tx3 h3
          have e3 : tx3 = (tx2.apply (f.insertVersion ||
            decide (r.version.length > 50 ∨ r.checksum.length > 64)) (insertVersionAccepted now packageID r.version
            (downloadURL r.name r.version) r.checksum)).1 := by rw [h3]
          rw [e3]
          exact TxInv.rollback hwf hu hi3
        · rename_i tx3 versionID h3
          have e3 : tx3 = (tx2.apply (f.insertVersion ||
            decide (r.version.length > 50 ∨ r.checksum.length > 64)) (insertVersionAccepted now packageID r.version
            (downloadURL r.name r.version) r.checksum)).1 := by rw [h3]
          have hs3 := Tx.apply_some_inv h3
          have hvid : ∃ v ∈ tx3.db.tables.package_versions, v.ID = versionID := by
            rw [hs3.2.2.1, hs3.2.2.2]
            exact ⟨_, List.mem_append_right _ (List.mem_singleton_self _), rfl⟩
          have hi4 : TxInv db (insertDependencies f.dependency versionID 0 r.dependencies
              tx3).1.db :=
            insertDependencies_inv _ _ _ 0 tx3 (by rw [e3]; exact hi3) hvid
          split
          · rename_i tx4 h4
            have e4 : tx4 = (insertDependencies f.dependency versionID 0 r.dependencies
              tx3).1 := by rw [h4]
            rw [e4]
            exact TxInv.rollback hwf hu hi4
          · rename_i tx4 h4
            have e4 : tx4 = (insertDependencies f.dependency versionID 0 r.dependencies
              tx3).1 := by rw [h4]
            have hi5 : TxInv db (insertKeywords f.keyword packageID 0 r.keywords tx4).db :=
              insertKeywords_inv f.keyword packageID r.keywords 0 tx4 (by rw [e4]; exact hi4)
            have hcm := Tx.commit_inv f.commit hwf hu hi5
            split
            · rename_i db1 h5
              rw [h5] at hcm
              exact hcm
            · rename_i db1 h5
              rw [h5] at hcm
              exact hcm

theorem PublishPackage_inv (sha256hex : List UInt8 → String) (cfg : Config)
    (f : PublishFaults) (now : Int) (username : String) (form : Option PublishForm)
    {s : Registry} (hwf : s.db.WF) (hu : s.db.tables.uniqueNames) :
    (PublishPackage sha256hex cfg f now username form s).1.db.WF ∧
    (PublishPackage sha256hex cfg f now username form s).1.db.tables.uniqueNames := by
  unfold PublishPackage
  cases form with
  | none => exact ⟨hwf, hu⟩
  | some r =>
    simp only
    by_cases hreq : r.name = "" ∨ r.version = "" ∨ r.author = "" ∨ r.checksum = ""
    · rw [if_pos hreq]
      exact ⟨hwf, hu⟩
    · rw [if_neg hreq]
      cases r.package with
      | missing => exact ⟨hwf, hu⟩
      | unreadable => exact ⟨hwf, hu⟩
      | file bytes =>
        simp only
        by_cases hs : sha256hex bytes ≠ r.checksum
        · rw [if_pos hs]
          exact ⟨hwf, hu⟩
        · rw [if_neg hs]
          by_cases hcr : f.create = true
          · rw [if_pos hcr]
            exact ⟨hwf, hu⟩
          · rw [if_neg hcr]
            cases f.copy with
            | some n => exact ⟨hwf, hu⟩
            | none => exact publishTx_inv f now username r hwf hu

theorem incrementDownloads_inv {db db1 : Database} (versionID : Nat)
    (h : incrementDownloads versionID db = some db1) (hwf : db.WF)
    (hu : db.tables.uniqueNames) : db1.WF ∧ db1.tables.uniqueNames := by
  unfold incrementDownloads at h
  split_ifs at h
  cases h
  obtain ⟨h1, h2, h3, h4⟩ := hwf
  refine ⟨⟨?_, ?_, h3, ?_⟩, hu⟩
  · intro v hv
    simp only [List.mem_map] at hv
    obtain ⟨w, hw, hwv⟩ := hv
    obtain ⟨p, hp, hpw⟩ := h1 w hw
    refine ⟨p, hp, ?_⟩
    rw [hpw, ← hwv]
    split_ifs <;> rfl
  · intro d hd
    obtain ⟨w, hw, hwd⟩ := h2 d hd
    simp only [List.mem_map]
    by_cases hid : w.ID = versionID
    · exact ⟨_, ⟨w, hw, if_pos hid⟩, hwd⟩
    · exact ⟨_, ⟨w, hw, if_neg hid⟩, hwd⟩
  · intro v hv
    simp only [List.mem_map] at hv
    obtain ⟨w, hw, hwv⟩ := hv
    have := h4 w hw
    have hid : v.ID = w.ID := by
      rw [← hwv]
      split_ifs <;> rfl
    simp only
    omega

theorem DownloadPackage_inv (cfg : Config) (f : DownloadFaults) (name version : String)
    {s : Registry} (hwf : s.db.WF) (hu : s.db.tables.uniqueNames) :
    (DownloadPackage cfg f name version s).1.db.WF ∧
    (DownloadPackage cfg f name version s).1.db.tables.uniqueNames := by
  unfold DownloadPackage
  by_cases hq : f.query = true
  · rw [if_pos hq]
    exact ⟨hwf, hu⟩
  · rw [if_neg hq]
    cases s.db.tables.versionByName name version with
    | none => exact ⟨hwf, hu⟩
    | some pv =>
      have hdb : (if f.update = true then s.db
          else (incrementDownloads pv.ID s.db).getD s.db).WF ∧
          (if f.update = true then s.db
          else (incrementDownloads pv.ID s.db).getD s.db).tables.uniqueNames := by
        by_cases hup : f.update = true
        · rw [if_pos hup]
          exact ⟨hwf, hu⟩
        · rw [if_neg hup]
          cases hinc : incrementDownloads pv.ID s.db with
          | none => exact ⟨hwf, hu⟩
          | some db1 => exact incrementDownloads_inv pv.ID hinc hwf hu
      simp only
      cases s.files (cfg.artifactPath name version) with
      | none => exact hdb
      | some bytes => exact hdb

theorem deleteVersion_inv (versionID : Nat) {db : Database} (hwf : db.WF)
    (hu : db.tables.uniqueNames) :
    (deleteVersion versionID db).WF ∧ (deleteVersion versionID db).tables.uniqueNames := by
  obtain ⟨h1, h2, h3, h4⟩ := hwf
  unfold deleteVersion
  refine ⟨⟨?_, ?_, h3, ?_⟩, hu⟩
  · intro v hv
    exact h1 v (List.mem_of_mem_filter hv)
  · intro d hd
    simp only [List.mem_filter, decide_eq_true_eq] at hd
    obtain ⟨w, hw, hwd⟩ := h2 d hd.1
    refine ⟨w, ?_, hwd⟩
    simp only [List.mem_filter, decide_eq_true_eq]
    refine ⟨hw, ?_⟩
    rw [hwd]
    exact hd.2
  · intro v hv
    exact h4 v (List.mem_of_mem_filter hv)

theorem DeletePackage_inv (cfg : Config) (f : DeleteFaults) (name version : String)
    {s : Registry} (hwf : s.db.WF) (hu : s.db.tables.uniqueNames) :
    (DeletePackage cfg f name version s).1.db.WF ∧
    (DeletePackage cfg f name version s).1.db.tables.uniqueNames := by
  unfold DeletePackage
  by_cases hq : f.query = true
  · rw [if_pos hq]
    exact ⟨hwf, hu⟩
  · rw [if_neg hq]
    cases s.db.tables.versionByName name version with
    | none => exact ⟨hwf, hu⟩
    | some pv =>
      simp only
      by_cases he : f.exec = true
      · rw [if_pos he]
        exact ⟨hwf, hu⟩
      · rw [if_neg he]
        exact deleteVersion_inv _ hwf hu

theorem Database.empty_WF : Database.empty.WF :=
  ⟨by simp [Database.empty], by simp [Database.empty], by simp [Database.empty],
    by simp [Database.empty]⟩

/-- Every reachable registry meets the referential constraints of the schema
and has unique package names. -/
theorem Reachable.inv {sha256hex : List UInt8 → String} {cfg : Config} {s : Registry}
    (h : Reachable sha256hex cfg s) : s.db.WF ∧ s.db.tables.uniqueNames := by
  induction h with
  | empty => exact ⟨Database.empty_WF, by simp [Tables.uniqueNames, Registry.empty, Database.empty]⟩
  | publish f now username form _ ih => exact PublishPackage_inv _ _ _ _ _ _ ih.1 ih.2
  | download f name version _ ih => exact DownloadPackage_inv _ _ _ _ ih.1 ih.2
  | delete f name version _ ih => exact DeletePackage_inv _ _ _ _ ih.1 ih.2

/-- The registry `alphaRegistry` is the one that the publish of `alpha` 1.0.0
leaves on a fresh installation. -/
theorem alphaRegistry_published :
    (PublishPackage letterDigest demoConfig PublishFaults.none 100 "bob"
      (some (alphaForm [1, 2] "bc")) Registry.empty).1 = alphaRegistry := by
  have hdb : (PublishPackage letterDigest demoConfig PublishFaults.none 100 "bob"
      (some (alphaForm [1, 2] "bc")) Registry.empty).1.db = alphaRegistry.db := by decide
  have hfiles : (PublishPackage letterDigest demoConfig PublishFaults.none 100 "bob"
      (some (alphaForm [1, 2] "bc")) Registry.empty).1.files = alphaRegistry.files := by
    funext k
    rw [PublishPackage_of_verified letterDigest demoConfig PublishFaults.none 100 "bob"
      (alphaForm [1, 2] "bc") Registry.empty [1, 2] (by decide) rfl (by decide)]
    simp only [PublishFaults.none, Bool.false_eq_true, if_false, Files.write, alphaRegistry,
      Registry.empty]
    have hpath : demoConfig.artifactPath (alphaForm [1, 2] "bc").name
        (alphaForm [1, 2] "bc").version = "storage/alpha-1.0.0.tar.gz" := by decide
    rw [hpath]
  cases hs : (PublishPackage letterDigest demoConfig PublishFaults.none 100 "bob"
      (some (alphaForm [1, 2] "bc")) Registry.empty).1 with
  | mk db files =>
    rw [hs] at hdb hfiles
    simp only at hdb hfiles
    rw [hdb, hfiles]

theorem alphaRegistry_reachable : Reachable letterDigest demoConfig alphaRegistry := by
  rw [← alphaRegistry_published]
  exact Reachable.publish _ _ _ _ Reachable.empty

/-- C4: a publish request in which name, version, author or checksum is empty,
the artifact part is absent, or the digest of the artifact differs from the
supplied checksum is answered with HTTP 400 and leaves the registry, the
artifact store and every metadata table, exactly as it was, whatever store
operations would fail. -/
theorem publish_invalid_rejected_unchanged (sha256hex : List UInt8 → String) (cfg : Config)
    (f : PublishFaults) (now : Int) (username : String) (r : PublishForm) (s : Registry)
    (h : r.name = "" ∨ r.version = "" ∨ r.author = "" ∨ r.checksum = "" ∨
      r.package = Upload.missing ∨
      ∃ bytes, r.package = Upload.file bytes ∧ sha256hex bytes ≠ r.checksum) :
    (PublishPackage sha256hex cfg f now username (some r) s).2.status = 400 ∧
    (PublishPackage sha256hex cfg f now username (some r) s).1 = s := by
  unfold PublishPackage
  simp only
  by_cases hreq : r.name = "" ∨ r.version = "" ∨ r.author = "" ∨ r.checksum = ""
  · rw [if_pos hreq]
    exact ⟨rfl, rfl⟩
  · rw [if_neg hreq]
    have h2 : r.package = Upload.missing ∨
        ∃ bytes, r.package = Upload.file bytes ∧ sha256hex bytes ≠ r.checksum := by
      rcases h with h | h | h | h | h
      · exact absurd (Or.inl h) hreq
      · exact absurd (Or.inr (Or.inl h)) hreq
      · exact absurd (Or.inr (Or.inr (Or.inl h))) hreq
      · exact absurd (Or.inr (Or.inr (Or.inr h))) hreq
      · exact h
    rcases h2 with h2 | ⟨bytes, hb, hne⟩
    · rw [h2]
      exact ⟨rfl, rfl⟩
    · rw [hb]
      simp only
      rw [if_pos hne]
      exact ⟨rfl, rfl⟩

/-- C4 at a request whose checksum is not the digest of its artifact, on the
empty registry. -/
theorem publish_invalid_rejected_unchanged_witness :
    (PublishPackage letterDigest demoConfig PublishFaults.none 100 "bob"
      (some { name := "alpha", version := "1.0.0", description := "", author := "ann",
              license := "MIT", repository := "", homepage := "", checksum := "zz",
              dependencies := [], keywords := [], package := Upload.file [1, 2] })
      Registry.empty).2.status = 400 ∧
    (PublishPackage letterDigest demoConfig PublishFaults.none 100 "bob"
      (some { name := "alpha", version := "1.0.0", description := "", author := "ann",
              license := "MIT", repository := "", homepage := "", checksum := "zz",
              dependencies := [], keywords := [], package := Upload.file [1, 2] })
      Registry.empty).1 = Registry.empty :=
  publish_invalid_rejected_unchanged letterDigest demoConfig PublishFaults.none 100 "bob" _
    Registry.empty
    (Or.inr (Or.inr (Or.inr (Or.inr (Or.inr ⟨[1, 2], rfl, by decide⟩)))))

/-- C5, amended: when the metadata state, whose package names are unique as
the schema requires, already holds a version row for `(name, version)`, a
publish request for the same pair that passes validation and checksum
verification leaves the four metadata tables as they were and does not succeed,
whatever store operations fail; when none fails and the name, the author and
the license of the request fit their columns (`VARCHAR(255)`, `VARCHAR(255)`
and `VARCHAR(50)` of table `packages`), it is answered with HTTP 409. -/
theorem publish_existing_version_conflict (sha256hex : List UInt8 → String) (cfg : Config)
    (f : PublishFaults) (now : Int) (username : String) (r : PublishForm) (s : Registry)
    (bytes : List UInt8)
    (hu : s.db.tables.uniqueNames) (hex : s.db.tables.hasVersion r.name r.version)
    (hc : r.complete) (hup : r.package = Upload.file bytes)
    (hsum : sha256hex bytes = r.checksum) :
    (PublishPackage sha256hex cfg f now username (some r) s).1.db.tables = s.db.tables ∧
    (PublishPackage sha256hex cfg f now username (some r) s).2.status ≠ 200 ∧
    (r.name.length ≤ 255 → r.author.length ≤ 255 → r.license.length ≤ 50 →
      (PublishPackage sha256hex cfg PublishFaults.none now username (some r) s).2
        = Response.fail 409 "Version already exists") := by
  have hv := publishTx_of_hasVersion f now username r s.db hu hex
  refine ⟨?_, ?_, ?_⟩
  · rw [PublishPackage_of_verified sha256hex cfg f now username r s bytes hc hup hsum]
    cases f.create
    · cases f.copy with
      | none =>
        simp only [Bool.false_eq_true, if_false]
        rcases publishTx_tables_or_ok f now username r s.db with h | h
        · rw [h] at hv
          exact absurd rfl hv.1
        · exact h.2
      | some n => rfl
    · rfl
  · rw [PublishPackage_of_verified sha256hex cfg f now username r s bytes hc hup hsum]
    cases f.create
    · cases f.copy with
      | none => exact hv.1
      | some n => simp [Response.fail]
    · simp [Response.fail]
  · intro hn ha hl
    rw [PublishPackage_of_verified sha256hex cfg PublishFaults.none now username r s bytes
      hc hup hsum]
    simp only [PublishFaults.none, Bool.false_eq_true, if_false]
    exact hv.2 hn ha hl

/-- C5 at a second publish of `alpha` 1.0.0, with a new description, on the
registry that already holds it: the values fit their columns, the tables are
unchanged and the answer is HTTP 409. -/
theorem publish_existing_version_conflict_witness :
    (PublishPackage letterDigest demoConfig PublishFaults.none 200 "bob"
      (some { alphaForm [1, 2] "bc" with description := "second" })
      alphaRegistry).1.db.tables = alphaRegistry.db.tables ∧
    (PublishPackage letterDigest demoConfig PublishFaults.none 200 "bob"
      (some { alphaForm [1, 2] "bc" with description := "second" })
      alphaRegistry).2.status ≠ 200 ∧
    (PublishPackage letterDigest demoConfig PublishFaults.none 200 "bob"
      (some { alphaForm [1, 2] "bc" with description := "second" }) alphaRegistry).2
      = Response.fail 409 "Version already exists" :=
  have h := publish_existing_version_conflict letterDigest demoConfig PublishFaults.none 200
    "bob" { alphaForm [1, 2] "bc" with description := "second" } alphaRegistry [1, 2]
    (by simp [Tables.uniqueNames, alphaRegistry])
    ⟨_, List.mem_cons_self _ _, rfl, _, List.mem_cons_self _ _, rfl, rfl⟩
    (by decide) rfl (by decide)
  ⟨h.1, h.2.1, h.2.2 (by decide) (by decide) (by decide)⟩

/-- C5 as claimed fails: on the registry that holds `alpha` 1.0.0, a second
publish of `alpha` 1.0.0 whose required fields are present, whose checksum is
the digest of its artifact and whose license has 51 characters is answered,
with no store operation failing, with HTTP 500 "Failed to create package" and
not with HTTP 409: the upsert of the package row, which the handler runs before
it looks for the version, is refused for column `license VARCHAR(50)`. -/
theorem publish_existing_version_conflict_counterexample :
    alphaRegistry.db.tables.hasVersion "alpha" "1.0.0" ∧
    ({ alphaForm [1, 2] "bc" with license := overlongLicense } : PublishForm).complete ∧
    letterDigest [1, 2] = "bc" ∧
    overlongLicense.length = 51 ∧
    (PublishPackage letterDigest demoConfig PublishFaults.none 200 "bob"
      (some { alphaForm [1, 2] "bc" with license := overlongLicense }) alphaRegistry).2
      = Response.fail 500 "Failed to create package" ∧
    (PublishPackage letterDigest demoConfig PublishFaults.none 200 "bob"
      (some { alphaForm [1, 2] "bc" with license := overlongLicense }) alphaRegistry).2
      ≠ Response.fail 409 "Version already exists" := by
  refine ⟨⟨_, List.mem_cons_self _ _, rfl, _, List.mem_cons_self _ _, rfl, rfl⟩,
    by decide, by decide, by decide, by decide, by decide⟩

/-- C7: for a publish request that has passed checksum verification, when a
statement of the metadata transaction is made to fail (the package upsert, the
version insert, a dependency insert or a keyword insert), the four metadata
tables are afterwards what they were before the request and the response is
not the success response: its status is not 200. A keyword insert that fails
is skipped by the handler, but the transaction is then in the failed state
and `Commit` rolls it back. -/
theorem publish_failed_step_rolls_back (sha256hex : List UInt8 → String) (cfg : Config)
    (f : PublishFaults) (now : Int) (username : String) (r : PublishForm) (s : Registry)
    (bytes : List UInt8)
    (hc : r.complete) (hup : r.package = Upload.file bytes)
    (hsum : sha256hex bytes = r.checksum) (hf : f.hitsTransaction r) :
    (PublishPackage sha256hex cfg f now username (some r) s).1.db.tables = s.db.tables ∧
    (PublishPackage sha256hex cfg f now username (some r) s).2.status ≠ 200 ∧
    (PublishPackage sha256hex cfg f now username (some r) s).2
      ≠ publishOK username r.name := by
  have hne : (publishTx f now username r s.db).2.status ≠ 200 := by
    intro h200
    obtain ⟨_, h1, h2, h3, h4, _⟩ := publishTx_ok_inv f now username r s.db h200
    rcases hf with h | h | ⟨i, dep, hi, hd, hfi⟩ | ⟨j, kw, hj, hk, hfj⟩
    · rw [h1] at h
      cases h
    · rw [h2] at h
      cases h
    · rw [h3 i dep hi hd] at hfi
      cases hfi
    · rw [h4 j kw hj hk] at hfj
      cases hfj
  have hst : (PublishPackage sha256hex cfg f now username (some r) s).2.status ≠ 200 := by
    rw [PublishPackage_of_verified sha256hex cfg f now username r s bytes hc hup hsum]
    cases f.create
    · cases f.copy with
      | none => exact hne
      | some n => simp [Response.fail]
    · simp [Response.fail]
  refine ⟨?_, hst, ?_⟩
  · rw [PublishPackage_of_verified sha256hex cfg f now username r s bytes hc hup hsum]
    cases f.create
    · cases f.copy with
      | none =>
        simp only [Bool.false_eq_true, if_false]
        rcases publishTx_tables_or_ok f now username r s.db with h | h
        · rw [h] at hne
          exact absurd rfl hne
        · exact h.2
      | some n => rfl
    · rfl
  · intro heq
    rw [heq] at hst
    exact hst rfl


/-- C7 at a publish of `alpha` 1.0.0 on the empty registry during which the
insert of the first keyword fails. -/
theorem publish_failed_step_rolls_back_witness :
    (PublishPackage letterDigest demoConfig
      { PublishFaults.none with keyword := fun j => decide (j = 0) } 100 "bob"
      (some (alphaForm [1, 2] "bc")) Registry.empty).1.db.tables = Registry.empty.db.tables ∧
    (PublishPackage letterDigest demoConfig
      { PublishFaults.none with keyword := fun j => decide (j = 0) } 100 "bob"
      (some (alphaForm [1, 2] "bc")) Registry.empty).2.status ≠ 200 ∧
    (PublishPackage letterDigest demoConfig
      { PublishFaults.none with keyword := fun j => decide (j = 0) } 100 "bob"
      (some (alphaForm [1, 2] "bc")) Registry.empty).2
      ≠ publishOK "bob" (alphaForm [1, 2] "bc").name :=
  publish_failed_step_rolls_back letterDigest demoConfig
    { PublishFaults.none with keyword := fun j => decide (j = 0) } 100 "bob"
    (alphaForm [1, 2] "bc") Registry.empty [1, 2] (by decide) rfl (by decide)
    (Or.inr (Or.inr (Or.inr ⟨0, "demo", rfl, by decide, rfl⟩)))

/-- C6, violated: when a version row for `(name, version)` exists whose blob
`old` has the recorded checksum, a publish of the same pair with an artifact
of another digest (and the checksum of that artifact) is refused (with HTTP
409 when its name, author and license fit their columns) and leaves the version
row in place, but the blob stored for the version is now the new artifact: its
digest no longer equals the recorded checksum. The handler writes the file
before it looks for the version. -/
theorem republish_replaces_blob (sha256hex : List UInt8 → String) (cfg : Config)
    (now : Int) (username : String) (r : PublishForm) (s : Registry)
    (bytes old : List UInt8) (p : Package) (v : PackageVersion)
    (hu : s.db.tables.uniqueNames)
    (hp : p ∈ s.db.tables.packages) (hpn : p.Name = r.name)
    (hv : v ∈ s.db.tables.package_versions) (hvp : v.PackageID = p.ID)
    (hvv : v.Version = r.version)
    (hblob : s.files (cfg.artifactPath r.name r.version) = some old)
    (hinv : sha256hex old = v.Checksum)
    (hc : r.complete) (hup : r.package = Upload.file bytes)
    (hsum : sha256hex bytes = r.checksum) (hdiff : sha256hex bytes ≠ sha256hex old) :
    (r.name.length ≤ 255 → r.author.length ≤ 255 → r.license.length ≤ 50 →
      (PublishPackage sha256hex cfg PublishFaults.none now username (some r) s).2
        = Response.fail 409 "Version already exists") ∧
    (PublishPackage sha256hex cfg PublishFaults.none now username (some r) s).2.status ≠ 200 ∧
    v ∈ (PublishPackage sha256hex cfg PublishFaults.none now username
      (some r) s).1.db.tables.package_versions ∧
    (PublishPackage sha256hex cfg PublishFaults.none now username (some r) s).1.files
      (cfg.artifactPath r.name r.version) = some bytes ∧
    sha256hex bytes ≠ v.Checksum ∧ some bytes ≠ s.files (cfg.artifactPath r.name r.version) := by
  have hex : s.db.tables.hasVersion r.name r.version := ⟨p, hp, hpn, v, hv, hvp, hvv⟩
  have htx := publishTx_of_hasVersion PublishFaults.none now username r s.db hu hex
  have hout := PublishPackage_of_verified sha256hex cfg PublishFaults.none now username r s
    bytes hc hup hsum
  simp only [PublishFaults.none, Bool.false_eq_true, if_false] at hout
  have hout2 : PublishPackage sha256hex cfg PublishFaults.none now username (some r) s =
      ({ db := (publishTx PublishFaults.none now username r s.db).1,
         files := s.files.write (cfg.artifactPath r.name r.version) bytes },
       (publishTx PublishFaults.none now username r s.db).2) := hout
  rw [hout2]
  refine ⟨htx.2, htx.1, ?_, by simp [Files.write], by rw [← hinv]; exact hdiff, ?_⟩
  · rcases publishTx_tables_or_ok PublishFaults.none now username r s.db with h | h
    · rw [h] at htx
      exact absurd rfl htx.1
    · simp only
      rw [h.2]
      exact hv
  · rw [hblob]
    intro heq
    cases heq
    exact hdiff rfl

/-- The violation of C6 on the registry that holds `alpha` 1.0.0 with artifact
`[1, 2]`: a second publish of `alpha` 1.0.0 with artifact `[9, 9]`. -/
theorem republish_replaces_blob_witness :
    (PublishPackage letterDigest demoConfig PublishFaults.none 200 "bob"
      (some (alphaForm [9, 9] "jj")) alphaRegistry).2
      = Response.fail 409 "Version already exists" ∧
    ({ ID := 1, PackageID := 1, Version := "1.0.0", DownloadURL := downloadURL "alpha" "1.0.0",
       Checksum := "bc", PublishedAt := 100, Downloads := 0 } : PackageVersion) ∈
      (PublishPackage letterDigest demoConfig PublishFaults.none 200 "bob"
        (some (alphaForm [9, 9] "jj")) alphaRegistry).1.db.tables.package_versions ∧
    (PublishPackage letterDigest demoConfig PublishFaults.none 200 "bob"
      (some (alphaForm [9, 9] "jj")) alphaRegistry).1.files
      (demoConfig.artifactPath (alphaForm [9, 9] "jj").name (alphaForm [9, 9] "jj").version)
      = some [9, 9] ∧
    letterDigest [9, 9] ≠ "bc" ∧
    some [9, 9] ≠ alphaRegistry.files
      (demoConfig.artifactPath (alphaForm [9, 9] "jj").name (alphaForm [9, 9] "jj").version) :=
  have h := republish_replaces_blob letterDigest demoConfig 200 "bob" (alphaForm [9, 9] "jj")
    alphaRegistry [9, 9] [1, 2] _ _
    (by simp [Tables.uniqueNames, alphaRegistry])
    (List.mem_cons_self _ _) rfl (List.mem_cons_self _ _) rfl rfl
    (by decide) (by decide) (by decide) rfl (by decide) (by decide)
  ⟨h.1 (by decide) (by decide) (by decide), h.2.2⟩

/-- C8, amended: on a registry that meets the referential constraints of the
schema and holds no version row for `(name, version)`, a publish request whose
required fields are present, whose values fit the columns they are stored in
(name, author and dependency names at most 255 characters, license and version
at most 50, checksum at most 64, keywords at most 100) and whose checksum is
the digest of its artifact, handled with no store operation failing at a time
later than every recorded publish time, reports success; right afterwards `ListVersions(name)` contains the
version, `GetPackageInfo(name)` reports the version with the supplied checksum
and the supplied non-empty dependencies, and `DownloadPackage(name, version)`
resolves the version row and serves the uploaded bytes. -/
theorem publish_then_retrievable (sha256hex : List UInt8 → String) (cfg : Config)
    (now : Int) (username : String) (r : PublishForm) (s : Registry) (bytes : List UInt8)
    (hwf : s.db.WF) (hnew : ¬ s.db.tables.hasVersion r.name r.version)
    (hc : r.complete) (hfit : r.fits) (hup : r.package = Upload.file bytes)
    (hsum : sha256hex bytes = r.checksum)
    (hnow : ∀ v ∈ s.db.tables.package_versions, v.PublishedAt < now) :
    (PublishPackage sha256hex cfg PublishFaults.none now username (some r) s).2
      = publishOK username r.name ∧
    (∃ vs, ListVersions VersionsFaults.none r.name
        (PublishPackage sha256hex cfg PublishFaults.none now username (some r) s).1
          = { status := 200, headers := [], body := Body.versions vs } ∧ r.version ∈ vs) ∧
    (∃ info, GetPackageInfo InfoFaults.none r.name
        (PublishPackage sha256hex cfg PublishFaults.none now username (some r) s).1
          = { status := 200, headers := [], body := Body.info info } ∧
        info.Version = r.version ∧ info.Checksum = r.checksum ∧
        info.Dependencies = r.dependencies.filter (fun d => decide (d ≠ ""))) ∧
    (DownloadPackage cfg DownloadFaults.none r.name r.version
        (PublishPackage sha256hex cfg PublishFaults.none now username (some r) s).1).2
      = { status := 200,
          headers := [("Content-Type", "application/gzip"), ("X-Checksum", r.checksum),
                      ("Content-Disposition",
                        "attachment; filename=" ++ artifactName r.name r.version)],
          body := Body.file bytes } := by
  have hout : PublishPackage sha256hex cfg PublishFaults.none now username (some r) s =
      ({ db := publishedDatabase now r s.db,
         files := s.files.write (cfg.artifactPath r.name r.version) bytes },
       publishOK username r.name) := by
    rw [PublishPackage_of_verified sha256hex cfg PublishFaults.none now username r s bytes
      hc hup hsum, publishTx_of_new hwf now username r hfit hnew]
    simp [PublishFaults.none]
  rw [hout]
  simp only
  obtain ⟨pkg, hpkg, hpid⟩ := upsertPackage_packageByName now r.name r.description r.author
    r.license r.repository r.homepage s.db
  have hbyname : (publishedDatabase now r s.db).tables.packageByName r.name = some pkg := by
    unfold Tables.packageByName at hpkg ⊢
    rw [publishedDatabase_packages]
    exact hpkg
  have hvers := publishedDatabase_versions now r s.db
  rw [← hpid] at hvers
  have hhead : ((publishedDatabase now r s.db).tables.versionsOf pkg.ID).head? =
      some { ID := s.db.seqs.package_versions_id, PackageID := pkg.ID, Version := r.version,
             DownloadURL := downloadURL r.name r.version, Checksum := r.checksum,
             PublishedAt := now, Downloads := 0 } := by
    unfold Tables.versionsOf
    apply head_orderByPublishedAtDesc
    · rw [hvers]
      simp
    · intro y hy hne
      rw [hvers] at hy
      simp only [List.mem_filter, List.mem_append, List.mem_singleton] at hy
      rcases hy.1 with h | h
      · exact hnow y h
      · exact absurd h hne
  refine ⟨trivial, ?_, ?_, ?_⟩
  · refine ⟨((publishedDatabase now r s.db).tables.versionsOf pkg.ID).map
      (fun v => v.Version), ?_, ?_⟩
    · unfold ListVersions
      simp only [VersionsFaults.none, Bool.false_eq_true, if_false, hbyname]
    · rw [List.mem_map]
      exact ⟨_, List.mem_of_mem_head? hhead, rfl⟩
  · refine ⟨{ Name := pkg.Name, Version := r.version, Description := pkg.Description,
              Author := pkg.Author, License := pkg.License,
              DownloadURL := downloadURL r.name r.version, Checksum := r.checksum,
              Dependencies := (publishedDatabase now r s.db).tables.dependenciesOf
                s.db.seqs.package_versions_id,
              Repository := pkg.Repository, Homepage := pkg.Homepage,
              Keywords := (publishedDatabase now r s.db).tables.keywordsOf pkg.ID,
              PublishedAt := now, Downloads := 0 }, ?_, ?_⟩
    · unfold GetPackageInfo
      simp only [InfoFaults.none, Bool.false_eq_true, if_false, hbyname, hhead]
    · exact ⟨rfl, rfl, publishedDatabase_dependenciesOf hwf now r⟩
  · have hfind : (publishedDatabase now r s.db).tables.versionByName r.name r.version =
        some { ID := s.db.seqs.package_versions_id, PackageID := pkg.ID, Version := r.version,
               DownloadURL := downloadURL r.name r.version, Checksum := r.checksum,
               PublishedAt := now, Downloads := 0 } := by
      unfold Tables.versionByName
      have hpmem : pkg ∈ (publishedDatabase now r s.db).tables.packages := by
        unfold Tables.packageByName at hbyname
        exact List.mem_of_find?_eq_some hbyname
      have hpname : pkg.Name = r.name := by
        unfold Tables.packageByName at hbyname
        simpa using List.find?_some hbyname
      apply List.find?_eq_some_of_unique
      · rw [hvers]
        simp
      · simp only [Bool.and_eq_true, decide_eq_true_eq, List.any_eq_true, true_and]
        exact ⟨pkg, hpmem, rfl, hpname⟩
      · intro y hy hp
        rw [hvers] at hy
        simp only [Bool.and_eq_true, decide_eq_true_eq, List.any_eq_true] at hp
        obtain ⟨hyv, q, hq, hqid, hqname⟩ := hp
        rcases List.mem_append.mp hy with h | h
        · exfalso
          rw [publishedDatabase_packages] at hq
          rcases upsertPackage_mem now r.name r.description r.author r.license r.repository
            r.homepage s.db hq with ⟨p0, hp0, hid0, hname0⟩ | ⟨_, hid0, _⟩
          · exact hnew ⟨p0, hp0, by rw [hname0, hqname], y, h, by rw [hqid, hid0], hyv⟩
          · obtain ⟨p1, hp1, hp1v⟩ := hwf.versionsRef y h
            have := hwf.packagesSeq p1 hp1
            omega
        · simpa using h
    unfold DownloadPackage
    simp only [DownloadFaults.none, Bool.false_eq_true, if_false, hfind, Files.write, if_true]


/-- C8 at the publish of `alpha` 1.1.0 with artifact `[3]` at time 200 on the
registry that holds `alpha` 1.0.0. -/
theorem publish_then_retrievable_witness :
    (PublishPackage letterDigest demoConfig PublishFaults.none 200 "bob"
      (some { alphaForm [3] "d" with version := "1.1.0" }) alphaRegistry).2
      = publishOK "bob" "alpha" ∧
    (∃ vs, ListVersions VersionsFaults.none "alpha"
        (PublishPackage letterDigest demoConfig PublishFaults.none 200 "bob"
          (some { alphaForm [3] "d" with version := "1.1.0" }) alphaRegistry).1
          = { status := 200, headers := [], body := Body.versions vs } ∧ "1.1.0" ∈ vs) ∧
    (∃ info, GetPackageInfo InfoFaults.none "alpha"
        (PublishPackage letterDigest demoConfig PublishFaults.none 200 "bob"
          (some { alphaForm [3] "d" with version := "1.1.0" }) alphaRegistry).1
          = { status := 200, headers := [], body := Body.info info } ∧
        info.Version = "1.1.0" ∧ info.Checksum = "d" ∧
        info.Dependencies = ["beta", ""].filter (fun d => decide (d ≠ ""))) ∧
    (DownloadPackage demoConfig DownloadFaults.none "alpha" "1.1.0"
        (PublishPackage letterDigest demoConfig PublishFaults.none 200 "bob"
          (some { alphaForm [3] "d" with version := "1.1.0" }) alphaRegistry).1).2
      = { status := 200,
          headers := [("Content-Type", "application/gzip"), ("X-Checksum", "d"),
                      ("Content-Disposition",
                        "attachment; filename=" ++ artifactName "alpha" "1.1.0")],
          body := Body.file [3] } :=
  publish_then_retrievable letterDigest demoConfig 200 "bob"
    { alphaForm [3] "d" with version := "1.1.0" } alphaRegistry [3]
    ⟨by decide, by decide, by decide, by decide⟩
    (by unfold Tables.hasVersion; decide)
    (by decide) (by decide) rfl (by decide) (by decide)

/-- C8 as claimed fails: on the empty registry, which holds no version row, a
publish request whose required fields are present, whose checksum is the
digest of its artifact and whose version has 60 characters does not report
success although no store operation fails: the insert of the version row is
refused for column `version VARCHAR(50)` and the handler answers HTTP 500
"Failed to create version"; no table has changed. -/
theorem publish_then_retrievable_counterexample :
    ¬ Registry.empty.db.tables.hasVersion "alpha" overlongVersion ∧
    ({ alphaForm [1, 2] "bc" with version := overlongVersion } : PublishForm).complete ∧
    letterDigest [1, 2] = "bc" ∧
    overlongVersion.length = 60 ∧
    (PublishPackage letterDigest demoConfig PublishFaults.none 100 "bob"
      (some { alphaForm [1, 2] "bc" with version := overlongVersion }) Registry.empty).2
      = Response.fail 500 "Failed to create version" ∧
    (PublishPackage letterDigest demoConfig PublishFaults.none 100 "bob"
      (some { alphaForm [1, 2] "bc" with version := overlongVersion }) Registry.empty).2
      ≠ publishOK "bob" "alpha" ∧
    (PublishPackage letterDigest demoConfig PublishFaults.none 100 "bob"
      (some { alphaForm [1, 2] "bc" with version := overlongVersion })
      Registry.empty).1.db.tables = Registry.empty.db.tables := by
  refine ⟨by unfold Tables.hasVersion; decide, by decide, by decide, by decide, by decide,
    by decide, by decide⟩

/-! ## Theorems: query engine -/

theorem likeMatch_nil (s : List Char) : likeMatch [] s = s.isEmpty := by
  unfold likeMatch
  rfl

theorem likeMatch_percent (p s : List Char) :
    likeMatch ('%' :: p) s = s.tails.any (fun t => likeMatch p t) := by
  rw [likeMatch]

theorem likeMatch_plain_cons (c : Char) (p s : List Char)
    (h1 : c ≠ '%') (h2 : c ≠ '_') (h3 : c ≠ '\\') :
    likeMatch (c :: p) s =
      match s with
      | [] => false
      | d :: t => d == c && likeMatch p t := by
  rw [likeMatch.eq_def]
  split
  · rename_i heq; cases heq
  · rename_i heq
    cases heq
    exact absurd rfl h1
  · rename_i heq
    cases heq
    exact absurd rfl h2
  · rename_i heq
    cases heq
    exact absurd rfl h3
  · rename_i heq
    cases heq
    exact absurd rfl h3
  · rename_i heq
    cases heq
    rfl

theorem likeMatch_plain_percent (q : List Char)
    (hq : ∀ c ∈ q, c ≠ '%' ∧ c ≠ '_' ∧ c ≠ '\\') :
    ∀ s, likeMatch (q ++ ['%']) s = q.isPrefixOf s := by
  induction q with
  | nil =>
    intro s
    rw [List.nil_append, likeMatch_percent]
    simp only [List.isPrefixOf, List.any_eq_true]
    exact ⟨[], by simp, by rw [likeMatch_nil]; rfl⟩
  | cons c q ih =>
    intro s
    obtain ⟨h1, h2, h3⟩ := hq c (List.mem_cons_self _ _)
    rw [List.cons_append, likeMatch_plain_cons c _ s h1 h2 h3]
    cases s with
    | nil => rfl
    | cons d t =>
      simp only [List.isPrefixOf]
      rw [ih (fun x hx => hq x (List.mem_cons_of_mem _ hx)) t]
      congr 1
      rw [Bool.eq_iff_iff]
      simp only [beq_iff_eq]
      exact eq_comm


theorem likeMatch_searchPattern (query : String)
    (hq : ∀ c ∈ lower query, c ≠ '%' ∧ c ≠ '_' ∧ c ≠ '\\') (field : String) :
    likeMatch (searchPattern query) (lower field) = containsFold query field := by
  unfold searchPattern containsFold isSubstring
  rw [List.append_assoc, List.singleton_append, likeMatch_percent]
  congr 1
  funext t
  exact likeMatch_plain_percent (lower query) hq t

theorem Tables.mem_keywordJoin {t : Tables} {p : Package} {kw : String}
    (h : some kw ∈ t.keywordJoin p) :
    ∃ k ∈ t.package_keywords, k.PackageID = p.ID ∧ k.Keyword = kw := by
  unfold Tables.keywordJoin at h
  split at h
  · simp at h
  · simp only [List.mem_map, Option.some.injEq] at h
    obtain ⟨k, hk, hkw⟩ := h
    have hk2 := hk
    simp only [List.mem_filter, decide_eq_true_eq] at hk2
    exact ⟨k, hk2.1, hk2.2.symm, hkw⟩

theorem Tables.mem_latestJoin {t : Tables} {r : Package × PackageVersion}
    (h : r ∈ t.latestJoin) :
    r.1 ∈ t.packages ∧ r.2 ∈ t.package_versions ∧ r.1.ID = r.2.PackageID ∧
      r.2.ID ∈ t.maxVersionIDs := by
  unfold Tables.latestJoin at h
  simp only [List.mem_flatMap, List.mem_map, List.mem_filter, Bool.and_eq_true,
    decide_eq_true_eq] at h
  obtain ⟨p, hp, pv, ⟨hpv, hid, hmax⟩, heq⟩ := h
  rw [← heq]
  exact ⟨hp, hpv, hid, hmax⟩

/-- For a query without the characters that `LIKE` reads specially, every
result of `SearchPackages` is a package whose name, description or one of
whose keywords contains the query case-insensitively. -/
theorem search_plain_query_contains (f : ListingFaults) (query : String)
    (limit : Option String) (s : Registry) (hne : query ≠ "")
    (hq : ∀ c ∈ lower query, c ≠ '%' ∧ c ≠ '_' ∧ c ≠ '\\')
    (results : List SearchResult) (total : Nat)
    (hbody : (SearchPackages f query limit s).body = Body.search results total) :
    ∀ res ∈ results, ∃ p ∈ s.db.tables.packages,
      p.Name = res.Name ∧ p.Description = res.Description ∧
      (containsFold query p.Name = true ∨ containsFold query p.Description = true ∨
        ∃ k ∈ s.db.tables.package_keywords, k.PackageID = p.ID ∧
          containsFold query k.Keyword = true) := by
  unfold SearchPackages at hbody
  by_cases hf : f.query = true
  · rw [if_pos hf] at hbody
    cases hbody
  · rw [if_neg hf] at hbody
    simp only [if_neg hne, Body.search.injEq] at hbody
    obtain ⟨hres, _⟩ := hbody
    intro res hmem
    rw [← hres] at hmem
    simp only [List.mem_map] at hmem
    obtain ⟨row, hrow, hrr⟩ := hmem
    have hrow2 : row ∈ s.db.tables.searchRows (searchPattern query) := by
      have := List.mem_of_mem_take hrow
      unfold orderByDownloadsDesc at this
      exact (List.mem_insertionSort _).mp this
    unfold Tables.searchRows at hrow2
    simp only [List.mem_dedup, List.mem_flatMap, List.mem_map, List.mem_filter] at hrow2
    obtain ⟨r, hr, k, ⟨hk, hcond⟩, hrowr⟩ := hrow2
    obtain ⟨hp, _, _, _⟩ := Tables.mem_latestJoin hr
    refine ⟨r.1, hp, ?_, ?_, ?_⟩
    · rw [← hrr, ← hrowr]
      rfl
    · rw [← hrr, ← hrowr]
      rfl
    · unfold searchCondition at hcond
      simp only [Bool.or_eq_true] at hcond
      rcases hcond with (h | h) | h
      · left
        rw [← likeMatch_searchPattern query hq]
        exact h
      · right; left
        rw [← likeMatch_searchPattern query hq]
        exact h
      · right; right
        cases k with
        | none => simp at h
        | some kw =>
          simp only at h
          obtain ⟨pk, hpk, hid, hkw⟩ := Tables.mem_keywordJoin hk
          refine ⟨pk, hpk, hid, ?_⟩
          rw [hkw, ← likeMatch_searchPattern query hq]
          exact h

/-- Every row that the listing queries join has the greatest key among the
version rows of its package. -/
theorem Tables.latestJoin_greatest_id {t : Tables} (hk : t.uniqueVersionIDs)
    {r : Package × PackageVersion} (h : r ∈ t.latestJoin) :
    ∀ w ∈ t.package_versions, w.PackageID = r.2.PackageID → w.ID ≤ r.2.ID := by
  obtain ⟨_, hpv, _, hmax⟩ := Tables.mem_latestJoin h
  unfold Tables.maxVersionIDs at hmax
  simp only [List.mem_filterMap, List.mem_dedup, List.mem_map] at hmax
  obtain ⟨pid, _, hm⟩ := hmax
  rw [List.max?_eq_some_iff'] at hm
  obtain ⟨hin, hle⟩ := hm
  simp only [List.mem_map, List.mem_filter, decide_eq_true_eq] at hin
  obtain ⟨v, ⟨hv, hvp⟩, hvid⟩ := hin
  have hsym : Symmetric (fun a b : PackageVersion => a.ID ≠ b.ID) := fun a b hab => Ne.symm hab
  have heq : v = r.2 := by
    by_contra hne
    exact (List.Pairwise.forall hsym hk hv hpv hne) hvid
  intro w hw hwp
  apply hle
  simp only [List.mem_map, List.mem_filter, decide_eq_true_eq]
  refine ⟨w, ⟨hw, ?_⟩, rfl⟩
  rw [hwp, ← heq, hvp]

/-- What `GetAllPackages` reports for a package is the version row of greatest
`id` among the rows of that package. -/
theorem GetAllPackages_greatest_id (f : ListingFaults) (s : Registry)
    (hk : s.db.tables.uniqueVersionIDs) (results : List SearchResult)
    (hbody : (GetAllPackages f s).body = Body.packages results) :
    ∀ res ∈ results, ∃ p ∈ s.db.tables.packages, ∃ pv ∈ s.db.tables.package_versions,
      pv.PackageID = p.ID ∧ res.Name = p.Name ∧ res.Version = pv.Version ∧
      ∀ w ∈ s.db.tables.package_versions, w.PackageID = p.ID → w.ID ≤ pv.ID := by
  unfold GetAllPackages at hbody
  by_cases hf : f.query = true
  · rw [if_pos hf] at hbody
    cases hbody
  · rw [if_neg hf] at hbody
    simp only [Body.packages.injEq] at hbody
    intro res hmem
    rw [← hbody] at hmem
    simp only [List.mem_map] at hmem
    obtain ⟨row, hrow, hrr⟩ := hmem
    unfold orderByDownloadsDesc at hrow
    have hrow2 := (List.mem_insertionSort _).mp hrow
    simp only [List.mem_map] at hrow2
    obtain ⟨r, hr, hrowr⟩ := hrow2
    obtain ⟨hp, hpv, hid, _⟩ := Tables.mem_latestJoin hr
    refine ⟨r.1, hp, r.2, hpv, hid.symm, ?_, ?_, ?_⟩
    · rw [← hrr, ← hrowr]
      rfl
    · rw [← hrr, ← hrowr]
      rfl
    · intro w hw hwp
      exact Tables.latestJoin_greatest_id hk hr w hw (by rw [hwp, hid])

/-- C9, violated: on the registry in which `http` 2.0.0 has the greater key
and `http` 1.0.0 the later `published_at`, `GetAllPackages` and
`SearchPackages` (with an empty and with a matching query) report 2.0.0, the
row of greatest `id`, while the row of greatest `published_at` is 1.0.0, which
is the version that `GetPackageInfo` reports. -/
theorem listing_reports_greatest_id :
    GetAllPackages ListingFaults.none seededRegistry =
      { status := 200, headers := [],
        body := Body.packages
          [{ Name := "http", Version := "2.0.0", Description := "HTTP client library",
             Downloads := 15420, Keywords := ["client"], License := "MIT",
             UpdatedAt := 400 }] } ∧
    SearchPackages ListingFaults.none "" Option.none seededRegistry =
      { status := 200, headers := [],
        body := Body.search
          [{ Name := "http", Version := "2.0.0", Description := "HTTP client library",
             Downloads := 15420, Keywords := ["client"], License := "MIT",
             UpdatedAt := 400 }] 1 } ∧
    SearchPackages ListingFaults.none "http" Option.none seededRegistry =
      { status := 200, headers := [],
        body := Body.search
          [{ Name := "http", Version := "2.0.0", Description := "HTTP client library",
             Downloads := 15420, Keywords := ["client"], License := "MIT",
             UpdatedAt := 400 }] 1 } ∧
    (∀ v ∈ seededRegistry.db.tables.package_versions,
      v.PackageID = 1 → v.Version ≠ "1.0.0" → v.PublishedAt < 1000) ∧
    (∃ v ∈ seededRegistry.db.tables.package_versions,
      v.PackageID = 1 ∧ v.Version = "1.0.0" ∧ v.PublishedAt = 1000) ∧
    (∃ info, GetPackageInfo InfoFaults.none "http" seededRegistry
        = { status := 200, headers := [], body := Body.info info } ∧
      info.Version = "1.0.0") := by
  refine ⟨by decide, by decide, by decide, by decide, by decide, ?_⟩
  exact ⟨{ Name := "http", Version := "1.0.0", Description := "HTTP client library",
           Author := "Flow Team", License := "MIT",
           DownloadURL := downloadURL "http" "1.0.0", Checksum := "bc", Dependencies := [],
           Repository := "", Homepage := "", Keywords := ["client"], PublishedAt := 1000,
           Downloads := 3 }, by decide, rfl⟩

/-- C10, violated: the query `%` (and likewise `_`) returns package `alpha`,
although neither its name `alpha`, nor its description `first`, nor its only
keyword `demo` contains the query as a substring: the handler puts the query
in the `LIKE` pattern without escaping the characters that `LIKE` reads as
wildcards. -/
theorem search_wildcard_matches_everything :
    SearchPackages ListingFaults.none "%" Option.none alphaRegistry =
      { status := 200, headers := [],
        body := Body.search
          [{ Name := "alpha", Version := "1.0.0", Description := "first", Downloads := 0,
             Keywords := ["demo"], License := "MIT", UpdatedAt := 100 }] 1 } ∧
    SearchPackages ListingFaults.none "_" Option.none alphaRegistry =
      { status := 200, headers := [],
        body := Body.search
          [{ Name := "alpha", Version := "1.0.0", Description := "first", Downloads := 0,
             Keywords := ["demo"], License := "MIT", UpdatedAt := 100 }] 1 } ∧
    containsFold "%" "alpha" = false ∧ containsFold "%" "first" = false ∧
    containsFold "%" "demo" = false ∧
    containsFold "_" "alpha" = false ∧ containsFold "_" "first" = false ∧
    containsFold "_" "demo" = false := by
  refine ⟨by decide, by decide, by decide, by decide, by decide, by decide, by decide,
    by decide⟩

/-! ## Theorems: limiter cleanup and search limit -/

/-- C20: one pass of the cleanup at time `now` replaces the history of each
tracked client by the sub-list, in order, of its timestamps `t` with
`now.Sub(t) < window`, and removes the client when that sub-list is empty;
untracked clients stay untracked. Hence after a pass every tracked client has
a non-empty history, all of whose timestamps are less than a window old and
were in its history before. The limit and the window are unchanged. -/
theorem cleanup_prunes (rl : RateLimiter) (now : Int) :
    (∀ ip ts, rl.requests ip = some ts →
      ts.filter (fun t => decide (Time.Sub now t < rl.window)) ≠ [] →
      (rl.cleanup now).requests ip
        = some (ts.filter (fun t => decide (Time.Sub now t < rl.window)))) ∧
    (∀ ip ts, rl.requests ip = some ts →
      ts.filter (fun t => decide (Time.Sub now t < rl.window)) = [] →
      (rl.cleanup now).requests ip = none) ∧
    (∀ ip, rl.requests ip = none → (rl.cleanup now).requests ip = none) ∧
    (∀ ip ts, (rl.cleanup now).requests ip = some ts →
      ts ≠ [] ∧ (∀ t ∈ ts, Time.Sub now t < rl.window) ∧
      ∃ old, rl.requests ip = some old ∧ ts.Sublist old) ∧
    (rl.cleanup now).limit = rl.limit ∧ (rl.cleanup now).window = rl.window := by
  refine ⟨?_, ?_, ?_, ?_, rfl, rfl⟩
  · intro ip ts h hne
    simp only [RateLimiter.cleanup, h, RateLimiter.filtered]
    rw [if_neg]
    intro hlen
    exact hne (List.length_eq_zero.mp hlen)
  · intro ip ts h he
    simp only [RateLimiter.cleanup, h, RateLimiter.filtered]
    rw [if_pos]
    rw [he]
    rfl
  · intro ip h
    simp only [RateLimiter.cleanup, h]
  · intro ip ts h
    simp only [RateLimiter.cleanup] at h
    cases hreq : rl.requests ip with
    | none =>
      rw [hreq] at h
      cases h
    | some old =>
      rw [hreq] at h
      simp only at h
      split_ifs at h with hlen
      cases h
      refine ⟨?_, ?_, old, rfl, ?_⟩
      · intro he
        exact hlen (by rw [he]; rfl)
      · intro t ht
        simp only [RateLimiter.filtered, List.mem_filter, decide_eq_true_eq] at ht
        exact ht.2
      · exact List.filter_sublist old


/-- C20 at a limiter of window 60 that tracks one client with timestamps 0, 50
and 100 and another with the single timestamp 0, cleaned at time 100. -/
theorem cleanup_prunes_witness :
    (∀ ip ts, (((NewRateLimiter 5 60).store "a" [0, 50, 100]).store "b" [0]).requests ip
        = some ts →
      ts.filter (fun t => decide (Time.Sub 100 t
        < (((NewRateLimiter 5 60).store "a" [0, 50, 100]).store "b" [0]).window)) ≠ [] →
      ((((NewRateLimiter 5 60).store "a" [0, 50, 100]).store "b" [0]).cleanup 100).requests ip
        = some (ts.filter (fun t => decide (Time.Sub 100 t
            < (((NewRateLimiter 5 60).store "a" [0, 50, 100]).store "b" [0]).window)))) ∧
    ((((NewRateLimiter 5 60).store "a" [0, 50, 100]).store "b" [0]).cleanup 100).requests "a"
      = some [50, 100] ∧
    ((((NewRateLimiter 5 60).store "a" [0, 50, 100]).store "b" [0]).cleanup 100).requests "b"
      = none :=
  ⟨(cleanup_prunes (((NewRateLimiter 5 60).store "a" [0, 50, 100]).store "b" [0]) 100).1,
   (cleanup_prunes (((NewRateLimiter 5 60).store "a" [0, 50, 100]).store "b" [0]) 100).1
     "a" [0, 50, 100] (by decide) (by decide),
   (cleanup_prunes (((NewRateLimiter 5 60).store "a" [0, 50, 100]).store "b" [0]) 100).2.1
     "b" [0] (by decide) (by decide)⟩

theorem atoi_of_numeral {s : String} {n : Int} (h : numeralValue s = some n) :
    atoi s = if n > 2 ^ 63 - 1 then 2 ^ 63 - 1 else if n < -(2 ^ 63) then -(2 ^ 63) else n := by
  unfold numeralValue at h
  unfold atoi
  split at h
  · rename_i ds hd
    split_ifs at h with hc
    cases h
    simp only [hd, List.head?_cons, decimalValue]
    rw [if_neg (by simp [hc.1, hc.2])]
    simp
  · rename_i ds hd
    split_ifs at h with hc
    cases h
    simp only [hd, List.head?_cons, decimalValue]
    rw [if_neg (by simp [hc.1, hc.2])]
    simp
  · rename_i ds hm hp
    split_ifs at h with hc
    cases h
    have hhead : s.data.head? ≠ some '-' := by
      intro hh
      cases hs : s.data with
      | nil => rw [hs] at hh; cases hh
      | cons c t =>
        rw [hs] at hh
        simp only [List.head?_cons, Option.some.injEq] at hh
        exact hm t (by rw [hs, hh])
    have hdig : (match s.data with
        | '-' :: r => r
        | '+' :: r => r
        | cs => cs) = s.data := by
      split
      · rename_i r hr; exact absurd hr (hm r)
      · rename_i r hr; exact absurd hr (hp r)
      · rfl
    simp only [hdig, decimalValue]
    rw [if_neg (by simp [hc.1, hc.2]), if_neg hhead]


theorem atoi_of_not_numeral {s : String} (h : numeralValue s = none) : atoi s = 0 := by
  unfold numeralValue at h
  unfold atoi
  split at h
  · rename_i ds hd
    split_ifs at h with hc
    simp only [hd]
    rw [if_pos]
    by_contra hcon
    simp only [not_or, not_not] at hcon
    exact hc ⟨hcon.1, hcon.2⟩
  · rename_i ds hd
    split_ifs at h with hc
    simp only [hd]
    rw [if_pos]
    by_contra hcon
    simp only [not_or, not_not] at hcon
    exact hc ⟨hcon.1, hcon.2⟩
  · rename_i ds hm hp
    split_ifs at h with hc
    have hdig : (match s.data with
        | '-' :: r => r
        | '+' :: r => r
        | cs => cs) = s.data := by
      split
      · rename_i r hr; exact absurd hr (hm r)
      · rename_i r hr; exact absurd hr (hp r)
      · rfl
    simp only [hdig]
    rw [if_pos]
    by_contra hcon
    simp only [not_or, not_not] at hcon
    exact hc ⟨hcon.1, hcon.2⟩

theorem searchLimit_eq_effectiveLimit (limit : Option String) :
    searchLimit limit = effectiveLimit limit := by
  unfold searchLimit effectiveLimit
  cases limit with
  | none =>
    simp only [Option.getD_none]
    have : atoi "10" = 10 := by decide
    rw [this]
    decide
  | some s =>
    simp only [Option.getD_some]
    cases hn : numeralValue s with
    | none =>
      rw [atoi_of_not_numeral hn]
      decide
    | some n =>
      rw [atoi_of_numeral hn]
      simp only
      split_ifs <;> omega

theorem effectiveLimit_range (limit : Option String) :
    1 ≤ effectiveLimit limit ∧ effectiveLimit limit ≤ 100 := by
  unfold effectiveLimit
  cases limit with
  | none => decide
  | some s =>
    simp only
    cases numeralValue s with
    | none => decide
    | some n =>
      simp only
      split_ifs with h
      · exact h
      · decide

/-- The handler cuts the ordered rows of its query at the limit it computed. -/
theorem SearchPackages_of_ok (f : ListingFaults) (query : String) (limit : Option String)
    (s : Registry) (hf : f.query = false) :
    SearchPackages f query limit s
      = { status := 200, headers := [],
          body := Body.search
            (((s.db.tables.orderedRows query).take (searchLimit limit).toNat).map
              (fun row => SearchResult.of (f.keywords row.Name) s row))
            (min (searchLimit limit).toNat (s.db.tables.orderedRows query).length) } := by
  unfold SearchPackages Tables.orderedRows
  simp only [hf, Bool.false_eq_true, if_false]
  by_cases hq : query = ""
  · simp only [hq, if_true, List.length_take]
  · simp only [hq, if_false, List.length_take]

/-- C12: the limit that `SearchPackages` uses is the effective limit of the
design, the supplied parameter when it denotes an integer from 1 to 100 and 10
in every other case, so it always lies between 1 and 100; the status of the
response does not depend on the parameter, and is 200 when the listing query
does not fail; the response holds at most that many results; and when the
listing query does not fail, the results are exactly the first L of the rows
that the query selects, in the order of the query, so that their number is the
smaller of L and the number of selected rows, for the empty query and for
every other. -/
theorem search_limit_effective (f : ListingFaults) (query : String) (limit : Option String)
    (s : Registry) :
    searchLimit limit = effectiveLimit limit ∧
    (1 ≤ effectiveLimit limit ∧ effectiveLimit limit ≤ 100) ∧
    (SearchPackages f query limit s).status = (SearchPackages f query Option.none s).status ∧
    (f.query = false → (SearchPackages f query limit s).status = 200) ∧
    (∀ results total, (SearchPackages f query limit s).body = Body.search results total →
      total = results.length ∧ (results.length : Int) ≤ effectiveLimit limit) ∧
    (f.query = false →
      (SearchPackages f query limit s).body
        = Body.search
            (((s.db.tables.orderedRows query).take (effectiveLimit limit).toNat).map
              (fun row => SearchResult.of (f.keywords row.Name) s row))
            (min (effectiveLimit limit).toNat (s.db.tables.orderedRows query).length)) ∧
    (f.query = false →
      ∀ results total, (SearchPackages f query limit s).body = Body.search results total →
        (results.length : Int)
          = min (effectiveLimit limit) ((s.db.tables.orderedRows query).length : Int)) := by
  have hr := effectiveLimit_range limit
  have hl := searchLimit_eq_effectiveLimit limit
  refine ⟨hl, hr, ?_, ?_, ?_, ?_, ?_⟩
  · unfold SearchPackages
    split_ifs <;> rfl
  · intro hf
    unfold SearchPackages
    rw [if_neg (by simp [hf])]
  · intro results total hbody
    unfold SearchPackages at hbody
    by_cases hf : f.query = true
    · rw [if_pos hf] at hbody
      cases hbody
    · rw [if_neg hf] at hbody
      simp only [Body.search.injEq] at hbody
      obtain ⟨hres, htot⟩ := hbody
      rw [← htot, ← hres, List.length_map]
      refine ⟨rfl, ?_⟩
      rw [← searchLimit_eq_effectiveLimit] at hr ⊢
      split_ifs
      · have := List.length_take_le (searchLimit limit).toNat
          (orderByDownloadsDesc (s.db.tables.latestJoin.map (fun r => ListingRow.of r.1 r.2)))
        omega
      · have := List.length_take_le (searchLimit limit).toNat
          (orderByDownloadsDesc (s.db.tables.searchRows (searchPattern query)))
        omega
  · intro hf
    rw [SearchPackages_of_ok f query limit s hf, hl]
  · intro hf results total hbody
    rw [SearchPackages_of_ok f query limit s hf, hl] at hbody
    simp only [Body.search.injEq] at hbody
    rw [← hbody.1, List.length_map, List.length_take]
    omega

/-- C12 at the query `a` with limit parameters `1` and `0` on the registry
that holds `alpha`, `beta` and `gamma`: the query selects two rows; with limit
1 the response holds the first of them, with limit 0, which stands for 10,
both. -/
theorem search_limit_effective_witness :
    (trioRegistry.db.tables.orderedRows "a").length = 2 ∧
    effectiveLimit (some "1") = 1 ∧ effectiveLimit (some "0") = 10 ∧
    (SearchPackages ListingFaults.none "a" (some "1") trioRegistry).body
      = Body.search
          (((trioRegistry.db.tables.orderedRows "a").take 1).map
            (fun row => SearchResult.of false trioRegistry row)) 1 ∧
    (∀ results total,
      (SearchPackages ListingFaults.none "a" (some "0") trioRegistry).body
        = Body.search results total → (results.length : Int) = 2) :=
  ⟨by decide, by decide, by decide,
   (search_limit_effective ListingFaults.none "a" (some "1") trioRegistry).2.2.2.2.2.1 rfl,
   fun results total h =>
    (search_limit_effective ListingFaults.none "a" (some "0") trioRegistry).2.2.2.2.2.2 rfl
      results total h⟩

/-! ## Theorems: empty-query listing -/

theorem List.length_flatMap_le_of_le_one {α β : Type} (f : α → List β) :
    ∀ l : List α, (∀ a ∈ l, (f a).length ≤ 1) → (l.flatMap f).length ≤ l.length := by
  intro l
  induction l with
  | nil => intro _; simp
  | cons a t ih =>
    intro h
    have h1 := h a (List.mem_cons_self _ _)
    have h2 := ih (fun b hb => h b (List.mem_cons_of_mem _ hb))
    simp only [List.flatMap_cons, List.length_append, List.length_cons]
    omega

theorem List.length_le_one_of_pairwise_ne {α : Type} {l : List α} {key : α → Nat}
    (hp : l.Pairwise (fun a b => key a ≠ key b))
    (hsame : ∀ a ∈ l, ∀ b ∈ l, key a = key b) : l.length ≤ 1 := by
  cases l with
  | nil => simp
  | cons a t =>
    cases t with
    | nil => simp
    | cons b u =>
      exfalso
      have := (List.pairwise_cons.mp hp).1 b (List.mem_cons_self _ _)
      exact this (hsame a (List.mem_cons_self _ _) b
        (List.mem_cons_of_mem _ (List.mem_cons_self _ _)))

/-- With unique version keys the listing join has at most one row per
package. -/
theorem Tables.latestJoin_length_le {t : Tables} (hk : t.uniqueVersionIDs) :
    t.latestJoin.length ≤ t.packages.length := by
  unfold Tables.latestJoin
  apply List.length_flatMap_le_of_le_one
  intro p hp
  rw [List.length_map]
  refine @List.length_le_one_of_pairwise_ne PackageVersion _ (fun v => v.ID) ?_ ?_
  · exact List.Pairwise.sublist (List.filter_sublist _) hk
  · intro a ha b hb
    have ha2 := ha
    have hb2 := hb
    simp only [List.mem_filter, Bool.and_eq_true, decide_eq_true_eq] at ha2 hb2
    have hja : (p, a) ∈ t.latestJoin := by
      unfold Tables.latestJoin
      simp only [List.mem_flatMap, List.mem_map]
      exact ⟨p, hp, a, ha, rfl⟩
    have hjb : (p, b) ∈ t.latestJoin := by
      unfold Tables.latestJoin
      simp only [List.mem_flatMap, List.mem_map]
      exact ⟨p, hp, b, hb, rfl⟩
    have h1 : b.ID ≤ a.ID := Tables.latestJoin_greatest_id hk hja b hb2.1 (by
      show b.PackageID = a.PackageID
      rw [← hb2.2.1, ← ha2.2.1])
    have h2 : a.ID ≤ b.ID := Tables.latestJoin_greatest_id hk hjb a ha2.1 (by
      show a.PackageID = b.PackageID
      rw [← hb2.2.1, ← ha2.2.1])
    show a.ID = b.ID
    omega

/-- Every package that has a version row has a row in the listing join. -/
theorem Tables.latestJoin_complete {t : Tables} {p : Package} (hp : p ∈ t.packages)
    (hv : ∃ v ∈ t.package_versions, v.PackageID = p.ID) :
    ∃ r ∈ t.latestJoin, r.1 = p := by
  obtain ⟨v, hv, hvp⟩ := hv
  have hmem : v.ID ∈ (t.package_versions.filter
      (fun w => decide (w.PackageID = p.ID))).map (fun w => w.ID) := by
    simp only [List.mem_map, List.mem_filter, decide_eq_true_eq]
    exact ⟨v, ⟨hv, hvp⟩, rfl⟩
  cases hmax : ((t.package_versions.filter
      (fun w => decide (w.PackageID = p.ID))).map (fun w => w.ID)).max? with
  | none =>
    rw [List.max?_eq_none_iff] at hmax
    rw [hmax] at hmem
    cases hmem
  | some m =>
    have hm := (List.max?_eq_some_iff'.mp hmax).1
    simp only [List.mem_map, List.mem_filter, decide_eq_true_eq] at hm
    obtain ⟨w, ⟨hw, hwp⟩, hwm⟩ := hm
    refine ⟨(p, w), ?_, rfl⟩
    unfold Tables.latestJoin
    simp only [List.mem_flatMap, List.mem_map, List.mem_filter, Bool.and_eq_true,
      decide_eq_true_eq]
    refine ⟨p, hp, w, ⟨hw, hwp.symm, ?_⟩, rfl⟩
    unfold Tables.maxVersionIDs
    simp only [List.mem_filterMap, List.mem_dedup, List.mem_map]
    exact ⟨p.ID, ⟨v, hv, hvp⟩, by rw [hmax, hwm]⟩


/-- C11, as stated, fails: on the registry that holds `alpha`, `beta` and a
package `gamma` without version rows, the empty query returns `beta` and
`alpha` but not `gamma`, and with limit 1 it returns `beta` alone. -/
theorem search_empty_query_counterexample :
    SearchPackages ListingFaults.none "" Option.none trioRegistry =
      { status := 200, headers := [],
        body := Body.search
          [{ Name := "beta", Version := "0.1.0", Description := "second", Downloads := 7,
             Keywords := [], License := "MIT", UpdatedAt := 200 },
           { Name := "alpha", Version := "1.0.0", Description := "first", Downloads := 5,
             Keywords := [], License := "MIT", UpdatedAt := 100 }] 2 } ∧
    SearchPackages ListingFaults.none "" (some "1") trioRegistry =
      { status := 200, headers := [],
        body := Body.search
          [{ Name := "beta", Version := "0.1.0", Description := "second", Downloads := 7,
             Keywords := [], License := "MIT", UpdatedAt := 200 }] 1 } ∧
    (∃ p ∈ trioRegistry.db.tables.packages, p.Name = "gamma") ∧
    (∃ p ∈ trioRegistry.db.tables.packages, p.Name = "alpha") := by
  refine ⟨by decide, by decide, by decide, by decide⟩

/-- With unique version keys the listing join pairs a package with at most one
version row. -/
theorem Tables.latestRows_length_le {t : Tables} (hk : t.uniqueVersionIDs) {p : Package}
    (hp : p ∈ t.packages) :
    (t.package_versions.filter
      (fun pv => decide (p.ID = pv.PackageID) && decide (pv.ID ∈ t.maxVersionIDs))).length
      ≤ 1 := by
  refine @List.length_le_one_of_pairwise_ne PackageVersion _ (fun v => v.ID) ?_ ?_
  · exact List.Pairwise.sublist (List.filter_sublist _) hk
  · intro a ha b hb
    have ha2 := ha
    have hb2 := hb
    simp only [List.mem_filter, Bool.and_eq_true, decide_eq_true_eq] at ha2 hb2
    have hja : (p, a) ∈ t.latestJoin := by
      unfold Tables.latestJoin
      simp only [List.mem_flatMap, List.mem_map]
      exact ⟨p, hp, a, ha, rfl⟩
    have hjb : (p, b) ∈ t.latestJoin := by
      unfold Tables.latestJoin
      simp only [List.mem_flatMap, List.mem_map]
      exact ⟨p, hp, b, hb, rfl⟩
    have h1 : b.ID ≤ a.ID := Tables.latestJoin_greatest_id hk hja b hb2.1 (by
      show b.PackageID = a.PackageID
      rw [← hb2.2.1, ← ha2.2.1])
    have h2 : a.ID ≤ b.ID := Tables.latestJoin_greatest_id hk hjb a ha2.1 (by
      show a.PackageID = b.PackageID
      rw [← hb2.2.1, ← ha2.2.1])
    show a.ID = b.ID
    omega

/-- The listing join pairs a package that has a version row with one. -/
theorem Tables.latestRows_ne_nil {t : Tables} {p : Package} (hp : p ∈ t.packages)
    (hv : ∃ v ∈ t.package_versions, v.PackageID = p.ID) :
    t.package_versions.filter
      (fun pv => decide (p.ID = pv.PackageID) && decide (pv.ID ∈ t.maxVersionIDs)) ≠ [] := by
  obtain ⟨r, hr, hrp⟩ := Tables.latestJoin_complete hp hv
  unfold Tables.latestJoin at hr
  simp only [List.mem_flatMap, List.mem_map] at hr
  obtain ⟨q, _, pv, hpv, heq⟩ := hr
  have hq : q = p := by rw [← hrp, ← heq]
  rw [hq] at hpv
  exact List.ne_nil_of_mem hpv

theorem Tables.hasVersions_iff (t : Tables) (p : Package) :
    t.hasVersions p = true ↔ ∃ v ∈ t.package_versions, v.PackageID = p.ID := by
  simp [Tables.hasVersions]

/-- With unique version keys the packages of the listing join are the packages
that have a version row, each once, in the order of table `packages`. -/
theorem Tables.latestJoin_fst {t : Tables} (hk : t.uniqueVersionIDs) :
    t.latestJoin.map Prod.fst = t.packages.filter (fun p => t.hasVersions p) := by
  have key : ∀ ps : List Package, (∀ p ∈ ps, p ∈ t.packages) →
      (ps.flatMap (fun p =>
        (t.package_versions.filter
          (fun pv => decide (p.ID = pv.PackageID) && decide (pv.ID ∈ t.maxVersionIDs))).map
          (fun pv => (p, pv)))).map Prod.fst
        = ps.filter (fun p => t.hasVersions p) := by
    intro ps
    induction ps with
    | nil => intro _; rfl
    | cons p rest ih =>
      intro h
      have hp := h p (List.mem_cons_self _ _)
      have ih2 := ih (fun q hq => h q (List.mem_cons_of_mem _ hq))
      rw [List.flatMap_cons, List.map_append, ih2, List.map_map]
      have hle := Tables.latestRows_length_le hk hp
      by_cases hv : t.hasVersions p = true
      · rw [List.filter_cons_of_pos hv]
        have hne := Tables.latestRows_ne_nil hp ((Tables.hasVersions_iff t p).mp hv)
        generalize t.package_versions.filter
          (fun pv => decide (p.ID = pv.PackageID) && decide (pv.ID ∈ t.maxVersionIDs)) = l
          at hle hne
        match l, hle, hne with
        | [w], _, _ => rfl
        | [], _, hne => exact absurd rfl hne
        | _ :: _ :: _, hle, _ => simp at hle
      · rw [List.filter_cons_of_neg hv]
        have hnil : t.package_versions.filter
            (fun pv => decide (p.ID = pv.PackageID) && decide (pv.ID ∈ t.maxVersionIDs))
            = [] := by
          rw [List.filter_eq_nil_iff]
          intro w hw hcon
          simp only [Bool.and_eq_true, decide_eq_true_eq] at hcon
          exact hv ((Tables.hasVersions_iff t p).mpr ⟨w, hw, hcon.1.symm⟩)
        rw [hnil]
        rfl
  unfold Tables.latestJoin
  exact key t.packages (fun p hp => hp)

/-- C11 (amended): when the listing query does not fail, `SearchPackages`
with an empty query answers 200 with the first L, L the effective limit, of
the packages that have a version row, in order of non-increasing download
count: the returned results followed by results that the limit cut off are the
packages that have a version row, each once, in that order, and the number
returned is the smaller of L and their number; each result is reported with
its version row of greatest key; and when the registry holds at most L
packages, every package that has a version row is returned. Version keys are
unique, as the primary key of the schema requires. -/
theorem search_empty_query_listing (f : ListingFaults) (limit : Option String) (s : Registry)
    (hk : s.db.tables.uniqueVersionIDs) (hf : f.query = false) :
    ∃ results rest : List SearchResult,
      SearchPackages f "" limit s =
        { status := 200, headers := [], body := Body.search results results.length } ∧
      (results.length : Int) ≤ effectiveLimit limit ∧
      (results.length : Int) = min (effectiveLimit limit) ((results ++ rest).length : Int) ∧
      ((results ++ rest).map (fun r => r.Name)).Perm
        ((s.db.tables.packages.filter (fun p => s.db.tables.hasVersions p)).map
          (fun p => p.Name)) ∧
      ((results ++ rest).map (fun r => r.Downloads)).Sorted (fun a b => a ≥ b) ∧
      (∀ res ∈ results ++ rest,
        ∃ p ∈ s.db.tables.packages, ∃ pv ∈ s.db.tables.package_versions,
        pv.PackageID = p.ID ∧ res.Name = p.Name ∧ res.Version = pv.Version ∧
        res.Downloads = pv.Downloads ∧
        ∀ w ∈ s.db.tables.package_versions, w.PackageID = p.ID → w.ID ≤ pv.ID) ∧
      ((s.db.tables.packages.length : Int) ≤ effectiveLimit limit →
        ∀ p ∈ s.db.tables.packages,
          (∃ v ∈ s.db.tables.package_versions, v.PackageID = p.ID) →
          ∃ res ∈ results, res.Name = p.Name) := by
  have hr := effectiveLimit_range limit
  have hl := searchLimit_eq_effectiveLimit limit
  have hsplit : ((orderByDownloadsDesc (s.db.tables.latestJoin.map
      (fun r => ListingRow.of r.1 r.2))).take (searchLimit limit).toNat).map
        (fun row => SearchResult.of (f.keywords row.Name) s row) ++
      ((orderByDownloadsDesc (s.db.tables.latestJoin.map
      (fun r => ListingRow.of r.1 r.2))).drop (searchLimit limit).toNat).map
        (fun row => SearchResult.of (f.keywords row.Name) s row)
      = (orderByDownloadsDesc (s.db.tables.latestJoin.map
          (fun r => ListingRow.of r.1 r.2))).map
          (fun row => SearchResult.of (f.keywords row.Name) s row) := by
    rw [← List.map_append, List.take_append_drop]
  have hperm : (orderByDownloadsDesc (s.db.tables.latestJoin.map
      (fun r => ListingRow.of r.1 r.2))).Perm
      (s.db.tables.latestJoin.map (fun r => ListingRow.of r.1 r.2)) :=
    List.perm_insertionSort _ _
  refine ⟨((orderByDownloadsDesc (s.db.tables.latestJoin.map
      (fun r => ListingRow.of r.1 r.2))).take (searchLimit limit).toNat).map
      (fun row => SearchResult.of (f.keywords row.Name) s row),
    ((orderByDownloadsDesc (s.db.tables.latestJoin.map
      (fun r => ListingRow.of r.1 r.2))).drop (searchLimit limit).toNat).map
      (fun row => SearchResult.of (f.keywords row.Name) s row), ?_, ?_, ?_, ?_, ?_, ?_, ?_⟩
  · unfold SearchPackages
    simp only [hf, Bool.false_eq_true, if_false, if_true, List.length_map]
  · rw [List.length_map, ← hl]
    have := List.length_take_le (searchLimit limit).toNat
      (orderByDownloadsDesc (s.db.tables.latestJoin.map (fun r => ListingRow.of r.1 r.2)))
    rw [hl] at this ⊢
    omega
  · rw [hsplit, List.length_map, List.length_map, List.length_take, hl]
    omega
  · rw [hsplit, List.map_map]
    have h1 : ((orderByDownloadsDesc (s.db.tables.latestJoin.map
        (fun r => ListingRow.of r.1 r.2))).map
        ((fun r : SearchResult => r.Name) ∘
          (fun row => SearchResult.of (f.keywords row.Name) s row))).Perm
        ((s.db.tables.latestJoin.map (fun r => ListingRow.of r.1 r.2)).map
          ((fun r : SearchResult => r.Name) ∘
            (fun row => SearchResult.of (f.keywords row.Name) s row))) :=
      hperm.map _
    have h2 : (s.db.tables.latestJoin.map (fun r => ListingRow.of r.1 r.2)).map
          ((fun r : SearchResult => r.Name) ∘
            (fun row => SearchResult.of (f.keywords row.Name) s row))
        = (s.db.tables.packages.filter (fun p => s.db.tables.hasVersions p)).map
          (fun p => p.Name) := by
      rw [← Tables.latestJoin_fst hk, List.map_map, List.map_map]
      rfl
    rw [← h2]
    exact h1
  · rw [hsplit, List.map_map]
    unfold List.Sorted
    rw [List.pairwise_map]
    have hs : (orderByDownloadsDesc (s.db.tables.latestJoin.map
        (fun r => ListingRow.of r.1 r.2))).Sorted (fun a b => a.Downloads ≥ b.Downloads) :=
      List.sorted_insertionSort _ _
    exact hs
  · intro res hres
    rw [hsplit] at hres
    simp only [List.mem_map] at hres
    obtain ⟨row, hrow1, hrr⟩ := hres
    unfold orderByDownloadsDesc at hrow1
    have hrow2 := (List.mem_insertionSort _).mp hrow1
    simp only [List.mem_map] at hrow2
    obtain ⟨r, hr2, hrowr⟩ := hrow2
    obtain ⟨hp, hpv, hid, _⟩ := Tables.mem_latestJoin hr2
    refine ⟨r.1, hp, r.2, hpv, hid.symm, ?_, ?_, ?_, ?_⟩
    · rw [← hrr, ← hrowr]; rfl
    · rw [← hrr, ← hrowr]; rfl
    · rw [← hrr, ← hrowr]; rfl
    · intro w hw hwp
      exact Tables.latestJoin_greatest_id hk hr2 w hw (by rw [hwp, hid])
  · intro hlen p hp hv
    obtain ⟨r, hr2, hrp⟩ := Tables.latestJoin_complete hp hv
    have hjl := Tables.latestJoin_length_le hk
    have hall : (orderByDownloadsDesc (s.db.tables.latestJoin.map
        (fun r => ListingRow.of r.1 r.2))).take (searchLimit limit).toNat
        = orderByDownloadsDesc (s.db.tables.latestJoin.map
            (fun r => ListingRow.of r.1 r.2)) := by
      apply List.take_of_length_le
      unfold orderByDownloadsDesc
      rw [List.length_insertionSort, List.length_map, hl]
      omega
    rw [hall]
    refine ⟨SearchResult.of (f.keywords (ListingRow.of r.1 r.2).Name) s
      (ListingRow.of r.1 r.2), ?_, ?_⟩
    · rw [List.mem_map]
      refine ⟨ListingRow.of r.1 r.2, ?_, rfl⟩
      unfold orderByDownloadsDesc
      rw [List.mem_insertionSort, List.mem_map]
      exact ⟨r, hr2, rfl⟩
    · rw [← hrp]
      rfl

/-- The amended C11 on the registry that holds `alpha`, `beta` and `gamma`,
with limit 1: `beta`, the most downloaded, is returned and `alpha` is cut off;
`gamma`, which has no version row, is not listed. -/
theorem search_empty_query_listing_witness :
    ∃ results rest : List SearchResult,
      SearchPackages ListingFaults.none "" (some "1") trioRegistry =
        { status := 200, headers := [], body := Body.search results results.length } ∧
      (results.length : Int) ≤ effectiveLimit (some "1") ∧
      (results.length : Int) = min (effectiveLimit (some "1")) ((results ++ rest).length : Int) ∧
      ((results ++ rest).map (fun r => r.Name)).Perm
        ((trioRegistry.db.tables.packages.filter
          (fun p => trioRegistry.db.tables.hasVersions p)).map (fun p => p.Name)) ∧
      ((results ++ rest).map (fun r => r.Downloads)).Sorted (fun a b => a ≥ b) ∧
      (∀ res ∈ results ++ rest, ∃ p ∈ trioRegistry.db.tables.packages,
        ∃ pv ∈ trioRegistry.db.tables.package_versions,
        pv.PackageID = p.ID ∧ res.Name = p.Name ∧ res.Version = pv.Version ∧
        res.Downloads = pv.Downloads ∧
        ∀ w ∈ trioRegistry.db.tables.package_versions, w.PackageID = p.ID → w.ID ≤ pv.ID) ∧
      ((trioRegistry.db.tables.packages.length : Int) ≤ effectiveLimit (some "1") →
        ∀ p ∈ trioRegistry.db.tables.packages,
          (∃ v ∈ trioRegistry.db.tables.package_versions, v.PackageID = p.ID) →
          ∃ res ∈ results, res.Name = p.Name) :=
  search_empty_query_listing ListingFaults.none (some "1") trioRegistry
    (by unfold Tables.uniqueVersionIDs; decide) rfl

/-! ## Theorems: version listing, download accounting and delete -/

theorem Tables.packageByName_of_mem {t : Tables} (hu : t.uniqueNames) {p : Package}
    (hp : p ∈ t.packages) : t.packageByName p.Name = some p := by
  unfold Tables.packageByName
  apply List.find?_eq_some_of_unique hp
  · simp
  · intro q hq hqn
    simp only [decide_eq_true_eq] at hqn
    by_contra hne
    have hsym : Symmetric (fun a b : Package => a.Name ≠ b.Name) := fun a b hab => Ne.symm hab
    exact (List.Pairwise.forall hsym hu hq hp hne) hqn

theorem Tables.packageByName_none {t : Tables} {name : String}
    (h : ∀ p ∈ t.packages, p.Name ≠ name) : t.packageByName name = Option.none := by
  unfold Tables.packageByName
  rw [List.find?_eq_none]
  intro p hp
  simpa using h p hp

/-- C14: with package names unique, as the schema requires, and no query
failing, `ListVersions` for the name of a package answers 200 with the version
strings of rows that are a rearrangement of exactly the version rows of that
package, each once, in order of non-increasing `published_at`, so with the
empty list when the package has no version rows; for a name that no package
row has it answers 404. -/
theorem list_versions_sorted (name : String) (s : Registry)
    (hu : s.db.tables.uniqueNames) :
    (∀ p ∈ s.db.tables.packages, p.Name = name →
      ∃ rows : List PackageVersion,
        ListVersions VersionsFaults.none name s =
          { status := 200, headers := [],
            body := Body.versions (rows.map (fun v => v.Version)) } ∧
        rows.Perm (s.db.tables.package_versions.filter
          (fun v => decide (v.PackageID = p.ID))) ∧
        rows.Sorted (fun a b => a.PublishedAt ≥ b.PublishedAt) ∧
        ((∀ v ∈ s.db.tables.package_versions, v.PackageID ≠ p.ID) → rows = [])) ∧
    ((∀ p ∈ s.db.tables.packages, p.Name ≠ name) →
      ListVersions VersionsFaults.none name s
        = Response.fail 404 ("Package \'" ++ name ++ "\' not found")) := by
  constructor
  · intro p hp hn
    have hfind : s.db.tables.packageByName name = some p := by
      rw [← hn]
      exact Tables.packageByName_of_mem hu hp
    refine ⟨s.db.tables.versionsOf p.ID, ?_, ?_, ?_, ?_⟩
    · unfold ListVersions
      simp only [VersionsFaults.none, Bool.false_eq_true, if_false, hfind]
    · exact List.perm_insertionSort _ _
    · exact List.sorted_insertionSort _ _
    · intro hnone
      unfold Tables.versionsOf orderByPublishedAtDesc
      have : s.db.tables.package_versions.filter (fun v => decide (v.PackageID = p.ID)) = [] := by
        rw [List.filter_eq_nil_iff]
        intro v hv
        simpa using hnone v hv
      rw [this]
      rfl
  · intro hnone
    unfold ListVersions
    simp only [VersionsFaults.none, Bool.false_eq_true, if_false,
      Tables.packageByName_none hnone]


/-- C14 for `alpha` on the registry that holds `alpha` 1.0.0. -/
theorem list_versions_sorted_witness :
    (∀ p ∈ alphaRegistry.db.tables.packages, p.Name = "alpha" →
      ∃ rows : List PackageVersion,
        ListVersions VersionsFaults.none "alpha" alphaRegistry =
          { status := 200, headers := [],
            body := Body.versions (rows.map (fun v => v.Version)) } ∧
        rows.Perm (alphaRegistry.db.tables.package_versions.filter
          (fun v => decide (v.PackageID = p.ID))) ∧
        rows.Sorted (fun a b => a.PublishedAt ≥ b.PublishedAt) ∧
        ((∀ v ∈ alphaRegistry.db.tables.package_versions, v.PackageID ≠ p.ID) → rows = [])) ∧
    ((∀ p ∈ alphaRegistry.db.tables.packages, p.Name ≠ "alpha") →
      ListVersions VersionsFaults.none "alpha" alphaRegistry
        = Response.fail 404 ("Package \'" ++ "alpha" ++ "\' not found")) :=
  list_versions_sorted "alpha" alphaRegistry (by simp [Tables.uniqueNames, alphaRegistry])

/-- Under the uniqueness constraints the download query finds the version row
of the named package and version. -/
theorem Tables.versionByName_of_mem {t : Tables} (hu : t.uniqueNames) (hv : t.uniqueVersions)
    {p : Package} {v : PackageVersion} (hp : p ∈ t.packages) (hvm : v ∈ t.package_versions)
    (hvp : v.PackageID = p.ID) : t.versionByName p.Name v.Version = some v := by
  unfold Tables.versionByName
  apply List.find?_eq_some_of_unique hvm
  · simp only [Bool.and_eq_true, decide_eq_true_eq, List.any_eq_true, true_and]
    exact ⟨p, hp, hvp, rfl⟩
  · intro w hw hpred
    simp only [Bool.and_eq_true, decide_eq_true_eq, List.any_eq_true] at hpred
    obtain ⟨hwv, q, hq, hwq, hqn⟩ := hpred
    have hqp : q = p := by
      by_contra hne
      have hsym : Symmetric (fun a b : Package => a.Name ≠ b.Name) :=
        fun a b hab => Ne.symm hab
      exact (List.Pairwise.forall hsym hu hq hp hne) hqn
    by_contra hne
    have hsym : Symmetric (fun a b : PackageVersion =>
        a.PackageID ≠ b.PackageID ∨ a.Version ≠ b.Version) := by
      intro a b hab
      rcases hab with h | h
      · exact Or.inl (Ne.symm h)
      · exact Or.inr (Ne.symm h)
    rcases List.Pairwise.forall hsym hv hw hvm hne with h | h
    · exact h (by rw [hwq, hqp, hvp])
    · exact h hwv

theorem Tables.versionByName_none {t : Tables} {name version : String}
    (h : ¬ t.hasVersion name version) : t.versionByName name version = Option.none := by
  unfold Tables.versionByName
  rw [List.find?_eq_none]
  intro w hw hpred
  simp only [Bool.and_eq_true, decide_eq_true_eq, List.any_eq_true] at hpred
  obtain ⟨hwv, q, hq, hwq, hqn⟩ := hpred
  exact h ⟨q, hq, hqn, w, hw, hwq, hwv⟩

theorem bumpDownloads_zero (versionID : Nat) (vs : List PackageVersion) :
    bumpDownloads versionID 0 vs = vs := by
  unfold bumpDownloads
  conv_rhs => rw [← List.map_id vs]
  apply List.map_congr_left
  intro w _
  split_ifs
  · simp
  · rfl

theorem bumpDownloads_bump (versionID : Nat) (m n : Int) (vs : List PackageVersion) :
    bumpDownloads versionID n (bumpDownloads versionID m vs)
      = bumpDownloads versionID (m + n) vs := by
  unfold bumpDownloads
  rw [List.map_map]
  apply List.map_congr_left
  intro w _
  simp only [Function.comp]
  by_cases h : w.ID = versionID
  · simp only [h, if_true]
    congr 1
    omega
  · simp only [h, if_false]

theorem incrementDownloads_eq {db : Database} {v : PackageVersion}
    (hk : db.tables.uniqueVersionIDs) (hvm : v ∈ db.tables.package_versions)
    (hd : v.Downloads + 1 ≤ maxInteger) :
    incrementDownloads v.ID db =
      some { db with tables := { db.tables with
        package_versions := bumpDownloads v.ID 1 db.tables.package_versions } } := by
  unfold incrementDownloads
  rw [if_neg]
  · rfl
  · simp only [List.any_eq_true, decide_eq_true_eq, not_exists, not_and]
    intro w hw hid
    have hwv : w = v := by
      by_contra hne
      have hsym : Symmetric (fun a b : PackageVersion => a.ID ≠ b.ID) :=
        fun a b hab => Ne.symm hab
      exact (List.Pairwise.forall hsym hk hw hvm hne) hid
    rw [hwv]
    omega


theorem DownloadPackage_step (cfg : Config) {s : Registry} {p : Package} {v : PackageVersion}
    (hu : s.db.tables.uniqueNames) (hk : s.db.tables.uniqueVersionIDs)
    (hv : s.db.tables.uniqueVersions)
    (hp : p ∈ s.db.tables.packages) (hvm : v ∈ s.db.tables.package_versions)
    (hvp : v.PackageID = p.ID) (hd : v.Downloads + 1 ≤ maxInteger) :
    (DownloadPackage cfg DownloadFaults.none p.Name v.Version s).1 =
      { db := { s.db with tables := { s.db.tables with
          package_versions := bumpDownloads v.ID 1 s.db.tables.package_versions } },
        files := s.files } := by
  unfold DownloadPackage
  simp only [DownloadFaults.none, Bool.false_eq_true, if_false,
    Tables.versionByName_of_mem hu hv hp hvm hvp, incrementDownloads_eq hk hvm hd,
    Option.getD_some]
  cases s.files (cfg.artifactPath p.Name v.Version) <;> rfl

theorem bumpDownloads_pairwise {R : PackageVersion → PackageVersion → Prop}
    (hR : ∀ a b : PackageVersion, ∀ m n : Int, R a b →
      R { a with Downloads := m } { b with Downloads := n })
    (versionID : Nat) (n : Int) {vs : List PackageVersion} (h : vs.Pairwise R) :
    (bumpDownloads versionID n vs).Pairwise R := by
  unfold bumpDownloads
  rw [List.pairwise_map]
  refine h.imp ?_
  intro a b hab
  have ha : (if a.ID = versionID then { a with Downloads := a.Downloads + n } else a)
      = { a with Downloads := (if a.ID = versionID then a.Downloads + n else a.Downloads) } := by
    split_ifs <;> rfl
  have hb : (if b.ID = versionID then { b with Downloads := b.Downloads + n } else b)
      = { b with Downloads := (if b.ID = versionID then b.Downloads + n else b.Downloads) } := by
    split_ifs <;> rfl
  rw [ha, hb]
  exact hR a b _ _ hab

theorem bumpDownloads_mem {vs : List PackageVersion} {v : PackageVersion} (n : Int)
    (h : v ∈ vs) : { v with Downloads := v.Downloads + n } ∈ bumpDownloads v.ID n vs := by
  unfold bumpDownloads
  rw [List.mem_map]
  exact ⟨v, h, by simp⟩

/-- Successive downloads of a version raise its counter by one each, as long
as the counter stays in the range of `INTEGER`, and change nothing else. -/
theorem downloadTimes_eq (cfg : Config) (n : Nat) :
    ∀ (s : Registry) (p : Package) (v : PackageVersion),
      s.db.tables.uniqueNames → s.db.tables.uniqueVersionIDs → s.db.tables.uniqueVersions →
      p ∈ s.db.tables.packages → v ∈ s.db.tables.package_versions → v.PackageID = p.ID →
      v.Downloads + n ≤ maxInteger →
      downloadTimes cfg p.Name v.Version n s =
        { db := { s.db with tables := { s.db.tables with
            package_versions := bumpDownloads v.ID n s.db.tables.package_versions } },
          files := s.files } := by
  induction n with
  | zero =>
    intro s p v _ _ _ _ _ _ _
    simp only [downloadTimes, Nat.cast_zero, bumpDownloads_zero]
  | succ k ih =>
    intro s p v hu hk hv hp hvm hvp hd
    push_cast at hd
    unfold downloadTimes
    rw [DownloadPackage_step cfg hu hk hv hp hvm hvp (by omega)]
    have hrec := ih
      { db := { s.db with tables := { s.db.tables with
          package_versions := bumpDownloads v.ID 1 s.db.tables.package_versions } },
        files := s.files } p { v with Downloads := v.Downloads + 1 } hu
      (bumpDownloads_pairwise (fun _ _ _ _ h => h) v.ID 1 hk)
      (bumpDownloads_pairwise (fun _ _ _ _ h => h) v.ID 1 hv) hp
      (bumpDownloads_mem 1 hvm) hvp (by simp only; omega)
    simp only at hrec
    rw [hrec, bumpDownloads_bump]
    push_cast
    rw [add_comm (1 : Int) (k : Int)]


/-- C13, as stated, fails: on the registry whose row for `alpha` 1.0.0 has the
counter 2147483647, one `DownloadPackage` resolves the version and answers
200, but the counter is still 2147483647 and not 2147483648: the store refuses
the update, whose sum leaves the range of `INTEGER`, and the handler drops the
error. -/
theorem download_counts_counterexample :
    (∃ v ∈ saturatedRegistry.db.tables.package_versions,
      v.PackageID = 1 ∧ v.Version = "1.0.0" ∧ v.Downloads = 2147483647) ∧
    (DownloadPackage demoConfig DownloadFaults.none "alpha" "1.0.0" saturatedRegistry).2.status
      = 200 ∧
    (∀ v ∈ (downloadTimes demoConfig "alpha" "1.0.0" 1
        saturatedRegistry).db.tables.package_versions,
      v.Downloads = 2147483647 ∧ v.Downloads ≠ 2147483647 + 1) := by
  refine ⟨by decide, by decide, by decide⟩

/-- C13 (amended): on a state that meets the uniqueness constraints of the
schema and holds a version row `v` of package `p`, after `n` successive
`DownloadPackage` requests for it during which no store operation fails, with
`v.Downloads + n` within the range of `INTEGER`, the counter of that row is
`v.Downloads + n` and every other version row, every other table and the
artifact store are unchanged, whether or not the artifact file is present; a
request for a pair that has no version row answers 404 and changes nothing. -/
theorem download_counts (cfg : Config) (s : Registry) (p : Package) (v : PackageVersion)
    (n : Nat)
    (hu : s.db.tables.uniqueNames) (hk : s.db.tables.uniqueVersionIDs)
    (hv : s.db.tables.uniqueVersions)
    (hp : p ∈ s.db.tables.packages) (hvm : v ∈ s.db.tables.package_versions)
    (hvp : v.PackageID = p.ID) (hd : v.Downloads + n ≤ maxInteger) :
    (downloadTimes cfg p.Name v.Version n s).db.tables.package_versions
      = bumpDownloads v.ID n s.db.tables.package_versions ∧
    { v with Downloads := v.Downloads + n }
      ∈ (downloadTimes cfg p.Name v.Version n s).db.tables.package_versions ∧
    (∀ w ∈ s.db.tables.package_versions, w ≠ v →
      w ∈ (downloadTimes cfg p.Name v.Version n s).db.tables.package_versions) ∧
    (downloadTimes cfg p.Name v.Version n s).db.tables.packages = s.db.tables.packages ∧
    (downloadTimes cfg p.Name v.Version n s).db.tables.dependencies
      = s.db.tables.dependencies ∧
    (downloadTimes cfg p.Name v.Version n s).db.tables.package_keywords
      = s.db.tables.package_keywords ∧
    (downloadTimes cfg p.Name v.Version n s).files = s.files ∧
    (∀ name version, ¬ s.db.tables.hasVersion name version →
      DownloadPackage cfg DownloadFaults.none name version s
        = (s, Response.fail 404 "Package version not found")) := by
  rw [downloadTimes_eq cfg n s p v hu hk hv hp hvm hvp hd]
  refine ⟨rfl, bumpDownloads_mem n hvm, ?_, rfl, rfl, rfl, rfl, ?_⟩
  · intro w hw hne
    simp only [bumpDownloads, List.mem_map]
    refine ⟨w, hw, ?_⟩
    rw [if_neg]
    intro hid
    have hsym : Symmetric (fun a b : PackageVersion => a.ID ≠ b.ID) :=
      fun a b hab => Ne.symm hab
    exact (List.Pairwise.forall hsym hk hw hvm hne) hid
  · intro name version hnone
    unfold DownloadPackage
    simp only [DownloadFaults.none, Bool.false_eq_true, if_false,
      Tables.versionByName_none hnone]


/-- The amended C13 for three downloads of `alpha` 1.0.0 on the registry that
holds it with counter 0. -/
theorem download_counts_witness :
    (downloadTimes demoConfig "alpha" "1.0.0" 3 alphaRegistry).db.tables.package_versions
      = bumpDownloads 1 3 alphaRegistry.db.tables.package_versions ∧
    ({ ID := 1, PackageID := 1, Version := "1.0.0", DownloadURL := downloadURL "alpha" "1.0.0",
       Checksum := "bc", PublishedAt := 100, Downloads := 0 + 3 } : PackageVersion)
      ∈ (downloadTimes demoConfig "alpha" "1.0.0" 3
          alphaRegistry).db.tables.package_versions :=
  ⟨(download_counts demoConfig alphaRegistry
      { ID := 1, Name := "alpha", Description := "first", Author := "ann", License := "MIT",
        Repository := "", Homepage := "", CreatedAt := 100 }
      { ID := 1, PackageID := 1, Version := "1.0.0", DownloadURL := downloadURL "alpha" "1.0.0",
        Checksum := "bc", PublishedAt := 100, Downloads := 0 } 3
      (by simp [Tables.uniqueNames, alphaRegistry])
      (by simp [Tables.uniqueVersionIDs, alphaRegistry])
      (by simp [Tables.uniqueVersions, alphaRegistry])
      (List.mem_cons_self _ _) (List.mem_cons_self _ _) rfl (by decide)).1,
   (download_counts demoConfig alphaRegistry
      { ID := 1, Name := "alpha", Description := "first", Author := "ann", License := "MIT",
        Repository := "", Homepage := "", CreatedAt := 100 }
      { ID := 1, PackageID := 1, Version := "1.0.0", DownloadURL := downloadURL "alpha" "1.0.0",
        Checksum := "bc", PublishedAt := 100, Downloads := 0 } 3
      (by simp [Tables.uniqueNames, alphaRegistry])
      (by simp [Tables.uniqueVersionIDs, alphaRegistry])
      (by simp [Tables.uniqueVersions, alphaRegistry])
      (List.mem_cons_self _ _) (List.mem_cons_self _ _) rfl (by decide)).2.1⟩

/-- C16: on a state that meets the uniqueness constraints of the schema and
holds a version row `v` of package `p`, `DeletePackage` for it, with no store
operation failing, answers 200 whether or not the blob is present, removes
exactly that version row and the dependency rows that reference it, leaves the
package rows and the keyword rows unchanged, removes the file under the
version's path and no other file; a second delete of the same version answers
404 and changes nothing, as does a delete of any pair that has no version
row. -/
theorem delete_removes_version (cfg : Config) (s : Registry) (p : Package)
    (v : PackageVersion)
    (hu : s.db.tables.uniqueNames) (hk : s.db.tables.uniqueVersionIDs)
    (hv : s.db.tables.uniqueVersions)
    (hp : p ∈ s.db.tables.packages) (hvm : v ∈ s.db.tables.package_versions)
    (hvp : v.PackageID = p.ID) :
    (DeletePackage cfg DeleteFaults.none p.Name v.Version s).2
      = { status := 200, headers := [], body := Body.message "Package deleted successfully" } ∧
    (∀ w, w ∈ (DeletePackage cfg DeleteFaults.none p.Name v.Version s).1.db.tables.package_versions
      ↔ w ∈ s.db.tables.package_versions ∧ w ≠ v) ∧
    (DeletePackage cfg DeleteFaults.none p.Name v.Version s).1.db.tables.package_versions
      = s.db.tables.package_versions.filter (fun w => decide (w ≠ v)) ∧
    (DeletePackage cfg DeleteFaults.none p.Name v.Version s).1.db.tables.dependencies
      = s.db.tables.dependencies.filter (fun d => decide (d.PackageVersionID ≠ v.ID)) ∧
    (DeletePackage cfg DeleteFaults.none p.Name v.Version s).1.db.tables.packages
      = s.db.tables.packages ∧
    (DeletePackage cfg DeleteFaults.none p.Name v.Version s).1.db.tables.package_keywords
      = s.db.tables.package_keywords ∧
    (DeletePackage cfg DeleteFaults.none p.Name v.Version s).1.files
      (cfg.artifactPath p.Name v.Version) = Option.none ∧
    (∀ k, k ≠ cfg.artifactPath p.Name v.Version →
      (DeletePackage cfg DeleteFaults.none p.Name v.Version s).1.files k = s.files k) ∧
    DeletePackage cfg DeleteFaults.none p.Name v.Version
        (DeletePackage cfg DeleteFaults.none p.Name v.Version s).1
      = ((DeletePackage cfg DeleteFaults.none p.Name v.Version s).1,
         Response.fail 404 "Package version not found") ∧
    (∀ name version, ¬ s.db.tables.hasVersion name version →
      DeletePackage cfg DeleteFaults.none name version s
        = (s, Response.fail 404 "Package version not found")) := by
  have hsym : Symmetric (fun a b : PackageVersion => a.ID ≠ b.ID) :=
    fun a b hab => Ne.symm hab
  have hfilter : s.db.tables.package_versions.filter (fun w => decide (w.ID ≠ v.ID))
      = s.db.tables.package_versions.filter (fun w => decide (w ≠ v)) := by
    apply List.filter_congr
    intro w hw
    by_cases hwv : w = v
    · simp [hwv]
    · have := List.Pairwise.forall hsym hk hw hvm hwv
      simp [hwv, this]
  have hout : DeletePackage cfg DeleteFaults.none p.Name v.Version s =
      ({ db := deleteVersion v.ID s.db,
         files := s.files.remove (cfg.artifactPath p.Name v.Version) },
       { status := 200, headers := [],
         body := Body.message "Package deleted successfully" }) := by
    unfold DeletePackage
    simp only [DeleteFaults.none, Bool.false_eq_true, if_false,
      Tables.versionByName_of_mem hu hv hp hvm hvp]
  have hunknown : ∀ (t : Registry) name version, ¬ t.db.tables.hasVersion name version →
      DeletePackage cfg DeleteFaults.none name version t
        = (t, Response.fail 404 "Package version not found") := by
    intro t name version hnone
    unfold DeletePackage
    simp only [DeleteFaults.none, Bool.false_eq_true, if_false,
      Tables.versionByName_none hnone]
  rw [hout]
  refine ⟨rfl, ?_, ?_, rfl, rfl, rfl, ?_, ?_, ?_, hunknown s⟩
  · intro w
    simp only [deleteVersion, hfilter, List.mem_filter, decide_eq_true_eq]
  · simp only [deleteVersion, hfilter]
  · simp [Files.remove]
  · intro k hk2
    simp [Files.remove, hk2]
  · apply hunknown
    rintro ⟨q, hq, hqn, w, hw, hwq, hwv⟩
    simp only [deleteVersion, hfilter, List.mem_filter, decide_eq_true_eq] at hq hw
    have hqp : q = p := by
      by_contra hne
      have hsymn : Symmetric (fun a b : Package => a.Name ≠ b.Name) :=
        fun a b hab => Ne.symm hab
      exact (List.Pairwise.forall hsymn hu hq hp hne) hqn
    have hsymv : Symmetric (fun a b : PackageVersion =>
        a.PackageID ≠ b.PackageID ∨ a.Version ≠ b.Version) := by
      intro a b hab
      rcases hab with h | h
      · exact Or.inl (Ne.symm h)
      · exact Or.inr (Ne.symm h)
    rcases List.Pairwise.forall hsymv hv hw.1 hvm hw.2 with h | h
    · exact h (by rw [hwq, hqp, hvp])
    · exact h hwv


/-- C16 for the delete of `alpha` 1.0.0 on the registry that holds it. -/
theorem delete_removes_version_witness :
    (DeletePackage demoConfig DeleteFaults.none "alpha" "1.0.0" alphaRegistry).2
      = { status := 200, headers := [], body := Body.message "Package deleted successfully" } :=
  (delete_removes_version demoConfig alphaRegistry
    { ID := 1, Name := "alpha", Description := "first", Author := "ann", License := "MIT",
      Repository := "", Homepage := "", CreatedAt := 100 }
    { ID := 1, PackageID := 1, Version := "1.0.0", DownloadURL := downloadURL "alpha" "1.0.0",
      Checksum := "bc", PublishedAt := 100, Downloads := 0 }
    (by simp [Tables.uniqueNames, alphaRegistry])
    (by simp [Tables.uniqueVersionIDs, alphaRegistry])
    (by simp [Tables.uniqueVersions, alphaRegistry])
    (List.mem_cons_self _ _) (List.mem_cons_self _ _) rfl).1

/-- `DeletePackage` leaves every file at another path than the one of the
named version as it was. -/
theorem DeletePackage_files_of_ne (cfg : Config) (f : DeleteFaults) (name version : String)
    (s : Registry) (k : String) (hk : k ≠ cfg.artifactPath name version) :
    (DeletePackage cfg f name version s).1.files k = s.files k := by
  unfold DeletePackage
  by_cases hq : f.query = true
  · rw [if_pos hq]
  · rw [if_neg hq]
    cases s.db.tables.versionByName name version with
    | none => rfl
    | some pv =>
      simp only
      by_cases he : f.exec = true
      · rw [if_pos he]
      · rw [if_neg he]
        simp [Files.remove, hk]

theorem collidingRegistry_published :
    (PublishPackage letterDigest demoConfig PublishFaults.none 200 "bob"
      (some (plainForm "a" "b-c" [2] "c"))
      (PublishPackage letterDigest demoConfig PublishFaults.none 100 "bob"
        (some (plainForm "a-b" "c" [1] "b")) Registry.empty).1).1 = collidingRegistry := by
  have hdb : (PublishPackage letterDigest demoConfig PublishFaults.none 200 "bob"
      (some (plainForm "a" "b-c" [2] "c"))
      (PublishPackage letterDigest demoConfig PublishFaults.none 100 "bob"
        (some (plainForm "a-b" "c" [1] "b")) Registry.empty).1).1.db
      = collidingRegistry.db := by decide
  have hfiles : (PublishPackage letterDigest demoConfig PublishFaults.none 200 "bob"
      (some (plainForm "a" "b-c" [2] "c"))
      (PublishPackage letterDigest demoConfig PublishFaults.none 100 "bob"
        (some (plainForm "a-b" "c" [1] "b")) Registry.empty).1).1.files
      = collidingRegistry.files := by
    funext k
    rw [PublishPackage_of_verified letterDigest demoConfig PublishFaults.none 200 "bob"
      (plainForm "a" "b-c" [2] "c") _ [2] (by decide) rfl (by decide)]
    rw [PublishPackage_of_verified letterDigest demoConfig PublishFaults.none 100 "bob"
      (plainForm "a-b" "c" [1] "b") _ [1] (by decide) rfl (by decide)]
    simp only [PublishFaults.none, Bool.false_eq_true, if_false, Files.write,
      collidingRegistry, Registry.empty]
    have h1 : demoConfig.artifactPath (plainForm "a" "b-c" [2] "c").name
        (plainForm "a" "b-c" [2] "c").version = "storage/a-b-c.tar.gz" := by decide
    have h2 : demoConfig.artifactPath (plainForm "a-b" "c" [1] "b").name
        (plainForm "a-b" "c" [1] "b").version = "storage/a-b-c.tar.gz" := by decide
    rw [h1, h2]
    by_cases hk : k = "storage/a-b-c.tar.gz"
    · simp [hk]
    · simp [hk]
  cases hs : (PublishPackage letterDigest demoConfig PublishFaults.none 200 "bob"
      (some (plainForm "a" "b-c" [2] "c"))
      (PublishPackage letterDigest demoConfig PublishFaults.none 100 "bob"
        (some (plainForm "a-b" "c" [1] "b")) Registry.empty).1).1 with
  | mk db files =>
    rw [hs] at hdb hfiles
    simp only at hdb hfiles
    rw [hdb, hfiles]

theorem collidingRegistry_reachable : Reachable letterDigest demoConfig collidingRegistry := by
  rw [← collidingRegistry_published]
  exact Reachable.publish _ _ _ _ (Reachable.publish _ _ _ _ Reachable.empty)

/-- C15, violated: the registry reached by publishing version `c` of package
`a-b` and version `b-c` of package `a` holds both version rows and, under the
one path that both artifacts have, a blob; `DeletePackage("a-b", "c")` answers
200 and leaves the version row of `a` `b-c` in place, but the blob of `a`
`b-c` is gone although that version was not deleted. -/
theorem delete_removes_colliding_blob :
    (∃ v ∈ collidingRegistry.db.tables.package_versions,
      v.PackageID = 2 ∧ v.Version = "b-c") ∧
    (∃ p ∈ collidingRegistry.db.tables.packages, p.ID = 2 ∧ p.Name = "a") ∧
    ("a", "b-c") ≠ ("a-b", "c") ∧
    collidingRegistry.files (demoConfig.artifactPath "a" "b-c") = some [2] ∧
    (DeletePackage demoConfig DeleteFaults.none "a-b" "c" collidingRegistry).2.status = 200 ∧
    (∃ v ∈ (DeletePackage demoConfig DeleteFaults.none "a-b" "c"
        collidingRegistry).1.db.tables.package_versions,
      v.PackageID = 2 ∧ v.Version = "b-c") ∧
    (DeletePackage demoConfig DeleteFaults.none "a-b" "c" collidingRegistry).1.files
      (demoConfig.artifactPath "a" "b-c") = Option.none ∧
    demoConfig.artifactPath "a" "b-c" = demoConfig.artifactPath "a-b" "c" := by
  refine ⟨by decide, by decide, by decide, by decide, by decide, by decide, by decide,
    by decide⟩

/-! ## Theorems: accounts and tokens -/

/-- Thirty days later the Unix time is 2,592,000 seconds greater. -/
theorem Time.Unix_add_thirtyDays (now : Int) :
    Time.Unix (now + thirtyDays) = Time.Unix now + 2592000 := by
  unfold Time.Unix thirtyDays
  omega

/-- The token of `generateJWT` is the serialization of the two names and of
the issuance time in Unix seconds plus 2,592,000, signed with the configured
secret. -/
theorem generateJWT_eq (signHS256 : String → Claims → String) (cfg : Config) (now : Int)
    (username email : String) :
    generateJWT signHS256 cfg now username email
      = signHS256 cfg.JWTSecret
          { username := username, email := email, exp := Time.Unix now + 2592000 } := by
  unfold generateJWT
  rw [Time.Unix_add_thirtyDays]

/-- A username that meets the `CHECK` constraints and an email that fits its
column, one of them held by a user already: the insert is refused with an
error that `Register` answers with 409, and no row is added. -/
theorem insertUser_of_taken (dbNow : Int) (username email passwordHash apiToken : String)
    (a : Accounts) (hname : usernameChecks username = true) (hemail : email.length ≤ 255)
    (htaken : a.taken username email) :
    ∃ err, insertUser dbNow username email passwordHash apiToken a
        = ({ a with users_id := a.users_id + 1 }, Except.error err) ∧
      registerInsertError err = Response.fail 409 "Username or email already exists" := by
  simp only [usernameChecks, Bool.and_eq_true, decide_eq_true_eq] at hname
  obtain ⟨⟨⟨h1, h2⟩, h3⟩, h4⟩ := hname
  have hlen : ¬ (email.length > 255 ∨ username.length > 255) := by omega
  have hfmt : (decide (username.data ≠ []) && username.data.all usernameChar) = true := by
    simp only [Bool.and_eq_true, decide_eq_true_eq]
    exact ⟨h1, h2⟩
  have hlength : (decide (3 ≤ username.length) && decide (username.length ≤ 50)) = true := by
    simp only [Bool.and_eq_true, decide_eq_true_eq]
    exact ⟨h3, h4⟩
  unfold insertUser
  rw [if_neg hlen, if_neg (not_not_intro hfmt), if_neg (not_not_intro hlength)]
  by_cases hu : a.users.any (fun u => decide (u.Username = username)) = true
  · rw [if_pos hu]
    exact ⟨_, rfl, by decide⟩
  · rw [if_neg hu]
    have he : a.users.any (fun u => decide (u.Email = email)) = true := by
      obtain ⟨u, hmem, h | h⟩ := htaken
      · exact absurd (List.any_eq_true.mpr ⟨u, hmem, by simpa using h⟩) hu
      · exact List.any_eq_true.mpr ⟨u, hmem, by simpa using h⟩
    rw [if_pos he]
    exact ⟨_, rfl, by decide⟩

/-- A username that meets the `CHECK` constraints, an email that fits its
column, and neither of them nor the API token held by a user: the insert adds
the row and returns its key. -/
theorem insertUser_of_fresh (dbNow : Int) (username email passwordHash apiToken : String)
    (a : Accounts) (hname : usernameChecks username = true) (hemail : email.length ≤ 255)
    (hfree : ¬ a.taken username email) (htoken : ∀ u ∈ a.users, u.APIToken ≠ apiToken) :
    insertUser dbNow username email passwordHash apiToken a
      = ({ users := a.users ++
             [{ ID := a.users_id, Username := username, Email := email,
                PasswordHash := passwordHash, APIToken := apiToken, CreatedAt := dbNow }],
           users_id := a.users_id + 1 }, Except.ok a.users_id) := by
  simp only [usernameChecks, Bool.and_eq_true, decide_eq_true_eq] at hname
  obtain ⟨⟨⟨h1, h2⟩, h3⟩, h4⟩ := hname
  have hlen : ¬ (email.length > 255 ∨ username.length > 255) := by omega
  have hfmt : (decide (username.data ≠ []) && username.data.all usernameChar) = true := by
    simp only [Bool.and_eq_true, decide_eq_true_eq]
    exact ⟨h1, h2⟩
  have hlength : (decide (3 ≤ username.length) && decide (username.length ≤ 50)) = true := by
    simp only [Bool.and_eq_true, decide_eq_true_eq]
    exact ⟨h3, h4⟩
  have hu : ¬ a.users.any (fun u => decide (u.Username = username)) = true := by
    intro h
    obtain ⟨u, hmem, hx⟩ := List.any_eq_true.mp h
    exact hfree ⟨u, hmem, Or.inl (by simpa using hx)⟩
  have he : ¬ a.users.any (fun u => decide (u.Email = email)) = true := by
    intro h
    obtain ⟨u, hmem, hx⟩ := List.any_eq_true.mp h
    exact hfree ⟨u, hmem, Or.inr (by simpa using hx)⟩
  have ht : ¬ a.users.any (fun u => decide (u.APIToken = apiToken)) = true := by
    intro h
    obtain ⟨u, hmem, hx⟩ := List.any_eq_true.mp h
    exact htoken u hmem (by simpa using hx)
  unfold insertUser
  rw [if_neg hlen, if_neg (not_not_intro hfmt), if_neg (not_not_intro hlength), if_neg hu,
    if_neg he, if_neg ht]

/-- C17: for every pair of login requests that pass request binding, the
response of `Login` when no user has the email of the first is the response
when a user has the email of the second and the password does not match the
stored hash, whatever fails in the environment; when the user query does not
fail both are 401 with the single error message "Invalid credentials". -/
theorem login_failures_indistinguishable (bcryptMatches : String → String → Bool)
    (signHS256 : String → Claims → String) (cfg : Config) (f : LoginFaults) (now : Int)
    (req1 req2 : LoginRequest) (a b : Accounts) (user : User)
    (hnone : ∀ u ∈ a.users, u.Email ≠ req1.Email)
    (hb : b.uniqueEmails) (hu : user ∈ b.users) (he : user.Email = req2.Email)
    (hp : bcryptMatches user.PasswordHash req2.Password = false) :
    Login bcryptMatches signHS256 cfg f now (Bound.ok req1) a
        = Login bcryptMatches signHS256 cfg f now (Bound.ok req2) b ∧
      (f.query = false →
        Login bcryptMatches signHS256 cfg f now (Bound.ok req1) a
            = Response.fail 401 "Invalid credentials" ∧
          Login bcryptMatches signHS256 cfg f now (Bound.ok req2) b
            = { status := 401, headers := [], body := Body.error "Invalid credentials" }) := by
  have hfa : a.users.find? (fun u => decide (u.Email = req1.Email)) = Option.none := by
    rw [List.find?_eq_none]
    intro u hmem
    simpa using hnone u hmem
  have hfb : b.users.find? (fun u => decide (u.Email = req2.Email)) = some user := by
    apply List.find?_eq_some_of_unique hu (by simpa using he)
    intro y hy hye
    by_contra hne
    have hsym : Symmetric (fun x y : User => x.Email ≠ y.Email) := fun _ _ h => Ne.symm h
    have hye2 : y.Email = req2.Email := by simpa using hye
    exact (List.Pairwise.forall hsym hb hy hu hne) (by rw [hye2, he])
  have hA : Login bcryptMatches signHS256 cfg f now (Bound.ok req1) a
      = if f.query = true then Response.fail 500 "Database error"
        else Response.fail 401 "Invalid credentials" := by
    simp only [Login, hfa]
  have hB : Login bcryptMatches signHS256 cfg f now (Bound.ok req2) b
      = if f.query = true then Response.fail 500 "Database error"
        else Response.fail 401 "Invalid credentials" := by
    simp only [Login, hfb, hp, Bool.false_eq_true, not_false_eq_true, if_true]
  rw [hA, hB]
  refine ⟨rfl, ?_⟩
  intro hq
  rw [hq]
  exact ⟨rfl, rfl⟩

/-- C17 for two logins on the table that holds `alice`: an email that nobody
has, and the email of `alice` with a wrong password. -/
theorem login_failures_indistinguishable_witness :
    Login demoMatches demoSign demoConfig LoginFaults.none 0
        (Bound.ok { Email := "bob@example.com", Password := "wonderland" }) aliceAccounts
      = Login demoMatches demoSign demoConfig LoginFaults.none 0
        (Bound.ok { Email := "alice@example.com", Password := "wonderlane" }) aliceAccounts :=
  (login_failures_indistinguishable demoMatches demoSign demoConfig LoginFaults.none 0
    { Email := "bob@example.com", Password := "wonderland" }
    { Email := "alice@example.com", Password := "wonderlane" } aliceAccounts aliceAccounts
    { ID := 1, Username := "alice", Email := "alice@example.com",
      PasswordHash := demoHash "salt" "wonderland", APIToken := "token-1", CreatedAt := 7 }
    (by decide) (by simp [Accounts.uniqueEmails, aliceAccounts])
    (List.mem_cons_self _ _) rfl (by decide)).1

/-- C18 as stated fails: the username `ab` passes request binding and belongs
to nobody, yet `Register` answers 500 and stores no row, because the table
refuses a username of fewer than three characters; and a request with the
email of `alice` and that username is answered with 500, not 409. -/
theorem register_counterexample :
    Register demoHash demoSign demoConfig RegisterFaults.none 7 0 "salt" "token-1"
        (Bound.ok { Username := "ab", Email := "ab@example.com", Password := "password1" })
        Accounts.empty
      = ({ users := [], users_id := 2 }, Response.fail 500 "Failed to create user") ∧
    (Register demoHash demoSign demoConfig RegisterFaults.none 7 0 "salt" "token-2"
        (Bound.ok { Username := "ab", Email := "alice@example.com", Password := "password1" })
        aliceAccounts).2
      = Response.fail 500 "Failed to create user" := by
  decide

/-- C18, amended: let the request pass request binding with a username of 3
to 50 characters out of letters, digits, `_` and `-` and an email of at most
255 characters, and let nothing fail in the environment. If the username or
the email already belongs to a user, `Register` answers 409 and the rows of
table `users` are as before. Otherwise, the generated API token being new, it
appends one row with the requested username and email whose `password_hash`
is the bcrypt hash of the password, and answers 201 with the signed token and
exactly the requested username and email. -/
theorem register_outcome (bcryptHash : String → String → String)
    (signHS256 : String → Claims → String) (cfg : Config) (dbNow now : Int)
    (salt apiToken : String) (req : RegisterRequest) (a : Accounts)
    (hname : usernameChecks req.Username = true) (hemail : req.Email.length ≤ 255) :
    (a.taken req.Username req.Email →
      Register bcryptHash signHS256 cfg RegisterFaults.none dbNow now salt apiToken
          (Bound.ok req) a
        = ({ users := a.users, users_id := a.users_id + 1 },
           Response.fail 409 "Username or email already exists")) ∧
    (¬ a.taken req.Username req.Email → (∀ u ∈ a.users, u.APIToken ≠ apiToken) →
      Register bcryptHash signHS256 cfg RegisterFaults.none dbNow now salt apiToken
          (Bound.ok req) a
        = ({ users := a.users ++
               [{ ID := a.users_id, Username := req.Username, Email := req.Email,
                  PasswordHash := bcryptHash salt req.Password, APIToken := apiToken,
                  CreatedAt := dbNow }],
             users_id := a.users_id + 1 },
           { status := 201, headers := [],
             body := Body.auth
               (signHS256 cfg.JWTSecret
                 { username := req.Username, email := req.Email,
                   exp := Time.Unix now + 2592000 })
               req.Username req.Email })) := by
  constructor
  · intro htaken
    obtain ⟨err, hins, herr⟩ :=
      insertUser_of_taken dbNow req.Username req.Email (bcryptHash salt req.Password) apiToken a
        hname hemail htaken
    simp only [Register, RegisterFaults.none, Bool.false_eq_true, if_false, hins, herr]
  · intro hfree htoken
    simp only [Register, RegisterFaults.none, Bool.false_eq_true, if_false,
      insertUser_of_fresh dbNow req.Username req.Email (bcryptHash salt req.Password) apiToken a
        hname hemail hfree htoken, generateJWT_eq]

/-- C18, amended, for the registration of `alice` on the empty table. -/
theorem register_outcome_witness :
    usernameChecks aliceRequest.Username = true ∧
    Register demoHash demoSign demoConfig RegisterFaults.none 7 1500000000 "salt" "token-1"
        (Bound.ok aliceRequest) Accounts.empty
      = (aliceAccounts,
         { status := 201, headers := [],
           body := Body.auth "secret.alice.alice@example.com.2592001" "alice"
             "alice@example.com" }) :=
  ⟨by decide,
   ((register_outcome demoHash demoSign demoConfig 7 1500000000 "salt" "token-1" aliceRequest
      Accounts.empty (by decide) (by decide)).2
      (by simp [Accounts.taken, Accounts.empty]) (by simp [Accounts.empty])).trans (by decide)⟩

/-- An insert that returns a key has added the row with the given values at
the end of the table. -/
theorem insertUser_ok (dbNow : Int) (username email passwordHash apiToken : String)
    (a a1 : Accounts) (k : Nat)
    (h : insertUser dbNow username email passwordHash apiToken a = (a1, Except.ok k)) :
    a1.users = a.users ++
      [{ ID := a.users_id, Username := username, Email := email,
         PasswordHash := passwordHash, APIToken := apiToken, CreatedAt := dbNow }] := by
  unfold insertUser at h
  split_ifs at h <;> simp only [Prod.mk.injEq, reduceCtorEq, and_false] at h
  rw [← h.1]

/-- C19: every token that `Register` or `Login` issues is the HS256
serialization, signed with the configured secret, of claims that are exactly
the username and the email of the user (the one just registered, or the one
whose email and password the login gave) and `exp`, the issuance time in Unix
seconds plus 2,592,000; the response names the same username and email. -/
theorem token_claims (bcryptHash : String → String → String)
    (bcryptMatches : String → String → Bool) (signHS256 : String → Claims → String)
    (cfg : Config) (rf : RegisterFaults) (lf : LoginFaults) (dbNow now : Int)
    (salt apiToken : String) (a : Accounts) (token username email : String) :
    (∀ (body : Bound RegisterRequest),
      (Register bcryptHash signHS256 cfg rf dbNow now salt apiToken body a).2.body
          = Body.auth token username email →
      token = signHS256 cfg.JWTSecret
          { username := username, email := email, exp := Time.Unix now + 2592000 } ∧
        (∃ req, body = Bound.ok req ∧ req.Username = username ∧ req.Email = email) ∧
        ∃ u ∈ (Register bcryptHash signHS256 cfg rf dbNow now salt apiToken body a).1.users,
          u.Username = username ∧ u.Email = email) ∧
    (∀ (body : Bound LoginRequest),
      (Login bcryptMatches signHS256 cfg lf now body a).body
          = Body.auth token username email →
      token = signHS256 cfg.JWTSecret
          { username := username, email := email, exp := Time.Unix now + 2592000 } ∧
        ∃ u ∈ a.users, u.Username = username ∧ u.Email = email ∧
          ∃ req, body = Bound.ok req ∧ req.Email = email ∧
            bcryptMatches u.PasswordHash req.Password = true) := by
  constructor
  · intro body h
    cases body with
    | failed err => simp [Register, Response.fail] at h
    | ok req =>
      unfold Register at h ⊢
      simp only at h ⊢
      by_cases hh : rf.hash = true
      · rw [if_pos hh] at h
        simp [Response.fail] at h
      · rw [if_neg hh] at h ⊢
        cases hi : rf.insert with
        | some err =>
          rw [hi] at h
          simp only [registerInsertError] at h
          split_ifs at h <;> simp [Response.fail] at h
        | none =>
          rw [hi] at h
          simp only at h ⊢
          rcases hins : insertUser dbNow req.Username req.Email (bcryptHash salt req.Password)
            apiToken a with ⟨a1, res⟩
          rw [hins] at h
          cases res with
          | error err =>
            simp only [registerInsertError] at h
            split_ifs at h <;> simp [Response.fail] at h
          | ok k =>
            simp only at h ⊢
            by_cases hs : rf.sign = true
            · rw [if_pos hs] at h
              simp [Response.fail] at h
            · rw [if_neg hs] at h ⊢
              simp only [Body.auth.injEq] at h
              obtain ⟨ht, hu, he⟩ := h
              refine ⟨?_, ⟨req, rfl, hu, he⟩, ?_⟩
              · rw [← ht, ← hu, ← he, generateJWT_eq]
              · rw [insertUser_ok dbNow _ _ _ _ a a1 k hins]
                exact ⟨_, List.mem_append_right _ (List.mem_singleton_self _), hu, he⟩
  · intro body h
    cases body with
    | failed err => simp [Login, Response.fail] at h
    | ok req =>
      unfold Login at h
      simp only at h
      by_cases hq : lf.query = true
      · rw [if_pos hq] at h
        simp [Response.fail] at h
      · rw [if_neg hq] at h
        cases hf : a.users.find? (fun u => decide (u.Email = req.Email)) with
        | none =>
          rw [hf] at h
          simp [Response.fail] at h
        | some user =>
          rw [hf] at h
          simp only at h
          by_cases hm : bcryptMatches user.PasswordHash req.Password = true
          · rw [if_neg (not_not_intro hm)] at h
            by_cases hs : lf.sign = true
            · rw [if_pos hs] at h
              simp [Response.fail] at h
            · rw [if_neg hs] at h
              simp only [Body.auth.injEq] at h
              obtain ⟨ht, hu, he⟩ := h
              have hue : user.Email = req.Email := by
                simpa using List.find?_some hf
              refine ⟨?_, user, List.mem_of_find?_eq_some hf, hu, he, req, rfl, ?_, hm⟩
              · rw [← ht, ← hu, ← he, generateJWT_eq]
              · rw [← hue, he]
          · rw [if_pos hm] at h
            simp [Response.fail] at h

/-- C19 for the registration of `alice` at Unix time 1 and her login at Unix
time 2: the tokens carry her names and the expiries 2,592,001 and
2,592,002. -/
theorem token_claims_witness :
    ((Register demoHash demoSign demoConfig RegisterFaults.none 7 1500000000 "salt" "token-1"
          (Bound.ok aliceRequest) Accounts.empty).2.body
        = Body.auth "secret.alice.alice@example.com.2592001" "alice" "alice@example.com" ∧
      "secret.alice.alice@example.com.2592001"
        = demoSign demoConfig.JWTSecret
            { username := "alice", email := "alice@example.com",
              exp := Time.Unix 1500000000 + 2592000 }) ∧
    ((Login demoMatches demoSign demoConfig LoginFaults.none 2500000000
          (Bound.ok { Email := "alice@example.com", Password := "wonderland" })
          aliceAccounts).body
        = Body.auth "secret.alice.alice@example.com.2592002" "alice" "alice@example.com" ∧
      "secret.alice.alice@example.com.2592002"
        = demoSign demoConfig.JWTSecret
            { username := "alice", email := "alice@example.com",
              exp := Time.Unix 2500000000 + 2592000 }) :=
  ⟨⟨by decide,
    ((token_claims demoHash demoMatches demoSign demoConfig RegisterFaults.none
      LoginFaults.none 7 1500000000 "salt" "token-1" Accounts.empty
      "secret.alice.alice@example.com.2592001" "alice" "alice@example.com").1
      (Bound.ok aliceRequest) (by decide)).1⟩,
   ⟨by decide,
    ((token_claims demoHash demoMatches demoSign demoConfig RegisterFaults.none
      LoginFaults.none 7 2500000000 "salt" "token-1" aliceAccounts
      "secret.alice.alice@example.com.2592002" "alice" "alice@example.com").2
      (Bound.ok { Email := "alice@example.com", Password := "wonderland" }) (by decide)).1⟩⟩

/-! ## Theorems: refused version insert and package upsert -/

/-- The metadata transaction of a publish whose package upsert is accepted and
whose version insert is refused after the existence check found no row: the
answer is 500 "Failed to create version", whatever the reason of the refusal. -/
theorem publishTx_of_insert_refused {db : Database} (hwf : db.WF) (f : PublishFaults)
    (now : Int) (username : String) (r : PublishForm)
    (hnew : ¬ db.tables.hasVersion r.name r.version)
    (hname : r.name.length ≤ 255) (hauthor : r.author.length ≤ 255)
    (hlicense : r.license.length ≤ 50)
    (hbegin : f.begin = false) (hupsert : f.upsert = false) (hcheck : f.check = false)
    (hins : f.insertVersion = true) :
    publishTx f now username r db
      = ({ tables := db.tables,
           seqs := { db.seqs with packages_id := db.seqs.packages_id + 1 } },
         Response.fail 500 "Failed to create version") := by
  have hsel := selectVersion_none_of_new hwf now r hnew
  have hup : decide (r.name.length > 255 ∨ r.author.length > 255 ∨ r.license.length > 50)
      = false := by
    simp only [decide_eq_false_iff_not]
    omega
  unfold publishTx
  simp only [Tx.exec_upsertPackage, Tx.exec_selectVersion, Tx.exec_insertVersion, hup,
    hbegin, hupsert, hcheck, hins, Bool.false_eq_true, if_false, Tx.begin, Tx.apply_ok,
    selectVersion_fst, hsel, Tx.apply_fault, Tx.rollback, Bool.or_false, Bool.true_or]
  simp [upsertPackageAccepted]
  split <;> rfl

/-- C21 fails on the code: when the package upsert of `PublishPackage` has been
accepted (no fault, and name, author and license fit their columns), its
existence check has found no row for `(name, version)` and the `INSERT` into
`package_versions` is then refused, a violated `UNIQUE(package_id, version)`
included, the handler answers HTTP 500 "Failed to create version" and not the
409 of the explicit check; the tables are as before the request. -/
theorem publish_insert_conflict_is_internal_error (sha256hex : List UInt8 → String)
    (cfg : Config) (f : PublishFaults) (now : Int) (username : String) (r : PublishForm)
    (s : Registry) (bytes : List UInt8) (hc : r.complete) (hup : r.package = Upload.file bytes)
    (hsum : sha256hex bytes = r.checksum) (hwf : s.db.WF)
    (hnew : ¬ s.db.tables.hasVersion r.name r.version)
    (hname : r.name.length ≤ 255) (hauthor : r.author.length ≤ 255)
    (hlicense : r.license.length ≤ 50)
    (hcreate : f.create = false) (hcopy : f.copy = Option.none) (hbegin : f.begin = false)
    (hupsert : f.upsert = false) (hcheck : f.check = false) (hins : f.insertVersion = true) :
    (PublishPackage sha256hex cfg f now username (some r) s).2
        = Response.fail 500 "Failed to create version" ∧
      (PublishPackage sha256hex cfg f now username (some r) s).2.status ≠ 409 ∧
      (PublishPackage sha256hex cfg f now username (some r) s).1.db.tables = s.db.tables := by
  rw [PublishPackage_of_verified sha256hex cfg f now username r s bytes hc hup hsum]
  simp only [hcreate, hcopy, Bool.false_eq_true, if_false,
    publishTx_of_insert_refused hwf f now username r hnew hname hauthor hlicense hbegin
      hupsert hcheck hins]
  simp [Response.fail]

/-- C21 at the publish of `alpha` 1.0.0 on a fresh installation when the
version insert is refused. -/
theorem publish_insert_conflict_is_internal_error_witness :
    (PublishPackage letterDigest demoConfig
        { PublishFaults.none with insertVersion := true } 100 "bob"
        (some (alphaForm [1, 2] "bc")) Registry.empty).2
      = { status := 500, headers := [], body := Body.error "Failed to create version" } :=
  (publish_insert_conflict_is_internal_error letterDigest demoConfig
    { PublishFaults.none with insertVersion := true } 100 "bob" (alphaForm [1, 2] "bc")
    Registry.empty [1, 2] (by decide) rfl (by decide) Database.empty_WF
    (by simp [Tables.hasVersion, Registry.empty, Database.empty])
    (by decide) (by decide) (by decide) rfl rfl rfl rfl rfl rfl).1

/-- The dependency inserts of a publish leave table `packages` as it is. -/
theorem insertDependencies_packages (fault : Nat → Bool) (versionID : Nat)
    (deps : List String) :
    ∀ (start : Nat) (tx : Tx),
      (insertDependencies fault versionID start deps tx).1.db.tables.packages
        = tx.db.tables.packages := by
  induction deps with
  | nil => intro start tx; rfl
  | cons d rest ih =>
    intro start tx
    unfold insertDependencies
    simp only [Tx.exec_insertDependency]
    have hstep : (tx.apply (fault start || decide (d.length > 255))
        (insertDependencyAccepted versionID d)).1.db.tables.packages
        = tx.db.tables.packages :=
      @Tx.apply_inv Unit (fun db => db.tables.packages = tx.db.tables.packages) tx
        (fault start || decide (d.length > 255)) (insertDependencyAccepted versionID d) rfl rfl
    by_cases hd : d ≠ ""
    · rw [if_pos hd]
      rcases hx : tx.apply (fault start || decide (d.length > 255))
        (insertDependencyAccepted versionID d) with ⟨tx1, res⟩
      rw [hx] at hstep
      cases res with
      | none => exact hstep
      | some u =>
        simp only
        rw [ih (start + 1) tx1]
        exact hstep
    · rw [if_neg hd]
      exact ih (start + 1) tx

/-- The keyword inserts of a publish leave table `packages` as it is. -/
theorem insertKeywords_packages (fault : Nat → Bool) (packageID : Nat) (kws : List String) :
    ∀ (start : Nat) (tx : Tx),
      (insertKeywords fault packageID start kws tx).db.tables.packages
        = tx.db.tables.packages := by
  induction kws with
  | nil => intro start tx; rfl
  | cons k rest ih =>
    intro start tx
    unfold insertKeywords
    simp only [Tx.exec_insertKeyword]
    by_cases hk : k ≠ ""
    · rw [if_pos hk, ih (start + 1)]
      exact @Tx.apply_inv Unit (fun db => db.tables.packages = tx.db.tables.packages) tx
        (fault start || decide (k.length > 100)) (insertKeywordAccepted packageID k) rfl
        (insertKeyword_tables packageID k tx.db).1
    · rw [if_neg hk]
      exact ih (start + 1) tx

/-- A metadata transaction that reports success has committed table `packages`
as the upsert left it. -/
theorem publishTx_ok_packages (f : PublishFaults) (now : Int) (username : String)
    (r : PublishForm) (db : Database)
    (h : (publishTx f now username r db).2.status = 200) :
    (publishTx f now username r db).1.tables.packages
      = (upsertPackageAccepted now r.name r.description r.author r.license r.repository
          r.homepage db).1.tables.packages := by
  unfold publishTx at h ⊢
  simp only [Tx.exec_upsertPackage, Tx.exec_selectVersion, Tx.exec_insertVersion] at h ⊢
  split_ifs at h ⊢ with hb
  · simp [Response.fail] at h
  · split at h
    · simp [Response.fail] at h
    · rename_i tx1 packageID h1
      split at h
      · simp [Response.fail] at h
      · rename_i tx2 res2 hnot hno
        split at h
        · simp [Response.fail] at h
        · rename_i tx3 versionID h3
          split at h
          · simp [Response.fail] at h
          · rename_i tx4 h4
            split at h
            · simp [Response.fail] at h
            · rename_i db1 h5
              have hc := (Tx.commit_true h5).1
              have e4 : tx4 = (insertDependencies f.dependency versionID 0 r.dependencies tx3).1 := by
                rw [h4]
              have e3 := (Tx.apply_some_inv h3).2.2.1
              have e2 : tx2 = (tx1.apply f.check (selectVersion packageID r.version)).1 := by
                rw [hno]
              have e1 := (Tx.apply_some_inv h1).2.2.1
              show db1.tables.packages = _
              rw [hc, insertKeywords_packages, e4, insertDependencies_packages, e3]
              show tx2.db.tables.packages = _
              rw [e2, Tx.apply_selectVersion_db, e1]
              rfl

/-- The upsert of a name that a row has, in a table with unique names: that row
is the only one with the name afterwards and carries the new metadata. -/
theorem upsertPackage_filter_of_mem (now : Int) (n d a l rp h : String) (db : Database)
    (hu : db.tables.uniqueNames) {p : Package} (hp : p ∈ db.tables.packages)
    (hn : p.Name = n) :
    (upsertPackageAccepted now n d a l rp h db).1.tables.packages.filter
        (fun q => decide (q.Name = n))
      = [{ p with Description := d, Author := a, License := l, Repository := rp,
                  Homepage := h }] := by
  have hfind : db.tables.packages.find? (fun q => decide (q.Name = n)) = some p := by
    rw [← hn]
    exact Tables.packageByName_of_mem hu hp
  unfold upsertPackageAccepted
  simp only [hfind]
  unfold Tables.uniqueNames at hu
  revert hp hu
  generalize db.tables.packages = ps
  intro hu hp
  induction ps with
  | nil => cases hp
  | cons q rest ih =>
    rw [List.pairwise_cons] at hu
    rcases List.mem_cons.mp hp with hq | hq
    · subst hq
      have hrest : ∀ x ∈ rest, x.Name ≠ n := fun x hx hxn => hu.1 x hx (by rw [hn, hxn])
      have hnone : (rest.map (fun q =>
          if q.Name = n then
            { q with Description := d, Author := a, License := l, Repository := rp,
                     Homepage := h }
          else q)).filter (fun q => decide (q.Name = n)) = [] := by
        rw [List.filter_eq_nil_iff]
        intro x hx
        obtain ⟨y, hy, rfl⟩ := List.mem_map.mp hx
        have := hrest y hy
        simp [this]
      simp only [List.map_cons, hn, if_true]
      rw [List.filter_cons_of_pos (by simp [hn]), hnone]
    · have hqn : q.Name ≠ n := fun hqn => hu.1 p hq (by rw [hqn, hn])
      simp only [List.map_cons, hqn, if_false]
      rw [List.filter_cons_of_neg (by simp [hqn])]
      exact ih hu.2 hq

/-- The upsert leaves the rows of every other name as they were. -/
theorem upsertPackage_filter_others (now : Int) (n d a l rp h : String) (db : Database) :
    (upsertPackageAccepted now n d a l rp h db).1.tables.packages.filter
        (fun q => decide (q.Name ≠ n))
      = db.tables.packages.filter (fun q => decide (q.Name ≠ n)) := by
  unfold upsertPackageAccepted
  cases db.tables.packages.find? (fun p => decide (p.Name = n)) with
  | none => simp
  | some p =>
    simp only
    generalize db.tables.packages = ps
    induction ps with
    | nil => rfl
    | cons q rest ih =>
      by_cases hq : q.Name = n
      · simp only [List.map_cons, hq, if_true]
        rw [List.filter_cons_of_neg (by simp), List.filter_cons_of_neg (by simp [hq])]
        exact ih
      · simp only [List.map_cons, hq, if_false]
        rw [List.filter_cons_of_pos (by simp [hq]), List.filter_cons_of_pos (by simp [hq]), ih]

/-- The upsert of a name that no row has appends one row with the new
metadata, the next key of the sequence and the time of the transaction. -/
theorem upsertPackage_of_unknown (now : Int) (n d a l rp h : String) (db : Database)
    (hn : ∀ p ∈ db.tables.packages, p.Name ≠ n) :
    (upsertPackageAccepted now n d a l rp h db).1.tables.packages
      = db.tables.packages ++
          [{ ID := db.seqs.packages_id, Name := n, Description := d, Author := a,
             License := l, Repository := rp, Homepage := h, CreatedAt := now }] := by
  have hfind : db.tables.packages.find? (fun q => decide (q.Name = n)) = Option.none :=
    Tables.packageByName_none hn
  unfold upsertPackageAccepted
  simp only [hfind]

/-- A publish that reports success went through the metadata transaction and
stored what it committed. -/
theorem PublishPackage_ok_db (sha256hex : List UInt8 → String) (cfg : Config)
    (f : PublishFaults) (now : Int) (username : String) (form : Option PublishForm)
    (s : Registry)
    (h : (PublishPackage sha256hex cfg f now username form s).2.status = 200) :
    ∃ r, form = some r ∧ (publishTx f now username r s.db).2.status = 200 ∧
      (PublishPackage sha256hex cfg f now username form s).1.db
        = (publishTx f now username r s.db).1 := by
  unfold PublishPackage at h ⊢
  cases form with
  | none => simp [Response.fail] at h
  | some r =>
    simp only at h ⊢
    by_cases h1 : r.name = "" ∨ r.version = "" ∨ r.author = "" ∨ r.checksum = ""
    · rw [if_pos h1] at h
      simp [Response.fail] at h
    · rw [if_neg h1] at h ⊢
      cases hpk : r.package with
      | missing => rw [hpk] at h; simp [Response.fail] at h
      | unreadable => rw [hpk] at h; simp [Response.fail] at h
      | file bytes =>
        rw [hpk] at h
        simp only at h ⊢
        by_cases h2 : sha256hex bytes ≠ r.checksum
        · rw [if_pos h2] at h
          simp [Response.fail] at h
        · rw [if_neg h2] at h ⊢
          by_cases h3 : f.create = true
          · rw [if_pos h3] at h
            simp [Response.fail] at h
          · rw [if_neg h3] at h ⊢
            cases hcp : f.copy with
            | some n => rw [hcp] at h; simp [Response.fail] at h
            | none =>
              rw [hcp] at h
              exact ⟨r, rfl, h, rfl⟩

/-- C22: a publish that reports success, on a table of unique package names.
If a row had the name, it is the only row with the name afterwards, with its
key, name and creation time as before and with the description, author,
license, repository and homepage of the request. If no row had the name, one
row is appended that carries those values. The rows of every other name are
as before. -/
theorem publish_upserts_package (sha256hex : List UInt8 → String) (cfg : Config)
    (f : PublishFaults) (now : Int) (username : String) (r : PublishForm) (s : Registry)
    (hu : s.db.tables.uniqueNames)
    (hok : (PublishPackage sha256hex cfg f now username (some r) s).2.status = 200) :
    (∀ p ∈ s.db.tables.packages, p.Name = r.name →
      (PublishPackage sha256hex cfg f now username (some r) s).1.db.tables.packages.filter
          (fun q => decide (q.Name = r.name))
        = [{ ID := p.ID, Name := p.Name, Description := r.description, Author := r.author,
             License := r.license, Repository := r.repository, Homepage := r.homepage,
             CreatedAt := p.CreatedAt }]) ∧
    ((∀ p ∈ s.db.tables.packages, p.Name ≠ r.name) →
      (PublishPackage sha256hex cfg f now username (some r) s).1.db.tables.packages
        = s.db.tables.packages ++
            [{ ID := s.db.seqs.packages_id, Name := r.name, Description := r.description,
               Author := r.author, License := r.license, Repository := r.repository,
               Homepage := r.homepage, CreatedAt := now }]) ∧
    (PublishPackage sha256hex cfg f now username (some r) s).1.db.tables.packages.filter
        (fun q => decide (q.Name ≠ r.name))
      = s.db.tables.packages.filter (fun q => decide (q.Name ≠ r.name)) := by
  obtain ⟨r1, hr, htx, hdb⟩ := PublishPackage_ok_db sha256hex cfg f now username (some r) s hok
  cases hr
  rw [hdb, publishTx_ok_packages f now username r s.db htx]
  refine ⟨?_, ?_, ?_⟩
  · intro p hp hn
    exact upsertPackage_filter_of_mem now r.name r.description r.author r.license r.repository
      r.homepage s.db hu hp hn
  · intro hn
    exact upsertPackage_of_unknown now r.name r.description r.author r.license r.repository
      r.homepage s.db hn
  · exact upsertPackage_filter_others now r.name r.description r.author r.license r.repository
      r.homepage s.db

/-- C22 for the publish of version 2.0.0 of `alpha` on the registry that holds
`alpha` 1.0.0: the one row of `alpha` keeps key 1 and creation time 100 and
takes the metadata of the request. -/
theorem publish_upserts_package_witness :
    (PublishPackage letterDigest demoConfig PublishFaults.none 200 "bob"
        (some (plainForm "alpha" "2.0.0" [3] "d")) alphaRegistry).2.status = 200 ∧
    (PublishPackage letterDigest demoConfig PublishFaults.none 200 "bob"
        (some (plainForm "alpha" "2.0.0" [3] "d")) alphaRegistry).1.db.tables.packages.filter
          (fun q => decide (q.Name = "alpha"))
      = [{ ID := 1, Name := "alpha", Description := "", Author := "ann", License := "",
           Repository := "", Homepage := "", CreatedAt := 100 }] :=
  ⟨by decide,
   (publish_upserts_package letterDigest demoConfig PublishFaults.none 200 "bob"
      (plainForm "alpha" "2.0.0" [3] "d") alphaRegistry
      (by simp [Tables.uniqueNames, alphaRegistry]) (by decide)).1
      { ID := 1, Name := "alpha", Description := "first", Author := "ann", License := "MIT",
        Repository := "", Homepage := "", CreatedAt := 100 }
      (List.mem_cons_self _ _) rfl⟩

/-! ## Theorems: rate-limit headers -/

/-- A digit character has a code from 48 to 57. -/
theorem isDigit_toNat_bounds {c : Char} (h : c.isDigit = true) : 48 ≤ c.toNat ∧ c.toNat ≤ 57 := by
  simp only [Char.isDigit, Bool.and_eq_true, decide_eq_true_eq, UInt32.le_def] at h
  exact h

/-- The value of a numeral of one character. -/
theorem numeralValue_singleton (c : Char) :
    numeralValue (String.singleton c)
      = if c.isDigit = true then some ((c.toNat - 48 : Nat) : Int) else none := by
  have hd : (String.singleton c).data = [c] := rfl
  unfold numeralValue
  rw [hd]
  split
  · rename_i ds heq
    cases heq
    simp
  · rename_i ds heq
    cases heq
    simp
  · simp [decimalValue]

/-- The text `string(rune(k))` is never a decimal numeral of value `k`: it is
one character, and a digit character has a code from 48 to 57, which is not
the digit it shows. -/
theorem numeralValue_runeString_ne (k : Int) : numeralValue (runeString k) ≠ some k := by
  intro h
  unfold runeString at h
  simp only at h
  split_ifs at h with hv
  · rw [numeralValue_singleton] at h
    split_ifs at h with hdig
    have hc := isDigit_toNat_bounds hdig
    have hn : (Char.ofNat (toRune k).toNat).toNat = (toRune k).toNat := by
      simp [Char.ofNat, hv.2, Char.toNat, Char.ofNatAux]
      rfl
    rw [hn] at hc h
    simp only [Option.some.injEq] at h
    unfold toRune at hc h hv
    simp only at hc h hv
    split_ifs at hc h hv <;> omega
  · rw [numeralValue_singleton] at h
    simp at h

/-- C23 fails on the code. The first request of a client that has no entry is
admitted without any header. An admitted request of a tracked client gets
`X-RateLimit-Remaining` set to `string(rune(limit - n))`, `n` being the number
of timestamps recorded for the client after the request: one character whose
code is `limit - n`, never a decimal numeral of that value. Only a rejection
is as the claim says: `X-RateLimit-Remaining` is "0" and `Retry-After` is
set. -/
theorem remaining_header_is_rune (rl : RateLimiter) (ip : String) (now : Int) :
    (rl.requests ip = none →
      (rl.Middleware ip now).2.admitted ∧
        (rl.Middleware ip now).2.header "X-RateLimit-Remaining" = none) ∧
    (∀ ts, rl.requests ip = some ts → ¬ ((rl.filtered now ts).length : Int) ≥ rl.limit →
      (rl.Middleware ip now).2.admitted ∧
        (rl.Middleware ip now).2.header "X-RateLimit-Remaining"
          = some (runeString (rl.limit - (((rl.Middleware ip now).1.history ip).length : Int))) ∧
        numeralValue (runeString (rl.limit - (((rl.Middleware ip now).1.history ip).length : Int)))
          ≠ some (rl.limit - (((rl.Middleware ip now).1.history ip).length : Int))) ∧
    (∀ ts, rl.requests ip = some ts → ((rl.filtered now ts).length : Int) ≥ rl.limit →
      (rl.Middleware ip now).2.rejected ∧
        (rl.Middleware ip now).2.header "X-RateLimit-Remaining" = some "0" ∧
        (rl.Middleware ip now).2.header "Retry-After" = some "60") := by
  refine ⟨?_, ?_, ?_⟩
  · intro h
    rw [RateLimiter.Middleware_of_none now h]
    exact ⟨rfl, rfl⟩
  · intro ts h hroom
    rw [RateLimiter.Middleware_of_room now h hroom]
    refine ⟨rfl, ?_, numeralValue_runeString_ne _⟩
    simp [Verdict.header, RateLimiter.history]
  · intro ts h hfull
    rw [RateLimiter.Middleware_of_full now h hfull]
    exact ⟨⟨rfl, rfl⟩, by simp [Verdict.header], by simp [Verdict.header]⟩

/-- C23 at a limiter of limit 100 and a window of one minute: the second
request of a client gets `X-RateLimit-Remaining: b`, the character of code
98, where the claim says `98`. -/
theorem remaining_header_is_rune_witness :
    (((NewRateLimiter 100 60000000000).store "10.0.0.1" [5]).Middleware "10.0.0.1"
        7).2.header "X-RateLimit-Remaining" = some "b" :=
  (((remaining_header_is_rune ((NewRateLimiter 100 60000000000).store "10.0.0.1" [5])
      "10.0.0.1" 7).2.1 [5] (by simp [RateLimiter.store])
      (by simp [RateLimiter.filtered, RateLimiter.store, NewRateLimiter, Time.Sub, maxDuration,
            minDuration])).2.1).trans
    (by simp [RateLimiter.Middleware, RateLimiter.store, NewRateLimiter, RateLimiter.filtered,
          RateLimiter.history, Time.Sub, maxDuration, minDuration]; decide)

/-! ## Theorems: packages without versions -/

/-- The answers of `GetPackageInfo` and `ListVersions` for a package row that
no version row references, when no query fails. -/
theorem info_of_no_versions {s : Registry} (hu : s.db.tables.uniqueNames) {p : Package}
    (hp : p ∈ s.db.tables.packages)
    (hnone : ∀ v ∈ s.db.tables.package_versions, v.PackageID ≠ p.ID) :
    GetPackageInfo InfoFaults.none p.Name s = Response.fail 500 "No versions found" ∧
    ListVersions VersionsFaults.none p.Name s
      = { status := 200, headers := [], body := Body.versions [] } := by
  have hfind := Tables.packageByName_of_mem hu hp
  have hvs : s.db.tables.versionsOf p.ID = [] := by
    unfold Tables.versionsOf orderByPublishedAtDesc
    have : s.db.tables.package_versions.filter (fun v => decide (v.PackageID = p.ID)) = [] := by
      rw [List.filter_eq_nil_iff]
      intro v hv
      simpa using hnone v hv
    rw [this]
    rfl
  constructor
  · unfold GetPackageInfo
    simp only [InfoFaults.none, Bool.false_eq_true, if_false, hfind, hvs, List.head?_nil]
  · unfold ListVersions
    simp only [VersionsFaults.none, Bool.false_eq_true, if_false, hfind, hvs, List.map_nil]

/-- C30: `GetPackageInfo` answers 404 only when no package row has the name,
and always then unless the package query fails. For a package row without
version rows it answers 500 "No versions found" where `ListVersions` answers
200 with the empty list; this is the state that `DeletePackage` leaves when it
removes the only version of a package, the package row staying in place. -/
theorem info_404_iff_no_package (cfg : Config) (f : InfoFaults) (name : String) (s : Registry)
    (hu : s.db.tables.uniqueNames) :
    ((GetPackageInfo f name s).status = 404 → ∀ p ∈ s.db.tables.packages, p.Name ≠ name) ∧
    ((GetPackageInfo InfoFaults.none name s).status = 404 ↔
      ∀ p ∈ s.db.tables.packages, p.Name ≠ name) ∧
    (∀ p ∈ s.db.tables.packages, p.Name = name →
      (∀ v ∈ s.db.tables.package_versions, v.PackageID ≠ p.ID) →
      GetPackageInfo InfoFaults.none name s = Response.fail 500 "No versions found" ∧
      ListVersions VersionsFaults.none name s
        = { status := 200, headers := [], body := Body.versions [] }) ∧
    (∀ p ∈ s.db.tables.packages, p.Name = name → ∀ v ∈ s.db.tables.package_versions,
      v.PackageID = p.ID → s.db.tables.uniqueVersions →
      (∀ w ∈ s.db.tables.package_versions, w.PackageID = p.ID → w = v) →
      (DeletePackage cfg DeleteFaults.none name v.Version s).2.status = 200 ∧
      p ∈ (DeletePackage cfg DeleteFaults.none name v.Version s).1.db.tables.packages ∧
      GetPackageInfo InfoFaults.none name (DeletePackage cfg DeleteFaults.none name v.Version s).1
        = Response.fail 500 "No versions found" ∧
      ListVersions VersionsFaults.none name
          (DeletePackage cfg DeleteFaults.none name v.Version s).1
        = { status := 200, headers := [], body := Body.versions [] }) := by
  have h404 : ∀ g : InfoFaults, (GetPackageInfo g name s).status = 404 →
      ∀ p ∈ s.db.tables.packages, p.Name ≠ name := by
    intro g h
    unfold GetPackageInfo at h
    by_cases hq : g.package = true
    · rw [if_pos hq] at h
      simp [Response.fail] at h
    · rw [if_neg hq] at h
      cases hf : s.db.tables.packageByName name with
      | none =>
        unfold Tables.packageByName at hf
        rw [List.find?_eq_none] at hf
        intro p hp
        simpa using hf p hp
      | some pkg =>
        rw [hf] at h
        simp only at h
        by_cases hv : g.version = true
        · rw [if_pos hv] at h
          simp [Response.fail] at h
        · rw [if_neg hv] at h
          cases hh : (s.db.tables.versionsOf pkg.ID).head? with
          | none =>
            rw [hh] at h
            simp [Response.fail] at h
          | some version =>
            rw [hh] at h
            simp only at h
            split_ifs at h <;> simp [Response.fail] at h
  refine ⟨h404 f, ⟨h404 InfoFaults.none, ?_⟩, ?_, ?_⟩
  · intro hno
    unfold GetPackageInfo
    simp [InfoFaults.none, Tables.packageByName_none hno, Response.fail]
  · intro p hp hn hnone
    subst hn
    exact info_of_no_versions hu hp hnone
  · intro p hp hn v hv hvp huv honly
    subst hn
    have hdel : DeletePackage cfg DeleteFaults.none p.Name v.Version s
        = ({ db := deleteVersion v.ID s.db,
             files := s.files.remove (cfg.artifactPath p.Name v.Version) },
           { status := 200, headers := [],
             body := Body.message "Package deleted successfully" }) := by
      unfold DeletePackage
      simp only [DeleteFaults.none, Bool.false_eq_true, if_false,
        Tables.versionByName_of_mem hu huv hp hv hvp]
    rw [hdel]
    refine ⟨rfl, hp, ?_⟩
    apply @info_of_no_versions
      { db := deleteVersion v.ID s.db,
        files := s.files.remove (cfg.artifactPath p.Name v.Version) } hu p hp
    intro w hw hwp
    simp only [deleteVersion, List.mem_filter, decide_eq_true_eq] at hw
    exact hw.2 (by rw [honly w hw.1 hwp])

/-- C30 on the registry whose package `gamma` has no version: 500 from
`GetPackageInfo`, 200 with the empty list from `ListVersions`. -/
theorem info_404_iff_no_package_witness :
    GetPackageInfo InfoFaults.none "gamma" trioRegistry
        = Response.fail 500 "No versions found" ∧
      ListVersions VersionsFaults.none "gamma" trioRegistry
        = { status := 200, headers := [], body := Body.versions [] } :=
  (info_404_iff_no_package demoConfig InfoFaults.none "gamma" trioRegistry
    (by simp [Tables.uniqueNames, trioRegistry])).2.2.1
    { ID := 3, Name := "gamma", Description := "third", Author := "ann", License := "MIT",
      Repository := "", Homepage := "", CreatedAt := 300 }
    (by simp [trioRegistry]) rfl (by simp [trioRegistry])

/-! ## Theorems: the `downloads` member of the package-info object -/

/-- The answer of `GetPackageInfo`, when no query fails, for a package whose
version rows are the single row `v`. -/
theorem GetPackageInfo_of_sole_version {s : Registry} (hu : s.db.tables.uniqueNames)
    {p : Package} {v : PackageVersion} (hp : p ∈ s.db.tables.packages)
    (hv : s.db.tables.package_versions.filter (fun w => decide (w.PackageID = p.ID)) = [v]) :
    GetPackageInfo InfoFaults.none p.Name s
      = { status := 200, headers := [],
          body := Body.info
            { Name := p.Name, Version := v.Version, Description := p.Description,
              Author := p.Author, License := p.License, DownloadURL := v.DownloadURL,
              Checksum := v.Checksum, Dependencies := s.db.tables.dependenciesOf v.ID,
              Repository := p.Repository, Homepage := p.Homepage,
              Keywords := s.db.tables.keywordsOf p.ID, PublishedAt := v.PublishedAt,
              Downloads := v.Downloads } } := by
  have hfind := Tables.packageByName_of_mem hu hp
  have hvs : s.db.tables.versionsOf p.ID = [v] := by
    unfold Tables.versionsOf orderByPublishedAtDesc
    rw [hv]
    rfl
  unfold GetPackageInfo
  simp only [InfoFaults.none, Bool.false_eq_true, if_false, hfind, hvs, List.head?_cons]

/-- The package and version tables after the first publish of a package, on a
store that meets the referential constraints: one row appended to each. -/
theorem publishedDatabase_of_first {db : Database} (now : Int) (r : PublishForm)
    (hfirst : ∀ p ∈ db.tables.packages, p.Name ≠ r.name) :
    (publishedDatabase now r db).tables.packages
      = db.tables.packages ++
          [{ ID := db.seqs.packages_id, Name := r.name, Description := r.description,
             Author := r.author, License := r.license, Repository := r.repository,
             Homepage := r.homepage, CreatedAt := now }] ∧
    (publishedDatabase now r db).tables.package_versions
      = db.tables.package_versions ++
          [{ ID := db.seqs.package_versions_id, PackageID := db.seqs.packages_id,
             Version := r.version, DownloadURL := downloadURL r.name r.version,
             Checksum := r.checksum, PublishedAt := now, Downloads := 0 }] := by
  constructor
  · rw [publishedDatabase_packages]
    exact upsertPackage_of_unknown now _ _ _ _ _ _ db hfirst
  · rw [publishedDatabase_versions]
    rcases upsertPackage_id_cases now r.name r.description r.author r.license r.repository
      r.homepage db with ⟨p, hp, hn, _⟩ | ⟨_, hid⟩
    · exact absurd hn (hfirst p hp)
    · rw [hid]

/-- On a store that meets the referential constraints no version row
references the next key of the package sequence. -/
theorem Database.WF.filter_next_package {db : Database} (hwf : db.WF) :
    db.tables.package_versions.filter (fun w => decide (w.PackageID = db.seqs.packages_id))
      = [] := by
  rw [List.filter_eq_nil_iff]
  intro w hw
  obtain ⟨p, hp, hpw⟩ := hwf.versionsRef w hw
  have := hwf.packagesSeq p hp
  simp only [decide_eq_true_eq]
  omega

/-- A download of the version in the last row of `package_versions`, which
belongs to the package in the last row of `packages`, when no other row has
that package name, references that package or has that version key: the
counter of that row goes up by one and every other row stays. -/
theorem DownloadPackage_of_last (cfg : Config) (s : Registry) (ps : List Package)
    (np : Package) (vs : List PackageVersion) (nv : PackageVersion)
    (hps : s.db.tables.packages = ps ++ [np]) (hvs : s.db.tables.package_versions = vs ++ [nv])
    (hname : ∀ p ∈ ps, p.Name ≠ np.Name) (href : ∀ w ∈ vs, w.PackageID ≠ np.ID)
    (hkey : ∀ w ∈ vs, w.ID ≠ nv.ID) (hnv : nv.PackageID = np.ID)
    (hd : nv.Downloads + 1 ≤ maxInteger) :
    (DownloadPackage cfg DownloadFaults.none np.Name nv.Version s).1.db.tables
      = { s.db.tables with
          package_versions := vs ++ [{ nv with Downloads := nv.Downloads + 1 }] } := by
  have hfind : s.db.tables.versionByName np.Name nv.Version = some nv := by
    unfold Tables.versionByName
    rw [hvs, hps, List.find?_append]
    have hnone : vs.find? (fun pv => decide (pv.Version = nv.Version) &&
        (ps ++ [np]).any (fun p => decide (pv.PackageID = p.ID ∧ p.Name = np.Name))) = none := by
      rw [List.find?_eq_none]
      intro w hw
      simp only [Bool.and_eq_true, decide_eq_true_eq, List.any_eq_true, not_and, not_exists]
      intro _ p hp
      rcases List.mem_append.mp hp with h | h
      · intro _ hn
        exact hname p h hn
      · rw [List.mem_singleton] at h
        subst h
        intro hh _
        exact href w hw hh
    rw [hnone]
    simp [hnv]
  have hinc : incrementDownloads nv.ID s.db
      = some { s.db with tables := { s.db.tables with
          package_versions := vs ++ [{ nv with Downloads := nv.Downloads + 1 }] } } := by
    unfold incrementDownloads
    have hany : (s.db.tables.package_versions.any
        (fun v => decide (v.ID = nv.ID ∧ v.Downloads + 1 > maxInteger))) = false := by
      rw [hvs, Bool.eq_false_iff]
      intro h
      obtain ⟨w, hw, hwp⟩ := List.any_eq_true.mp h
      simp only [decide_eq_true_eq] at hwp
      rcases List.mem_append.mp hw with h1 | h1
      · exact hkey w h1 hwp.1
      · rw [List.mem_singleton] at h1
        subst h1
        omega
    rw [hany]
    simp only [Bool.false_eq_true, if_false, Option.some.injEq]
    have hmap : s.db.tables.package_versions.map (fun v =>
        if v.ID = nv.ID then { v with Downloads := v.Downloads + 1 } else v)
        = vs ++ [{ nv with Downloads := nv.Downloads + 1 }] := by
      rw [hvs, List.map_append]
      congr 1
      · conv_rhs => rw [← List.map_id vs]
        apply List.map_congr_left
        intro w hw
        simp [hkey w hw]
      · simp
    rw [hmap]
  unfold DownloadPackage
  simp only [DownloadFaults.none, Bool.false_eq_true, if_false, hfind, hinc, Option.getD_some]
  split <;> rfl

/-- C24, amended: right after the first publish of a package, when nothing
fails and the values of the request fit their columns, the package-info object of `GetPackageInfo` reports the published
version and has no member `downloads`, the counter being 0 and the field
tagged `omitempty`; after one download resolution the object reports the same
version and its member `downloads` is 1. -/
theorem first_publish_downloads_member (sha256hex : List UInt8 → String) (cfg : Config)
    (now : Int) (username : String) (r : PublishForm) (s : Registry) (bytes : List UInt8)
    (hc : r.complete) (hfit : r.fits) (hup : r.package = Upload.file bytes)
    (hsum : sha256hex bytes = r.checksum) (hwf : s.db.WF) (hu : s.db.tables.uniqueNames)
    (hfirst : ∀ p ∈ s.db.tables.packages, p.Name ≠ r.name) :
    ∃ i1 i2 : PackageInfo,
      GetPackageInfo InfoFaults.none r.name
          (PublishPackage sha256hex cfg PublishFaults.none now username (some r) s).1
        = { status := 200, headers := [], body := Body.info i1 } ∧
      i1.Version = r.version ∧ i1.Downloads = 0 ∧
      i1.marshal.lookup "version" = some (JSON.str r.version) ∧
      i1.marshal.lookup "downloads" = none ∧
      GetPackageInfo InfoFaults.none r.name
          (DownloadPackage cfg DownloadFaults.none r.name r.version
            (PublishPackage sha256hex cfg PublishFaults.none now username (some r) s).1).1
        = { status := 200, headers := [], body := Body.info i2 } ∧
      i2.Version = r.version ∧
      i2.marshal.lookup "version" = some (JSON.str r.version) ∧
      i2.marshal.lookup "downloads" = some (JSON.num 1) := by
  have hnew : ¬ s.db.tables.hasVersion r.name r.version := by
    rintro ⟨p, hp, hn, _⟩
    exact hfirst p hp hn
  have hpub : (PublishPackage sha256hex cfg PublishFaults.none now username (some r) s).1.db
      = publishedDatabase now r s.db := by
    rw [PublishPackage_of_verified sha256hex cfg PublishFaults.none now username r s bytes hc
      hup hsum]
    simp only [PublishFaults.none, Bool.false_eq_true, if_false]
    exact congrArg Prod.fst (publishTx_of_new hwf now username r hfit hnew)
  obtain ⟨hps, hvs⟩ := @publishedDatabase_of_first s.db now r hfirst
  have hinv := PublishPackage_inv sha256hex cfg PublishFaults.none now username (some r) hwf hu
  generalize (PublishPackage sha256hex cfg PublishFaults.none now username (some r) s).1 = s1
    at hpub hinv ⊢
  rw [← hpub] at hps hvs
  have hfilter := hwf.filter_next_package
  have hp1 : (⟨s.db.seqs.packages_id, r.name, r.description, r.author, r.license, r.repository,
      r.homepage, now⟩ : Package) ∈ s1.db.tables.packages := by
    rw [hps]
    exact List.mem_append_right _ (List.mem_singleton_self _)
  have hv1 : s1.db.tables.package_versions.filter
      (fun w => decide (w.PackageID = s.db.seqs.packages_id))
      = [(⟨s.db.seqs.package_versions_id, s.db.seqs.packages_id, r.version,
      downloadURL r.name r.version, r.checksum, now, 0⟩ : PackageVersion)] := by
    rw [hvs, List.filter_append, hfilter]
    simp
  have hinfo1 := GetPackageInfo_of_sole_version hinv.2 hp1 hv1
  have hdl := DownloadPackage_of_last cfg s1 s.db.tables.packages
    (⟨s.db.seqs.packages_id, r.name, r.description, r.author, r.license, r.repository,
      r.homepage, now⟩ : Package)
    s.db.tables.package_versions
    (⟨s.db.seqs.package_versions_id, s.db.seqs.packages_id, r.version,
      downloadURL r.name r.version, r.checksum, now, 0⟩ : PackageVersion)
    hps hvs hfirst
    (by
      intro w hw
      obtain ⟨p, hp, hpw⟩ := hwf.versionsRef w hw
      have := hwf.packagesSeq p hp
      show w.PackageID ≠ s.db.seqs.packages_id
      omega)
    (by
      intro w hw
      have := hwf.versionsSeq w hw
      show w.ID ≠ s.db.seqs.package_versions_id
      omega)
    rfl (by simp [maxInteger])
  simp only at hdl hinfo1
  generalize (DownloadPackage cfg DownloadFaults.none r.name r.version s1).1 = s2 at hdl ⊢
  have hp2 : (⟨s.db.seqs.packages_id, r.name, r.description, r.author, r.license, r.repository,
      r.homepage, now⟩ : Package) ∈ s2.db.tables.packages := by
    rw [hdl]
    exact hp1
  have hu2 : s2.db.tables.uniqueNames := by
    unfold Tables.uniqueNames
    rw [hdl]
    exact hinv.2
  have hv2 : s2.db.tables.package_versions.filter
      (fun w => decide (w.PackageID = s.db.seqs.packages_id))
      = [(⟨s.db.seqs.package_versions_id, s.db.seqs.packages_id, r.version,
      downloadURL r.name r.version, r.checksum, now, 0 + 1⟩ : PackageVersion)] := by
    rw [hdl]
    simp only
    rw [List.filter_append, hfilter]
    simp
  have hinfo2 := GetPackageInfo_of_sole_version hu2 hp2 hv2
  simp only at hinfo2
  refine ⟨_, _, hinfo1, rfl, rfl, ?_, ?_, hinfo2, rfl, ?_, ?_⟩
  · simp [PackageInfo.marshal, List.lookup]
  · simp [PackageInfo.marshal, List.lookup]
  · simp [PackageInfo.marshal, List.lookup]
  · simp [PackageInfo.marshal, List.lookup]

/-- C24 as stated fails: right after the publish of `alpha` 1.0.0 on a fresh
installation the package-info object has the twelve members below and no
member `downloads`. -/
theorem first_publish_downloads_counterexample :
    (GetPackageInfo InfoFaults.none "alpha"
      (PublishPackage letterDigest demoConfig PublishFaults.none 100 "bob"
        (some (alphaForm [1, 2] "bc")) Registry.empty).1).infoObject
      = some [("name", JSON.str "alpha"), ("version", JSON.str "1.0.0"),
              ("description", JSON.str "first"), ("author", JSON.str "ann"),
              ("license", JSON.str "MIT"),
              ("download_url", JSON.str (downloadURL "alpha" "1.0.0")),
              ("checksum", JSON.str "bc"), ("dependencies", JSON.strs ["beta"]),
              ("repository", JSON.str ""), ("homepage", JSON.str ""),
              ("keywords", JSON.strs ["demo"]), ("published_at", JSON.time 100)] := by
  decide

/-- C24, amended, for the publish of `alpha` 1.0.0 on a fresh installation and
one download of it. -/
theorem first_publish_downloads_member_witness :
    ∃ i1 i2 : PackageInfo,
      GetPackageInfo InfoFaults.none "alpha"
          (PublishPackage letterDigest demoConfig PublishFaults.none 100 "bob"
            (some (alphaForm [1, 2] "bc")) Registry.empty).1
        = { status := 200, headers := [], body := Body.info i1 } ∧
      i1.Version = "1.0.0" ∧ i1.Downloads = 0 ∧
      i1.marshal.lookup "version" = some (JSON.str "1.0.0") ∧
      i1.marshal.lookup "downloads" = none ∧
      GetPackageInfo InfoFaults.none "alpha"
          (DownloadPackage demoConfig DownloadFaults.none "alpha" "1.0.0"
            (PublishPackage letterDigest demoConfig PublishFaults.none 100 "bob"
              (some (alphaForm [1, 2] "bc")) Registry.empty).1).1
        = { status := 200, headers := [], body := Body.info i2 } ∧
      i2.Version = "1.0.0" ∧
      i2.marshal.lookup "version" = some (JSON.str "1.0.0") ∧
      i2.marshal.lookup "downloads" = some (JSON.num 1) :=
  first_publish_downloads_member letterDigest demoConfig 100 "bob" (alphaForm [1, 2] "bc")
    Registry.empty [1, 2] (by decide) (by decide) rfl (by decide) Database.empty_WF
    (by simp [Tables.uniqueNames, Registry.empty, Database.empty])
    (by simp [Registry.empty, Database.empty])

/-! ## Theorems: the sliding window -/

/-- A timestamp that the filter of the limiter drops is at least a window
old. -/
theorem Time.le_sub_of_not_lt {now t w : Int} (hw : 0 < w) (h : ¬ Time.Sub now t < w) :
    w ≤ now - t := by
  unfold Time.Sub at h
  simp only [maxDuration, minDuration] at h
  split_ifs at h <;> omega

theorem countIn_append (s w : Int) (a b : List Int) :
    countIn s w (a ++ b) = countIn s w a + countIn s w b := by
  simp [countIn, List.filter_append]

theorem countIn_perm (s w : Int) {a b : List Int} (h : a.Perm b) :
    countIn s w a = countIn s w b := by
  unfold countIn
  exact (h.filter _).length_eq

theorem countIn_le_length (s w : Int) (a : List Int) : countIn s w a ≤ a.length := by
  unfold countIn
  exact List.length_filter_le _ _

/-- Timestamps that are a window old at reading `now` are outside every
interval of the length of the window that holds `now`. -/
theorem countIn_expired {s w now : Int} {e : List Int} (he : ∀ t ∈ e, w ≤ now - t)
    (hs : now < s + w) : countIn s w e = 0 := by
  unfold countIn
  rw [List.length_eq_zero, List.filter_eq_nil_iff]
  intro t ht
  have := he t ht
  simp only [decide_eq_true_eq, not_and, not_lt]
  intro h1
  omega

theorem WindowInv.mono {limit window : Int} {rl : RateLimiter} {ip : String} {c c1 : Int}
    {admitted : List Int} (h : WindowInv limit window rl ip c admitted) (hc : c ≤ c1) :
    WindowInv limit window rl ip c1 admitted := by
  obtain ⟨e, hp, he⟩ := h.split
  refine ⟨h.limit_eq, h.window_eq, h.limit_pos, h.window_pos, ⟨e, hp, ?_⟩, h.bound⟩
  intro t ht
  have := he t ht
  omega

/-- The timestamps of a history split into those the filter keeps and those
it drops, which are a window old. -/
theorem RateLimiter.filtered_split (rl : RateLimiter) (hw : 0 < rl.window) (now : Int)
    (ts : List Int) :
    ∃ dropped : List Int, ts.Perm (dropped ++ rl.filtered now ts) ∧
      ∀ t ∈ dropped, rl.window ≤ now - t := by
  refine ⟨ts.filter (fun t => !decide (Time.Sub now t < rl.window)), ?_, ?_⟩
  · unfold RateLimiter.filtered
    exact ((List.filter_append_perm (fun t => decide (Time.Sub now t < rl.window)) ts).symm.trans
      List.perm_append_comm)
  · intro t ht
    simp only [List.mem_filter, Bool.not_eq_true', decide_eq_false_iff_not] at ht
    exact Time.le_sub_of_not_lt hw ht.2

/-- The invariant passes to a state whose history of the client is what the
filter keeps of the old one at the current reading. -/
theorem WindowInv.of_filtered {limit window : Int} {rl rl1 : RateLimiter} {ip : String}
    {now : Int} {admitted : List Int} (h : WindowInv limit window rl ip now admitted)
    (hl : rl1.limit = rl.limit) (hw : rl1.window = rl.window)
    (hh : rl1.history ip = rl.filtered now (rl.history ip)) :
    WindowInv limit window rl1 ip now admitted := by
  obtain ⟨e, hp, he⟩ := h.split
  obtain ⟨d, hdp, hd⟩ := rl.filtered_split (by rw [h.window_eq]; exact h.window_pos) now
    (rl.history ip)
  refine ⟨by rw [hl, h.limit_eq], by rw [hw, h.window_eq], h.limit_pos, h.window_pos,
    ⟨e ++ d, ?_, ?_⟩, h.bound⟩
  · rw [hh, List.append_assoc]
    exact hp.trans (List.Perm.append_left e hdp)
  · intro t ht
    rcases List.mem_append.mp ht with h1 | h1
    · exact he t h1
    · have := hd t h1
      rw [h.window_eq] at this
      exact this

/-- The invariant passes to a state that admits a request at reading `now`
when the history afterwards is `kept ++ [now]`, `kept` being fewer than the
limit and, with timestamps a window old, the requests admitted so far. -/
theorem WindowInv.step_admitted {limit window : Int} {rl rl1 : RateLimiter} {ip : String}
    {now : Int} {admitted kept : List Int} (h : WindowInv limit window rl ip now admitted)
    (hl : rl1.limit = rl.limit) (hw : rl1.window = rl.window)
    (hh : rl1.history ip = kept ++ [now])
    (hsplit : ∃ e : List Int, admitted.Perm (e ++ kept) ∧ ∀ t ∈ e, window ≤ now - t)
    (hroom : (kept.length : Int) + 1 ≤ limit) :
    WindowInv limit window rl1 ip now (admitted ++ [now]) := by
  obtain ⟨e, hp, he⟩ := hsplit
  refine ⟨by rw [hl, h.limit_eq], by rw [hw, h.window_eq], h.limit_pos, h.window_pos,
    ⟨e, ?_, he⟩, ?_⟩
  · rw [hh, ← List.append_assoc]
    exact List.Perm.append_right [now] hp
  · intro s
    rw [countIn_append]
    by_cases hin : s ≤ now ∧ now < s + window
    · have h1 : countIn s window admitted = countIn s window kept := by
        rw [countIn_perm s window hp, countIn_append, countIn_expired he hin.2, Nat.zero_add]
      have h2 := countIn_le_length s window kept
      have h3 : countIn s window [now] ≤ 1 := countIn_le_length s window [now]
      rw [h1]
      push_cast
      omega
    · have h3 : countIn s window [now] = 0 := by
        simp [countIn, hin]
      rw [h3]
      exact h.bound s

theorem RateLimiter.cleanup_history (rl : RateLimiter) (ip : String) (now : Int) :
    (rl.cleanup now).history ip = rl.filtered now (rl.history ip) := by
  unfold RateLimiter.cleanup RateLimiter.history
  cases h : rl.requests ip with
  | none =>
    simp only [h]
    rfl
  | some times =>
    simp only [h, Option.getD_some]
    by_cases hz : (rl.filtered now times).length = 0
    · rw [if_pos hz]
      rw [List.length_eq_zero] at hz
      rw [hz]
      rfl
    · rw [if_neg hz]
      rfl

/-- A request of another client leaves the history, the limit and the window
of this client's limiter as they are. -/
theorem RateLimiter.Middleware_other (rl : RateLimiter) {ip client : String} (now : Int)
    (hne : client ≠ ip) :
    (rl.Middleware client now).1.history ip = rl.history ip ∧
    (rl.Middleware client now).1.limit = rl.limit ∧
    (rl.Middleware client now).1.window = rl.window := by
  have hstore : ∀ ts, (rl.store client ts).history ip = rl.history ip := by
    intro ts
    unfold RateLimiter.store RateLimiter.history
    simp only
    rw [if_neg (Ne.symm hne)]
  cases h : rl.requests client with
  | none =>
    rw [RateLimiter.Middleware_of_none now h]
    exact ⟨hstore _, rfl, rfl⟩
  | some ts =>
    by_cases hfull : ((rl.filtered now ts).length : Int) ≥ rl.limit
    · rw [RateLimiter.Middleware_of_full now h hfull]
      exact ⟨rfl, rfl, rfl⟩
    · rw [RateLimiter.Middleware_of_room now h hfull]
      exact ⟨hstore _, rfl, rfl⟩

/-- One request of the client keeps the invariant, the request joining the
admitted ones when the next handler ran. -/
theorem WindowInv.request {limit window : Int} {rl : RateLimiter} {ip : String} {now : Int}
    {admitted : List Int} (h : WindowInv limit window rl ip now admitted) :
    WindowInv limit window (rl.Middleware ip now).1 ip now
      (if (rl.Middleware ip now).2.next = true then admitted ++ [now] else admitted) := by
  have hhist : ∀ ts, (rl.store ip ts).history ip = ts := by
    intro ts
    simp [RateLimiter.history]
  cases hreq : rl.requests ip with
  | none =>
    rw [RateLimiter.Middleware_of_none now hreq]
    simp only [if_true]
    have hempty : rl.history ip = [] := by simp [RateLimiter.history, hreq]
    obtain ⟨e, hp, he⟩ := h.split
    rw [hempty] at hp
    refine WindowInv.step_admitted h rfl rfl (hhist _) ⟨e, hp, he⟩ ?_
    have := h.limit_pos
    simp only [List.length_nil, Nat.cast_zero]
    omega
  | some ts =>
    have hts : rl.history ip = ts := by simp [RateLimiter.history, hreq]
    by_cases hfull : ((rl.filtered now ts).length : Int) ≥ rl.limit
    · rw [RateLimiter.Middleware_of_full now hreq hfull]
      simpa using h
    · rw [RateLimiter.Middleware_of_room now hreq hfull]
      simp only [if_true]
      have hmid : WindowInv limit window (rl.store ip (rl.filtered now ts)) ip now admitted :=
        WindowInv.of_filtered h rfl rfl (by rw [hhist, hts])
      have hsp := hmid.split
      rw [hhist] at hsp
      refine WindowInv.step_admitted h rfl rfl (hhist _) hsp ?_
      rw [h.limit_eq] at hfull
      omega

/-- From a state that keeps the invariant, whatever events follow at readings
that do not go back, no interval of the length of the window holds more
admitted requests of the client than the limit. -/
theorem WindowInv.run {limit window : Int} {ip : String} (events : List Event) :
    ∀ (rl : RateLimiter) (c : Int) (admitted : List Int),
      WindowInv limit window rl ip c admitted → (∀ e ∈ events, c ≤ e.time) →
      (events.map Event.time).Pairwise (fun a b => a ≤ b) →
      ∀ s : Int, (countIn s window (admitted ++ rl.admittedTimes ip events) : Int) ≤ limit := by
  induction events with
  | nil =>
    intro rl c admitted h _ _ s
    simpa [RateLimiter.admittedTimes] using h.bound s
  | cons e rest ih =>
    intro rl c admitted h hge hmono s
    rw [List.map_cons, List.pairwise_cons] at hmono
    have hrest : ∀ e1 ∈ rest, e.time ≤ e1.time := fun e1 h1 =>
      hmono.1 e1.time (List.mem_map_of_mem _ h1)
    have hnow := h.mono (hge e (List.mem_cons_self _ _))
    cases e with
    | cleanup now =>
      simp only [Event.time] at hrest hnow
      unfold RateLimiter.admittedTimes
      exact ih (rl.cleanup now) now admitted
        (WindowInv.of_filtered hnow rfl rfl (rl.cleanup_history ip now)) hrest hmono.2 s
    | request client now =>
      simp only [Event.time] at hrest hnow
      unfold RateLimiter.admittedTimes
      by_cases hc : client = ip
      · subst hc
        have hstep := WindowInv.request hnow
        by_cases hn : (rl.Middleware client now).2.next = true
        · rw [if_pos ⟨rfl, hn⟩]
          rw [if_pos hn] at hstep
          have := ih _ now _ hstep hrest hmono.2 s
          simpa using this
        · rw [if_neg (fun hh => hn hh.2)]
          rw [if_neg hn] at hstep
          exact ih _ now _ hstep hrest hmono.2 s
      · rw [if_neg (fun hh => hc hh.1)]
        obtain ⟨h1, h2, h3⟩ := rl.Middleware_other now hc
        obtain ⟨ex, hp, he⟩ := hnow.split
        have hstep : WindowInv limit window (rl.Middleware client now).1 ip now admitted :=
          ⟨by rw [h2, hnow.limit_eq], by rw [h3, hnow.window_eq], hnow.limit_pos,
           hnow.window_pos, ⟨ex, by rw [h1]; exact hp, he⟩, hnow.bound⟩
        exact ih _ now _ hstep hrest hmono.2 s

/-- C27: for every limit of at least 1 and every positive window, whatever
requests and cleanup passes follow on the empty limiter at clock readings that
do not go back, for every client and every instant `s` the requests of the
client that were admitted with a timestamp in `[s, s + window)` are at most
`limit`. -/
theorem admitted_per_window_le_limit (limit window : Int) (hl : 1 ≤ limit) (hw : 0 < window)
    (events : List Event) (hmono : (events.map Event.time).Pairwise (fun a b => a ≤ b))
    (ip : String) (s : Int) :
    (countIn s window ((NewRateLimiter limit window).admittedTimes ip events) : Int)
      ≤ limit := by
  have hinit : ∀ c, WindowInv limit window (NewRateLimiter limit window) ip c [] := by
    intro c
    refine ⟨rfl, rfl, hl, hw, ⟨[], ?_, ?_⟩, ?_⟩
    · simp [RateLimiter.history, NewRateLimiter]
    · intro t ht
      cases ht
    · intro s1
      simp only [countIn, List.filter_nil, List.length_nil, Nat.cast_zero]
      omega
  cases events with
  | nil =>
    simp only [RateLimiter.admittedTimes, countIn, List.filter_nil, List.length_nil,
      Nat.cast_zero]
    omega
  | cons e rest =>
    have hge : ∀ e1 ∈ e :: rest, e.time ≤ e1.time := by
      intro e1 h1
      rcases List.mem_cons.mp h1 with h2 | h2
      · rw [h2]
      · rw [List.map_cons, List.pairwise_cons] at hmono
        exact hmono.1 e1.time (List.mem_map_of_mem _ h2)
    have := WindowInv.run (e :: rest) (NewRateLimiter limit window) e.time [] (hinit e.time)
      hge hmono s
    simpa using this

/-- C27 at a limiter of limit 2 and window 10 for three requests of one client
at readings 0, 1 and 2 with a cleanup pass in between: two are admitted, and
the interval from 0 holds two admitted requests. -/
theorem admitted_per_window_le_limit_witness :
    (NewRateLimiter 2 10).admittedTimes "10.0.0.1"
        [Event.request "10.0.0.1" 0, Event.cleanup 1, Event.request "10.0.0.1" 1,
         Event.request "10.0.0.1" 2] = [0, 1] ∧
    (countIn 0 10 ((NewRateLimiter 2 10).admittedTimes "10.0.0.1"
        [Event.request "10.0.0.1" 0, Event.cleanup 1, Event.request "10.0.0.1" 1,
         Event.request "10.0.0.1" 2]) : Int) ≤ 2 :=
  ⟨by decide,
   admitted_per_window_le_limit 2 10 (by decide) (by decide)
     [Event.request "10.0.0.1" 0, Event.cleanup 1, Event.request "10.0.0.1" 1,
      Event.request "10.0.0.1" 2] (by simp [Event.time]) "10.0.0.1" 0⟩

/-! ## Theorems: the artifact key of validated names and versions -/

/-- Two texts cut at the first occurrence of a character agree piece by
piece when they agree as wholes. -/
theorem List.append_cons_inj_of_not_mem {α : Type} {c : α} :
    ∀ {a b x y : List α}, c ∉ a → c ∉ b → a ++ c :: x = b ++ c :: y → a = b ∧ x = y := by
  intro a
  induction a with
  | nil =>
    intro b x y _ hb h
    cases b with
    | nil =>
      simp only [List.nil_append, List.cons.injEq, true_and] at h
      exact ⟨rfl, h⟩
    | cons b0 b1 =>
      simp only [List.nil_append, List.cons_append, List.cons.injEq] at h
      exact absurd (List.mem_cons.mpr (Or.inl h.1)) hb
  | cons a0 a1 ih =>
    intro b x y ha hb h
    cases b with
    | nil =>
      simp only [List.nil_append, List.cons_append, List.cons.injEq] at h
      exact absurd (List.mem_cons.mpr (Or.inl h.1.symm)) ha
    | cons b0 b1 =>
      simp only [List.cons_append, List.cons.injEq] at h
      obtain ⟨h1, h2⟩ := ih (fun hm => ha (List.mem_cons_of_mem _ hm))
        (fun hm => hb (List.mem_cons_of_mem _ hm)) h.2
      exact ⟨by rw [h.1, h1], h2⟩

/-- Two texts cut at the last occurrence of a character agree piece by piece
when they agree as wholes. -/
theorem List.append_cons_inj_of_not_mem_right {α : Type} {c : α} {a b x y : List α}
    (hx : c ∉ x) (hy : c ∉ y) (h : a ++ c :: x = b ++ c :: y) : a = b ∧ x = y := by
  have hr := congrArg List.reverse h
  simp only [List.reverse_append, List.reverse_cons, List.append_assoc, List.singleton_append]
    at hr
  obtain ⟨h1, h2⟩ := List.append_cons_inj_of_not_mem (c := c)
    (by simpa using hx) (by simpa using hy) hr
  exact ⟨List.reverse_injective h2, List.reverse_injective h1⟩

/-- What `digitRun` strips is a run of digits. -/
theorem digitRun_some {cs rest : List Char} (h : digitRun cs = some rest) :
    ∃ d : List Char, cs = d ++ rest ∧ ∀ c ∈ d, c.isDigit = true := by
  unfold digitRun at h
  split_ifs at h
  simp only [Option.some.injEq] at h
  refine ⟨cs.takeWhile Char.isDigit, ?_, ?_⟩
  · rw [← h, List.takeWhile_append_dropWhile]
  · intro c hc
    exact List.mem_takeWhile_imp hc

/-- A text that `versionRegex` matches is a run of digits, a dot and a rest. -/
theorem matchVersion_shape {cs : List Char} (h : matchVersion cs = true) :
    ∃ d r : List Char, cs = d ++ '.' :: r ∧ ∀ c ∈ d, c.isDigit = true := by
  unfold matchVersion at h
  split at h
  · rename_i r1 hd
    obtain ⟨d, hcs, hdig⟩ := digitRun_some hd
    exact ⟨d, r1, hcs, hdig⟩
  · cases h

/-- A text that `packageNameRegex` matches has no dot. -/
theorem matchPackageName_no_dot {cs : List Char} (h : matchPackageName cs = true) :
    '.' ∉ cs := by
  unfold matchPackageName at h
  simp only [Bool.and_eq_true, List.all_eq_true] at h
  intro hm
  have := h.2 '.' hm
  revert this
  decide

/-- C28: for names that `ValidatePackageName` accepts and versions that
`ValidateVersion` accepts, the artifact file names
`name + "-" + version + ".tar.gz"` of two pairs are equal only if the names
are equal and the versions are equal. -/
theorem artifactName_injective_on_validated (n1 n2 v1 v2 : String)
    (hn1 : ValidatePackageName n1 = true) (hn2 : ValidatePackageName n2 = true)
    (hv1 : ValidateVersion v1 = true) (hv2 : ValidateVersion v2 = true)
    (h : artifactName n1 v1 = artifactName n2 v2) : n1 = n2 ∧ v1 = v2 := by
  have hm1 : matchPackageName n1.data = true := by
    unfold ValidatePackageName at hn1
    split_ifs at hn1
    exact hn1
  have hm2 : matchPackageName n2.data = true := by
    unfold ValidatePackageName at hn2
    split_ifs at hn2
    exact hn2
  have hw1 : matchVersion v1.data = true := by
    unfold ValidateVersion at hv1
    split_ifs at hv1
    exact hv1
  have hw2 : matchVersion v2.data = true := by
    unfold ValidateVersion at hv2
    split_ifs at hv2
    exact hv2
  obtain ⟨d1, r1, e1, hd1⟩ := matchVersion_shape hw1
  obtain ⟨d2, r2, e2, hd2⟩ := matchVersion_shape hw2
  have hdata := congrArg String.data h
  simp only [artifactName, String.data_append] at hdata
  have hcut := List.append_cancel_right hdata
  rw [e1, e2] at hcut
  have hcut2 : (n1.data ++ '-' :: d1) ++ '.' :: r1 = (n2.data ++ '-' :: d2) ++ '.' :: r2 := by
    simpa using hcut
  have hnodot : ∀ (n d : List Char), '.' ∉ n → (∀ c ∈ d, c.isDigit = true) →
      '.' ∉ n ++ '-' :: d := by
    intro n d hn hd hm
    rcases List.mem_append.mp hm with h1 | h1
    · exact hn h1
    · rcases List.mem_cons.mp h1 with h2 | h2
      · revert h2
        decide
      · have := hd '.' h2
        revert this
        decide
  obtain ⟨hleft, hr⟩ := List.append_cons_inj_of_not_mem
    (hnodot _ _ (matchPackageName_no_dot hm1) hd1)
    (hnodot _ _ (matchPackageName_no_dot hm2) hd2) hcut2
  have hnodash : ∀ d : List Char, (∀ c ∈ d, c.isDigit = true) → '-' ∉ d := by
    intro d hd hm
    have := hd '-' hm
    revert this
    decide
  obtain ⟨hn, hd⟩ := List.append_cons_inj_of_not_mem_right (hnodash d1 hd1) (hnodash d2 hd2)
    hleft
  constructor
  · exact String.ext hn
  · apply String.ext
    rw [e1, e2, hd, hr]

/-- C28 at the accepted name `a-b` and the accepted version `1.0.0-rc.1`.
The version `c` of the colliding registry is not accepted, so its pairs are
outside the claim. -/
theorem artifactName_injective_on_validated_witness :
    ValidatePackageName "a-b" = true ∧ ValidateVersion "1.0.0-rc.1" = true ∧
    ValidateVersion "c" = false ∧ ("a-b" = "a-b" ∧ "1.0.0-rc.1" = "1.0.0-rc.1") :=
  ⟨by decide, by decide, by decide,
   artifactName_injective_on_validated "a-b" "a-b" "1.0.0-rc.1" "1.0.0-rc.1" (by decide)
     (by decide) (by decide) (by decide) rfl⟩

/-! ## Theorems: `SanitizeString` -/

/-- C29 fails on the code: each pattern is removed in one pass from the left
and the patterns one after the other, so a pattern that a removal puts
together stays. The text `<scr<scriptipt>alert(1)</scr</scriptipt>` comes out
as `<script>alert(1)</script>`, which contains `<script` and `</script`, and
`<scronload=ipt` comes out as `<script`. -/
theorem sanitize_leaves_script :
    SanitizeString "<scr<scriptipt>alert(1)</scr</scriptipt>" 100
      = some "<script>alert(1)</script>" ∧
    isSubstring "<script".data "<script>alert(1)</script>".data = true ∧
    isSubstring "</script".data "<script>alert(1)</script>".data = true ∧
    SanitizeString "<scronload=ipt" 100 = some "<script" := by
  decide

/-! ## Theorems: `Module.Inspect` -/

/-- For a loaded module one pass of the loop of `Inspect` adds the entry of
the function and a line break to the builder. -/
theorem Module.inspectStep_eq (m : Module) (hl : m.loaded = true) (builder funcName : String) :
    m.inspectStep builder funcName = builder ++ (m.entry funcName ++ "\n") := by
  unfold Module.inspectStep Module.GetFunctionInfo Module.entry renderParameters
  rw [if_neg (by simp [hl])]
  cases m.getInfo funcName with
  | none =>
    apply String.ext
    simp [String.data_append]
  | some info => simp only [String.append_assoc]

/-- The loop of `Inspect` over the function names adds their entries in
order, one line break after each. -/
theorem Module.foldl_inspectStep (m : Module) (hl : m.loaded = true) (fs : List String) :
    ∀ builder : String,
      fs.foldl m.inspectStep builder
        = builder ++ String.join (fs.map (fun f => m.entry f ++ "\n")) := by
  induction fs with
  | nil =>
    intro builder
    apply String.ext
    simp [String.join_eq]
  | cons f rest ih =>
    intro builder
    rw [List.foldl_cons, ih, m.inspectStep_eq hl]
    apply String.ext
    simp [String.join_eq]

/-- The line breaks in the entries of the functions, each followed by its
line break, are as many as the functions when no entry has one inside. -/
theorem count_newline_entries (g : String → String) (fs : List String)
    (h : ∀ f ∈ fs, '\n' ∉ (g f).data) :
    (String.join (fs.map (fun f => g f ++ "\n"))).data.count '\n' = fs.length := by
  induction fs with
  | nil => simp [String.join_eq]
  | cons f rest ih =>
    have hrest := ih (fun x hx => h x (List.mem_cons_of_mem _ hx))
    have hf : (g f).data.count '\n' = 0 := List.count_eq_zero_of_not_mem (h f (List.mem_cons_self _ _))
    rw [String.join_eq] at hrest ⊢
    simp only [List.map_cons, List.map_map, List.flatten_cons, String.data_append,
      List.count_append, hf] at hrest ⊢
    rw [hrest]
    have : List.count '\n' ['\n'] = 1 := by decide
    simp only [List.length_cons]
    omega

/-- C25: for a module whose `ListFunctions` returns the names `fs`, `Inspect`
returns "Module contains no functions" when there is none, and otherwise
"Module contains n function(s):", a blank line and then one entry per listed
function, in list order and each ended by a line break: for a function whose
info is available the entry is two spaces, the name, the parameters as
`pname: ptype` joined by `, ` in parentheses, ` -> ` and the return type. The
entries are as many as the functions, and as many are the line breaks after
the heading when no entry has a line break inside. -/
theorem inspect_lists_functions (m : Module) (fs : List String)
    (h : m.ListFunctions = Except.ok fs) :
    (fs = [] → m.Inspect = Except.ok "Module contains no functions") ∧
    (fs ≠ [] →
      m.Inspect = Except.ok
        ("Module contains " ++ toString fs.length ++ " function(s):\n\n" ++
          String.join (fs.map (fun f => m.entry f ++ "\n")))) ∧
    (∀ f info, m.getInfo f = some info →
      m.entry f = "  " ++ info.Name ++ "(" ++
        ", ".intercalate (info.Parameters.map (fun p => p.Name ++ ": " ++ p.Type_)) ++
        ") -> " ++ info.ReturnType) ∧
    (fs.map (fun f => m.entry f ++ "\n")).length = fs.length ∧
    ((∀ f ∈ fs, '\n' ∉ (m.entry f).data) →
      (String.join (fs.map (fun f => m.entry f ++ "\n"))).data.count '\n' = fs.length) := by
  have hl : m.loaded = true := by
    unfold Module.ListFunctions at h
    by_contra hn
    rw [if_pos (by simpa using hn)] at h
    cases h
  refine ⟨?_, ?_, ?_, by simp, count_newline_entries m.entry fs⟩
  · intro he
    unfold Module.Inspect
    rw [h, he]
    rfl
  · intro hne
    unfold Module.Inspect
    rw [h]
    simp only
    rw [if_neg (by simpa using hne), m.foldl_inspectStep hl]
  · intro f info hf
    unfold Module.entry renderParameters
    rw [hf]

/-- C25 for the module of the inspection test, with the functions `add` and
`greet`. -/
theorem inspect_lists_functions_witness :
    demoModule.ListFunctions = Except.ok ["add", "greet"] ∧
    demoModule.Inspect = Except.ok
      ("Module contains " ++ toString 2 ++ " function(s):\n\n" ++
        String.join (["add", "greet"].map (fun f => demoModule.entry f ++ "\n"))) ∧
    "Module contains " ++ toString 2 ++ " function(s):\n\n" ++
        String.join (["add", "greet"].map (fun f => demoModule.entry f ++ "\n"))
      = "Module contains 2 function(s):\n\n  add(a: int, b: int) -> int\n  greet(name: string) -> string\n" :=
  ⟨rfl, (inspect_lists_functions demoModule ["add", "greet"] rfl).2.1 (by decide), by decide⟩

end Flow
